import Mathlib

/-!
# spectre-dnsseeder: the address table, the user-agent gate and the handshake

A shallow embedding of `manager.go` (the table of known peers, its classifier
and its snapshot), of `checkversion/checkversion.go` (the user-agent gate) and
of `handleHandshake` of `netadapter/dnsseed_net_adapter.go`, followed by the
properties proved of them.

Conventions of the embedding.

* An instant (`time.Time`) is the number of nanoseconds elapsed since the zero
  value of `time.Time`; the zero instant is `0`, which is what `IsZero` tests.
  A duration (`time.Duration`, an `int64` count of nanoseconds) is an integer
  and `Time.Sub` saturates to the 64-bit range, as in the Go runtime.
* Every call of `time.Now()` inside one operation reads the same instant `now`,
  which the operation takes as an argument. `time.Now()` reads the system clock,
  which counts from the Unix epoch (`unixEpoch`); where a statement is about
  what the classifier does at every reading of the clock, it is stated for the
  instants from `unixEpoch` on.
* The Go map `map[string]*Node` is an association list. The order of the list is
  the order in which a `range` loop visits the entries; Go leaves that order
  unspecified, and every statement below holds for every order.
* What the code reads from other packages (the routability predicate, the
  textual form of an IP, the configured thread count and default port) is
  gathered in `Env`.
* The table is embedded twice. `Manager` is a table that holds no nil pointer,
  which is every table the operations build up from the empty map; `Ptr.Manager`
  is a table as the snapshot file can produce it, with a nil map, nil nodes and
  nil addresses, on which an operation can panic. The two agree on tables
  without nil pointers (`Ptr_operations_complete_without_nil`).
-/

namespace Dnsseeder

/-! ## Time -/

/-- An instant: nanoseconds since the zero value of `time.Time`. -/
abbrev Time := Nat

/-- The constant `time.Minute`. -/
def Minute : Int := 60 * 1000000000

/-- The constant `time.Hour`. -/
def Hour : Int := 60 * Minute

/-- The largest duration, `1<<63 - 1`. -/
def maxDuration : Int := 2 ^ 63 - 1

/-- The smallest duration, `-1 << 63`. -/
def minDuration : Int := -(2 ^ 63)

/-- The method `t.Sub(u)`: the duration `t - u`, saturated to the range of
`time.Duration`. -/
def Time.Sub (t u : Time) : Int :=
  let d : Int := (t : Int) - (u : Int)
  if d > maxDuration then maxDuration
  else if d < minDuration then minDuration
  else d

/-- The method `t.IsZero()`. -/
def Time.IsZero (t : Time) : Bool := t == 0

/-- The instant `time.Unix(0, 0)`, 1970-01-01T00:00:00Z, which lies 62135596800
seconds after the zero value of `time.Time`. The system clock that `time.Now()`
reads counts from it, so every reading of `time.Now()` is at or after it. -/
def unixEpoch : Time := 62135596800 * 1000000000

/-- A reading of the clock for concrete evaluations: 2024-01-01T00:00:00Z. -/
def newYear2024 : Time := unixEpoch + 1704067200 * 1000000000

/-! ## Constants of `manager.go` -/

/-- The maximum number of addresses to return. -/
def defaultMaxAddresses : Int := 16

/-- The time after which a previously reachable node is considered stale. -/
def defaultStaleGoodTimeout : Int := Hour

/-- The time after which a previously unreachable node is considered stale. -/
def defaultStaleBadTimeout : Int := Hour * 2

/-- The time after which a node is considered dead. -/
def pruneExpireTimeout : Int := Hour * 8

/-- The DNS query type `dns.TypeA`. -/
def TypeA : Nat := 1

/-- The DNS query type `dns.TypeAAAA`. -/
def TypeAAAA : Nat := 28

/-! ## Addresses and nodes -/

/-- The type `appmessage.NetAddress`: `IP` is the byte slice of `net.IP`,
`Port` a `uint16`, `Timestamp` the time the address was last seen by the peer
that gossiped it. -/
structure NetAddress where
  Timestamp : Int
  IP : List Nat
  Port : Nat
deriving DecidableEq, Repr

/-- The type `externalapi.DomainSubnetworkID`, an array of bytes. -/
abbrev DomainSubnetworkID := List Nat

/-- The method `(*DomainSubnetworkID).Equal` on two nullable pointers: two nil
pointers are equal, a nil and a non-nil pointer are not, two non-nil pointers
are equal when the arrays are. -/
def SubnetworkIDEqual (id other : Option DomainSubnetworkID) : Bool :=
  match id, other with
  | none, none => true
  | none, some _ => false
  | some _, none => false
  | some a, some b => a == b

/-- The type `Node`: a node of the Spectre network. -/
structure Node where
  Addr : NetAddress
  LastAttempt : Time
  LastSuccess : Time
  LastSeen : Time
  SubnetworkID : Option DomainSubnetworkID
deriving DecidableEq, Repr

/-- What `manager.go` reads from outside the file: `addressmanager.IsRoutable`,
the flag `ActiveConfig().NetParams().AcceptUnroutable`, the value
`ActiveConfig().Threads`, the package variable `peersDefaultPort` (an `int`)
and the method `net.IP.String`. -/
structure Env where
  IsRoutable : NetAddress → Bool → Bool
  AcceptUnroutable : Bool
  Threads : Int
  peersDefaultPort : Int
  ipString : List Nat → String

/-- The type `Manager`, reduced to its table `nodes`. -/
structure Manager where
  nodes : List (String × Node)
deriving DecidableEq, Repr

/-- The table of `NewManager` when no snapshot file exists. -/
def Manager.empty : Manager := ⟨[]⟩

/-- The conversion `uint16(x)` of a Go `int`. -/
def uint16 (x : Int) : Nat := (x % 65536).toNat

/-- The key expression `addr.IP.String() + "_" + strconv.Itoa(int(addr.Port))`. -/
def addrKey (env : Env) (addr : NetAddress) : String :=
  env.ipString addr.IP ++ "_" ++ toString addr.Port

/-- The map read `m.nodes[key]` with its presence flag. -/
def lookupNode (key : String) : List (String × Node) → Option Node
  | [] => none
  | (k, n) :: rest => if k = key then some n else lookupNode key rest

/-- An assignment through the pointer `m.nodes[key]`: `f` is applied to the
node stored under `key`. -/
def updateNode (key : String) (f : Node → Node) (nodes : List (String × Node)) :
    List (String × Node) :=
  nodes.map (fun kn => if kn.1 = key then (kn.1, f kn.2) else kn)

/-- The keys of the table. -/
def Manager.keys (m : Manager) : List String := m.nodes.map Prod.fst

/-! ## The classifier -/

/-- The function `isNonDefaultPort`. -/
def isNonDefaultPort (env : Env) (addr : NetAddress) : Bool :=
  addr.Port != uint16 env.peersDefaultPort

/-- The method `ip.To4() != nil` of `net.IP`: a 4-byte slice, or a 16-byte
slice that starts with ten zero bytes followed by `0xff 0xff`. -/
def ipTo4NonNil (ip : List Nat) : Bool :=
  ip.length == 4 ||
    (ip.length == 16 && (ip.take 10).all (fun b => b == 0) &&
      ip.get? 10 == some 255 && ip.get? 11 == some 255)

/-- The function `isIPv4`. -/
def isIPv4 (addr : NetAddress) : Bool := ipTo4NonNil addr.IP

/-- The function `isGood`, at the instant `now`. -/
def isGood (env : Env) (node : Node) (now : Time) : Bool :=
  !isNonDefaultPort env node.Addr &&
    decide (now.Sub node.LastSuccess < defaultStaleGoodTimeout)

/-- The function `isStale`, at the instant `now`. -/
def isStale (node : Node) (now : Time) : Bool :=
  (!node.LastSuccess.IsZero && decide (now.Sub node.LastAttempt > defaultStaleGoodTimeout)) ||
    decide (now.Sub node.LastAttempt > defaultStaleBadTimeout)

/-- The function `isExpired`, at the instant `now`. -/
def isExpired (node : Node) (now : Time) : Bool :=
  decide (now.Sub node.LastSeen > pruneExpireTimeout) &&
    decide (now.Sub node.LastSuccess > pruneExpireTimeout)

/-! ## Operations of the table -/

/-- The loop of `AddAddresses`: `nodes` is the table and `count` the counter
before the remaining addresses are visited. -/
def addAddressesLoop (env : Env) (now : Time) :
    List NetAddress → List (String × Node) → Nat → List (String × Node) × Nat
  | [], nodes, count => (nodes, count)
  | addr :: rest, nodes, count =>
    if !env.IsRoutable addr env.AcceptUnroutable then
      addAddressesLoop env now rest nodes count
    else
      let addrStr := addrKey env addr
      match lookupNode addrStr nodes with
      | some _ =>
        addAddressesLoop env now rest
          (updateNode addrStr (fun n => { n with LastSeen := now }) nodes) count
      | none =>
        let node : Node :=
          { Addr := addr, LastAttempt := 0, LastSuccess := 0, LastSeen := now,
            SubnetworkID := none }
        addAddressesLoop env now rest (nodes ++ [(addrStr, node)]) (count + 1)

/-- The method `Manager.AddAddresses`: the new table and the returned count. -/
def Manager.AddAddresses (env : Env) (m : Manager) (addrs : List NetAddress) (now : Time) :
    Manager × Nat :=
  let r := addAddressesLoop env now addrs m.nodes 0
  (⟨r.1⟩, r.2)

/-- The loop of `Addresses`: `i` is the remaining budget, `addrs` the slice
built so far. -/
def addressesLoop (now : Time) : List (String × Node) → Int → List NetAddress → List NetAddress
  | [], _, addrs => addrs
  | (_, node) :: rest, i, addrs =>
    if i == 0 then addrs
    else if !isStale node now then addressesLoop now rest i addrs
    else addressesLoop now rest (i - 1) (addrs ++ [node.Addr])

/-- The method `Manager.Addresses`: the IPs that need to be tested again. -/
def Manager.Addresses (env : Env) (m : Manager) (now : Time) : List NetAddress :=
  addressesLoop now m.nodes (env.Threads * 3) []

/-- The method `Manager.AddressCount`. -/
def Manager.AddressCount (m : Manager) : Nat := m.nodes.length

/-- The loop of `GoodAddresses`. -/
def goodAddressesLoop (env : Env) (now : Time) (qtype : Nat) (includeAllSubnetworks : Bool)
    (subnetworkID : Option DomainSubnetworkID) :
    List (String × Node) → Int → List NetAddress → List NetAddress
  | [], _, addrs => addrs
  | (_, node) :: rest, i, addrs =>
    if i == 0 then addrs
    else if !includeAllSubnetworks && !SubnetworkIDEqual node.SubnetworkID subnetworkID then
      goodAddressesLoop env now qtype includeAllSubnetworks subnetworkID rest i addrs
    else if (qtype == TypeA && !isIPv4 node.Addr) || (qtype == TypeAAAA && isIPv4 node.Addr) then
      goodAddressesLoop env now qtype includeAllSubnetworks subnetworkID rest i addrs
    else if !isGood env node now then
      goodAddressesLoop env now qtype includeAllSubnetworks subnetworkID rest i addrs
    else
      goodAddressesLoop env now qtype includeAllSubnetworks subnetworkID rest (i - 1)
        (addrs ++ [node.Addr])

/-- The method `Manager.GoodAddresses`. -/
def Manager.GoodAddresses (env : Env) (m : Manager) (now : Time) (qtype : Nat)
    (includeAllSubnetworks : Bool) (subnetworkID : Option DomainSubnetworkID) :
    List NetAddress :=
  if qtype != TypeA && qtype != TypeAAAA then []
  else
    goodAddressesLoop env now qtype includeAllSubnetworks subnetworkID m.nodes
      defaultMaxAddresses []

/-- The method `Manager.Attempt`. -/
def Manager.Attempt (env : Env) (m : Manager) (addr : NetAddress) (now : Time) : Manager :=
  match lookupNode (addrKey env addr) m.nodes with
  | some _ => ⟨updateNode (addrKey env addr) (fun n => { n with LastAttempt := now }) m.nodes⟩
  | none => m

/-- The method `Manager.Good`. -/
def Manager.Good (env : Env) (m : Manager) (addr : NetAddress)
    (subnetworkid : Option DomainSubnetworkID) (now : Time) : Manager :=
  match lookupNode (addrKey env addr) m.nodes with
  | some _ =>
    ⟨updateNode (addrKey env addr)
      (fun n => { n with LastSuccess := now, SubnetworkID := subnetworkid }) m.nodes⟩
  | none => m

/-- The loop of `prunePeers`: an expired entry is deleted from the map, every
other entry is kept as it is; the counter `pruned` is the second component. -/
def prunePeersLoop (now : Time) : List (String × Node) → List (String × Node) × Nat
  | [] => ([], 0)
  | (k, node) :: rest =>
    let r := prunePeersLoop now rest
    if isExpired node now then (r.1, r.2 + 1) else ((k, node) :: r.1, r.2)

/-- The method `Manager.prunePeers`; the counters it only logs are left out. -/
def Manager.prunePeers (m : Manager) (now : Time) : Manager :=
  ⟨(prunePeersLoop now m.nodes).1⟩

/-- The entries a `GoodAddresses` call accepts: the three `continue` tests of
its loop all fail on them. -/
def goodAccepts (env : Env) (now : Time) (qtype : Nat) (includeAllSubnetworks : Bool)
    (subnetworkID : Option DomainSubnetworkID) (kn : String × Node) : Bool :=
  !(!includeAllSubnetworks && !SubnetworkIDEqual kn.2.SubnetworkID subnetworkID) &&
    !((qtype == TypeA && !isIPv4 kn.2.Addr) || (qtype == TypeAAAA && isIPv4 kn.2.Addr)) &&
    !(!isGood env kn.2 now)

/-- The decimal text of the four bytes of an IPv4 address, joined by dots. -/
def dottedDecimal (ip : List Nat) : String := String.intercalate "." (ip.map toString)

/-- Two lower-case hexadecimal digits of a byte, as `hexString` of package
`net` writes them. -/
def hexByte (b : Nat) : List Char := [Nat.digitChar (b / 16 % 16), Nat.digitChar (b % 16)]

/-- The eight 16-bit groups of a 16-byte address. -/
def ipGroups : List Nat → List Nat
  | hi :: lo :: rest => (hi * 256 + lo) :: ipGroups rest
  | _ => []

/-- The leftmost longest run of zero groups: where it starts and how many
groups it has, `0` when no group is zero. -/
def longestZeroRun (groups : List Nat) : Nat × Nat :=
  (List.range groups.length).foldl
    (fun best i =>
      let n := ((groups.drop i).takeWhile (· == 0)).length
      if n > best.2 then (i, n) else best)
    (0, 0)

/-- The groups in hexadecimal without leading zeros, joined by colons. -/
def hexGroups (groups : List Nat) : String :=
  String.intercalate ":" (groups.map (fun g => String.mk (Nat.toDigits 16 g)))

/-- The method `String` of `net.IP`: `<nil>` for an empty slice, `?` and the
bytes in hexadecimal for a slice of another length than 4 or 16, dotted decimal
for an IPv4 address in either form, and otherwise the IPv6 text, in which the
leftmost longest run of two or more zero groups is written `::`. -/
def IPString (ip : List Nat) : String :=
  if ip.length == 0 then "<nil>"
  else if ip.length != 4 && ip.length != 16 then
    "?" ++ String.mk (ip.foldr (fun b acc => hexByte b ++ acc) [])
  else if ip.length == 4 then dottedDecimal ip
  else if ipTo4NonNil ip then dottedDecimal (ip.drop 12)
  else
    let groups := ipGroups ip
    let run := longestZeroRun groups
    if run.2 ≤ 1 then hexGroups groups
    else hexGroups (groups.take run.1) ++ "::" ++ hexGroups (groups.drop (run.1 + run.2))

/-- An environment for concrete evaluations: the keys of `net.IP.String`, default
port 18111, two worker threads, and in place of `addressmanager.IsRoutable` a
predicate that drops the loopback, private 10/8 and unspecified ranges. -/
def testEnv : Env where
  IsRoutable := fun a acceptUnroutable =>
    acceptUnroutable || !(a.IP.head? == some 127 || a.IP.head? == some 10 || a.IP.all (· == 0))
  AcceptUnroutable := false
  Threads := 2
  peersDefaultPort := 18111
  ipString := IPString

/-- The node `AddAddresses` stores under a key that was absent. -/
def freshNode (addr : NetAddress) (now : Time) : Node :=
  { Addr := addr, LastAttempt := 0, LastSuccess := 0, LastSeen := now, SubnetworkID := none }

/-- A table operation, as the workers and the maintenance loop issue them. -/
inductive Op where
  | addAddresses (addrs : List NetAddress)
  | attempt (addr : NetAddress)
  | good (addr : NetAddress) (subnetworkid : Option DomainSubnetworkID)
  | prune
deriving DecidableEq, Repr

/-- One table operation run at the instant `now`. -/
def Manager.applyOp (env : Env) (m : Manager) (now : Time) : Op → Manager
  | .addAddresses addrs => (m.AddAddresses env addrs now).1
  | .attempt addr => m.Attempt env addr now
  | .good addr subnetworkid => m.Good env addr subnetworkid now
  | .prune => m.prunePeers now

/-- A sequence of table operations, each with the instant at which it runs. -/
def runOps (env : Env) (m : Manager) : List (Time × Op) → Manager
  | [] => m
  | (now, op) :: rest => runOps env (m.applyOp env now op) rest

/-- The stated order of the probe timestamps on every node of a table:
`last_attempt ≥ last_success` whenever both are non-zero. -/
def attemptNotBeforeSuccess (m : Manager) : Bool :=
  m.nodes.all (fun kn =>
    kn.2.LastAttempt == 0 || kn.2.LastSuccess == 0 ||
      decide (kn.2.LastSuccess ≤ kn.2.LastAttempt))

/-- The readings of a clock that never runs backwards: each one is at least
the one before it. -/
def nonDecreasing (ts : List Time) : Prop := List.Chain' (· ≤ ·) ts

/-- No timestamp of a node of the table is later than `now`. -/
def timestampsAtMost (now : Time) (m : Manager) : Prop :=
  ∀ kn ∈ m.nodes, kn.2.LastAttempt ≤ now ∧ kn.2.LastSuccess ≤ now ∧ kn.2.LastSeen ≤ now

/-- A routable IPv4 peer on the default port of `testEnv`. -/
def peerA : NetAddress := { Timestamp := 0, IP := [203, 0, 113, 5], Port := 18111 }

/-- A second routable IPv4 peer on the default port of `testEnv`. -/
def peerB : NetAddress := { Timestamp := 0, IP := [198, 51, 100, 7], Port := 18111 }

/-- A routable IPv4 peer on a port other than the default one. -/
def peerOddPort : NetAddress := { Timestamp := 0, IP := [203, 0, 113, 9], Port := 18112 }

/-- A routable peer with a 16-byte address that is not an IPv4-mapped one. -/
def peerV6 : NetAddress :=
  { Timestamp := 0, IP := [32, 1, 13, 184, 0, 0, 0, 0, 0, 0, 0, 0, 0, 0, 0, 1], Port := 18111 }

/-- A loopback address, which the routability predicate of `testEnv` drops. -/
def peerLoopback : NetAddress := { Timestamp := 0, IP := [127, 0, 0, 1], Port := 18111 }

/-! ## The user-agent gate

`CheckVersion` is six calls into libraries that are not part of the repository:
`strings.TrimPrefix`, `strings.Index`, `regexp.FindStringSubmatch` on the pattern
`\b(\d+\.\d+\.\d+)\b`, and `NewVersion` and `LessThan` of
`github.com/hashicorp/go-version`. Each is embedded here from its documented
behaviour, on lists of characters. Of the library `go-version` the pattern of
`NewVersion`, the parsing of the segments with `strconv.ParseInt` and the
comparison of `Compare` are embedded in full; its function
`comparePrereleases`, which `Compare` calls only on two versions that both
carry a prerelease, is a parameter.
-/

/-- The call `strings.TrimPrefix(s, "/")`. -/
def TrimPrefixSlash : List Char → List Char
  | [] => []
  | c :: rest => if c = '/' then rest else c :: rest

/-- The call `strings.Index(s, "/")`; `none` stands for the result `-1`. -/
def IndexSlash : List Char → Option Nat
  | [] => none
  | c :: rest => if c = '/' then some 0 else (IndexSlash rest).map (· + 1)

/-- The class `\w` of Go regular expressions: `[0-9A-Za-z_]`. -/
def isWordChar (c : Char) : Bool := c.isAlphanum || c == '_'

/-- The assertion `\b` between two neighbouring characters, `none` standing for
the start or the end of the text: exactly one side is a word character. -/
def wordBoundary (before after : Option Char) : Bool :=
  (match before with
    | some c => isWordChar c
    | none => false) !=
  (match after with
    | some c => isWordChar c
    | none => false)

/-- A match of `\d+\.\d+\.\d+\b` that starts at the head of `s`. Each `\d+` is
greedy and can only take the whole run of digits: after a shorter run the next
character is a digit, where the pattern asks for a dot or a word boundary. -/
def matchVersionHere (s : List Char) : Option (List Char) :=
  let d1 := s.takeWhile Char.isDigit
  match d1, s.dropWhile Char.isDigit with
  | _ :: _, c1 :: r1 =>
    if c1 = '.' then
      let d2 := r1.takeWhile Char.isDigit
      match d2, r1.dropWhile Char.isDigit with
      | _ :: _, c2 :: r2 =>
        if c2 = '.' then
          let d3 := r2.takeWhile Char.isDigit
          let r3 := r2.dropWhile Char.isDigit
          match d3 with
          | [] => none
          | _ :: _ =>
            if wordBoundary d3.getLast? r3.head? then some (d1 ++ '.' :: d2 ++ '.' :: d3)
            else none
        else none
      | _, _ => none
    else none
  | _, _ => none

/-- The leftmost match of `\b(\d+\.\d+\.\d+)\b` in a text of which `before` is
the character in front of `s`. -/
def findVersionFrom (before : Option Char) : List Char → Option (List Char)
  | [] => none
  | c :: rest =>
    match (if wordBoundary before (some c) then matchVersionHere (c :: rest) else none) with
    | some v => some v
    | none => findVersionFrom (some c) rest

/-- The call `versionRegexp.FindStringSubmatch(s)`, reduced to `matches[1]`;
`none` when there is no match, that is when `len(matches) < 2`. -/
def FindStringSubmatch (s : List Char) : Option (List Char) := findVersionFrom none s

/-- The call `strings.Split(s, ".")`. -/
def splitOnDot : List Char → List (List Char)
  | [] => [[]]
  | c :: rest =>
    if c = '.' then [] :: splitOnDot rest
    else
      match splitOnDot rest with
      | [] => [[c]]
      | h :: t => (c :: h) :: t

/-- The value of a string of decimal digits. -/
def digitsValue (s : List Char) : Nat := s.foldl (fun acc c => 10 * acc + (c.toNat - 48)) 0

/-- The call `strconv.ParseInt(s, 10, 64)` on a string without a sign: it
fails on the empty string, on a character that is not a digit and on a value
above `1<<63 - 1`. -/
def parseInt64 (s : List Char) : Option Nat :=
  if s.isEmpty || !s.all Char.isDigit then none
  else if digitsValue s ≤ 2 ^ 63 - 1 then some (digitsValue s)
  else none

/-- The type `version.Version` of `hashicorp/go-version`. -/
structure Version where
  metadata : List Char
  pre : List Char
  segments : List Nat
  si : Nat
  original : List Char
deriving DecidableEq, Repr

/-- The class `[0-9A-Za-z\-~]` of the version pattern. -/
def isPreChar (c : Char) : Bool := c.isAlphanum || c == '-' || c == '~'

/-- The class `[A-Za-z\-~]` of the version pattern. -/
def isPreLead (c : Char) : Bool := c.isAlpha || c == '-' || c == '~'

/-- Dot-separated identifiers, each a non-empty run of `[0-9A-Za-z\-~]`. -/
def validIdentifiers (s : List Char) : Bool :=
  (splitOnDot s).all (fun chunk => !chunk.isEmpty && chunk.all isPreChar)

/-- The prerelease part of the version pattern on the text `p` that stands
between the segments and the metadata: the value of `pre`, or `none` when the
pattern does not match. -/
def parsePrerelease (p : List Char) : Option (List Char) :=
  match p with
  | [] => some []
  | c :: r =>
    if c = '-' then
      match r with
      | d :: _ =>
        if isPreChar d then (if validIdentifiers r then some r else none)
        else if validIdentifiers p then some p else none
      | [] => some p
    else if isPreLead c && validIdentifiers p then some p
    else none

/-- The metadata part of the version pattern on the rest `q` of the text. -/
def parseMetadata (q : List Char) : Option (List Char) :=
  match q with
  | [] => some []
  | c :: r => if c = '+' && validIdentifiers r then some r else none

/-- The segments of a version: every dot-separated part goes through
`strconv.ParseInt`. -/
def parseSegments : List (List Char) → Option (List Nat)
  | [] => some []
  | chunk :: rest =>
    match parseInt64 chunk, parseSegments rest with
    | some n, some ns => some (n :: ns)
    | _, _ => none

/-- Padding of the segments with zeros up to three entries. -/
def padSegments (segs : List Nat) : List Nat := segs ++ List.replicate (3 - segs.length) 0

/-- The function `version.NewVersion`; `none` stands for an error. The text
must match `^v?SEGMENTS(PRERELEASE)?(METADATA)?$`, where `SEGMENTS` is
`[0-9]+(\.[0-9]+)*`: a prerelease starts with `-` or a letter and metadata with
`+`, so the segments are the longest run of digits and dots, and the metadata
starts at the first `+`. Every segment is then parsed as an `int64`, and the
segments are padded with zeros to three. -/
def NewVersion (v : List Char) : Option Version :=
  let s := match v with
    | [] => []
    | c :: r => if c = 'v' then r else c :: r
  let segStr := s.takeWhile (fun c => c.isDigit || c == '.')
  let rest := s.dropWhile (fun c => c.isDigit || c == '.')
  let chunks := splitOnDot segStr
  if chunks.all (fun chunk => !chunk.isEmpty) then
    match parsePrerelease (rest.takeWhile (fun c => c != '+')),
        parseMetadata (rest.dropWhile (fun c => c != '+')), parseSegments chunks with
    | some pre, some metadata, some segments =>
      some { metadata := metadata, pre := pre, segments := padSegments segments,
             si := chunks.length, original := v }
    | _, _, _ => none
  else none

/-- The call `strconv.FormatInt(n, 10)` on a number that is not negative. -/
def formatInt (n : Nat) : List Char := Nat.toDigits 10 n

/-- The method `Version.String`. -/
def Version.String (v : Version) : List Char :=
  (List.intercalate ['.'] (v.segments.map formatInt)) ++
    (if v.pre = [] then [] else '-' :: v.pre) ++
    (if v.metadata = [] then [] else '+' :: v.metadata)

/-- The helper `allZero`. -/
def allZero (segs : List Nat) : Bool := segs.all (· == 0)

/-- The loop of `Version.Compare` over the segments of the two versions. -/
def compareSegments : List Nat → List Nat → Int
  | [], [] => 0
  | [], b :: o => if allZero (b :: o) then 0 else -1
  | a :: s, [] => if allZero (a :: s) then 0 else 1
  | a :: s, b :: o => if a = b then compareSegments s o else if a < b then -1 else 1

/-- The method `Version.Compare`; `comparePrereleases` is the function of that
name of the library. -/
def Version.Compare (comparePrereleases : List Char → List Char → Int) (v other : Version) :
    Int :=
  if v.String = other.String then 0
  else if v.segments = other.segments then
    if v.pre = [] ∧ other.pre = [] then 0
    else if v.pre = [] then 1
    else if other.pre = [] then -1
    else comparePrereleases v.pre other.pre
  else compareSegments v.segments other.segments

/-- The method `Version.LessThan`. -/
def Version.LessThan (comparePrereleases : List Char → List Char → Int) (v other : Version) :
    Bool :=
  decide (v.Compare comparePrereleases other < 0)

/-- The errors `CheckVersion` returns. -/
inductive CheckError where
  | badMinimum
  | invalidFormat
  | noVersion
  | badClientVersion
  | belowMinimum
deriving DecidableEq, Repr

/-- The function `CheckVersion`; `none` is the `nil` error. -/
def CheckVersion (comparePrereleases : List Char → List Char → Int)
    (minUaVer userAgent : String) : Option CheckError :=
  if minUaVer = "" then none
  else
    match NewVersion minUaVer.data with
    | none => some .badMinimum
    | some minVer =>
      let trimmed := TrimPrefixSlash userAgent.data
      match IndexSlash trimmed with
      | none => some .invalidFormat
      | some e =>
        let firstGroup := trimmed.take e
        match FindStringSubmatch firstGroup with
        | none => some .noVersion
        | some m1 =>
          match NewVersion m1 with
          | none => some .badClientVersion
          | some clientVer =>
            if clientVer.LessThan comparePrereleases minVer then some .belowMinimum
            else none

/-- The first `/`-delimited segment of a user agent, after one leading `/` has
been stripped: the text up to the next `/`. -/
def firstSegment (userAgent : String) : List Char :=
  (TrimPrefixSlash userAgent.data).takeWhile (fun c => c != '/')

/-- Three dot-separated integer groups somewhere in a text. -/
def hasThreeIntegerGroups (s : List Char) : Prop :=
  ∃ (front d1 d2 d3 back : List Char),
    d1 ≠ [] ∧ d2 ≠ [] ∧ d3 ≠ [] ∧
      (∀ c ∈ d1, c.isDigit = true) ∧ (∀ c ∈ d2, c.isDigit = true) ∧
      (∀ c ∈ d3, c.isDigit = true) ∧
      s = front ++ (d1 ++ '.' :: d2 ++ '.' :: d3) ++ back

/-- Component-wise numeric order of versions: at the first component in which
the two differ, a missing component counting as zero, the left one is smaller. -/
def versionLess (a b : List Nat) : Prop :=
  ∃ i, a.getD i 0 < b.getD i 0 ∧ ∀ j, j < i → a.getD j 0 = b.getD j 0

/-- Ten hours after the zero instant, in nanoseconds. -/
def tenHours : Time := 36000000000000

/-- A table for concrete evaluations, as it stands ten hours after the zero
instant: five peers are inserted after one hour; `peerA`, `peerB`, `peerV6` and
`peerOddPort` are probed with success within the last hour, on two different
subnetworks; `peerLoopback` is dropped at insertion and the fifth,
`203.0.113.77`, is never probed. -/
def sampleTable : Manager :=
  runOps testEnv Manager.empty
    [(3600000000000, .addAddresses
        [peerA, peerB, peerV6, peerOddPort, peerLoopback,
          { Timestamp := 0, IP := [203, 0, 113, 77], Port := 18111 }]),
      (34000000000000, .attempt peerA),
      (34100000000000, .good peerA (some [1])),
      (34200000000000, .attempt peerB),
      (34300000000000, .good peerB (some [2])),
      (34400000000000, .attempt peerV6),
      (34500000000000, .good peerV6 (some [1])),
      (34600000000000, .attempt peerOddPort),
      (34700000000000, .good peerOddPort (some [1]))]

/-! ## The handshake of the probe

`handleHandshake` of `netadapter/dnsseed_net_adapter.go` talks to the peer
through three routes of the router package, which is not part of the
repository. A route that is read is the list of the results its successive
`DequeueWithTimeout` calls return, a message or an error, and a call on an
exhausted list times out; the outgoing route is the result of its successive
`Enqueue` calls, by index.
-/

/-- The type `appmessage.MsgVersion`. -/
structure MsgVersion where
  ProtocolVersion : Nat
  Network : String
  Services : Nat
  Timestamp : Int
  Address : Option NetAddress
  ID : Option (List Nat)
  UserAgent : String
  DisableRelayTx : Bool
  SubnetworkID : Option DomainSubnetworkID
deriving DecidableEq, Repr

/-- The messages of the protocol, by their Go type; `other` stands for every
type the handshake does not name. -/
inductive Message where
  | MsgVersion (msg : MsgVersion)
  | MsgVerAck
  | MsgRequestAddresses (IncludeAllSubnetworks : Bool)
      (SubnetworkID : Option DomainSubnetworkID)
  | MsgAddresses (AddressList : List NetAddress)
  | MsgPing (Nonce : Nat)
  | MsgPong (Nonce : Nat)
  | other (command : Nat)
deriving DecidableEq, Repr

/-- The errors of a route: `ErrTimeout`, `ErrRouteClosed` and
`ErrRouteCapacityReached`. -/
inductive RouteError where
  | ErrTimeout
  | ErrRouteClosed
  | ErrRouteCapacityReached
deriving DecidableEq, Repr

/-- The errors `handleHandshake` returns: the error of a route, or the message
at position `position` was not of the expected type. -/
inductive HandshakeError where
  | route (err : RouteError)
  | unexpected (position : Nat) (got : Message)
deriving DecidableEq, Repr

/-- The type `Routes`, reduced to the routes the handshake uses. -/
structure Routes where
  handshakeRoute : List (Except RouteError Message)
  addressesRoute : List (Except RouteError Message)
  OutgoingRoute : Nat → Option RouteError

/-- The method `DequeueWithTimeout` of a route: the result and the rest of the
route. -/
def DequeueWithTimeout (route : List (Except RouteError Message)) :
    Except RouteError Message × List (Except RouteError Message) :=
  match route with
  | [] => (.error .ErrTimeout, [])
  | r :: rest => (r, rest)

/-- What a call of `handleHandshake` yields: the returned version (`none` for
`nil`), the returned error (`none` for `nil`) and the messages it has put on
the outgoing route, in order. -/
structure HandshakeResult where
  msgVersion : Option MsgVersion
  err : Option HandshakeError
  sent : List Message
deriving DecidableEq, Repr

/-- The version message `handleHandshake` answers with. -/
def ourVersion (network : String) (ourID : Option (List Nat)) (now : Int)
    (msgVersion : MsgVersion) : Message :=
  .MsgVersion
    { ProtocolVersion := msgVersion.ProtocolVersion
      Network := network
      Services := msgVersion.Services
      Timestamp := now
      Address := none
      ID := ourID
      UserAgent := "/net-adapter-mock/"
      DisableRelayTx := true
      SubnetworkID := none }

/-- The method `DnsseedNetAdapter.handleHandshake`; `network` is
`mna.cfg.ActiveNetParams.Name` and `now` the reading of `mstime.Now()`. -/
def handleHandshake (network : String) (ourID : Option (List Nat)) (now : Int)
    (routes : Routes) : HandshakeResult :=
  match DequeueWithTimeout routes.handshakeRoute with
  | (.error err, _) => ⟨none, some (.route err), []⟩
  | (.ok msg, handshakeRoute) =>
    match msg with
    | .MsgVersion msgVersion =>
      match routes.OutgoingRoute 0 with
      | some err => ⟨some msgVersion, some (.route err), []⟩
      | none =>
        let sent1 := [ourVersion network ourID now msgVersion]
        match DequeueWithTimeout handshakeRoute with
        | (.error err, _) => ⟨some msgVersion, some (.route err), sent1⟩
        | (.ok msg, _) =>
          match msg with
          | .MsgVerAck =>
            match routes.OutgoingRoute 1 with
            | some err => ⟨some msgVersion, some (.route err), sent1⟩
            | none =>
              let sent2 := sent1 ++ [Message.MsgVerAck]
              match DequeueWithTimeout routes.addressesRoute with
              | (.error err, _) => ⟨some msgVersion, some (.route err), sent2⟩
              | (.ok msg, addressesRoute) =>
                match msg with
                | .MsgRequestAddresses _ _ =>
                  match routes.OutgoingRoute 2 with
                  | some err => ⟨some msgVersion, some (.route err), sent2⟩
                  | none =>
                    let sent3 := sent2 ++ [Message.MsgAddresses []]
                    match routes.OutgoingRoute 3 with
                    | some err => ⟨some msgVersion, some (.route err), sent3⟩
                    | none =>
                      let sent4 := sent3 ++ [Message.MsgRequestAddresses true none]
                      match DequeueWithTimeout addressesRoute with
                      | (.error err, _) => ⟨some msgVersion, some (.route err), sent4⟩
                      | (.ok msg, _) =>
                        match msg with
                        | .MsgAddresses _ => ⟨some msgVersion, none, sent4⟩
                        | other => ⟨some msgVersion, some (.unexpected 4 other), sent4⟩
                | other => ⟨some msgVersion, some (.unexpected 3 other), sent2⟩
          | other => ⟨some msgVersion, some (.unexpected 2 other), sent1⟩
    | other => ⟨none, some (.unexpected 1 other), []⟩

/-- The four messages a completed handshake has sent, in order. -/
def handshakeReplies (network : String) (ourID : Option (List Nat)) (now : Int)
    (msgVersion : MsgVersion) : List Message :=
  [ourVersion network ourID now msgVersion, .MsgVerAck, .MsgAddresses [],
    .MsgRequestAddresses true none]

/-- A peer that completes the handshake: it delivers its version and a verack
on the handshake route, a request for addresses and one address on the
addresses route, and every `Enqueue` succeeds. -/
def sampleRoutes : Routes :=
  { handshakeRoute :=
      [.ok (.MsgVersion
          { ProtocolVersion := 5, Network := "spectre-mainnet", Services := 1, Timestamp := 0,
            Address := none, ID := some [7], UserAgent := "/spectred:0.3.17/",
            DisableRelayTx := false, SubnetworkID := none }),
        .ok .MsgVerAck]
    addressesRoute := [.ok (.MsgRequestAddresses false none), .ok (.MsgAddresses [peerB])]
    OutgoingRoute := fun _ => none }

/-- The result of the `i`-th call of `DequeueWithTimeout` on a route, counted
from 0: the `i`-th entry of the route, a timeout once the route is exhausted. -/
def delivered (route : List (Except RouteError Message)) (i : Nat) :
    Except RouteError Message :=
  (route.get? i).getD (.error .ErrTimeout)

/-- The error a reading step of `handleHandshake` returns on a result it does
not accept: the error of the route, or that the message at `position` is of
another type than the expected one. -/
def readError (position : Nat) : Except RouteError Message → HandshakeError
  | .error err => .route err
  | .ok msg => .unexpected position msg

/-- A peer that delivers its version and then nothing more on the handshake
route; the addresses route holds what a well-behaved peer delivers and every
`Enqueue` succeeds. -/
def silentRoutes : Routes :=
  { handshakeRoute :=
      [.ok (.MsgVersion
          { ProtocolVersion := 5, Network := "spectre-mainnet", Services := 1, Timestamp := 0,
            Address := none, ID := some [7], UserAgent := "/spectred:0.3.17/",
            DisableRelayTx := false, SubnetworkID := none })]
    addressesRoute := [.ok (.MsgRequestAddresses false none), .ok (.MsgAddresses [peerB])]
    OutgoingRoute := fun _ => none }

/-! ## The table with nil pointers, and the snapshot

In `manager.go` the table is a `map[string]*Node` and `Node.Addr` a
`*appmessage.NetAddress`. A table that the operations build up from the empty
map holds no nil pointer, and the embedding above is the one of such tables.
A table decoded from the snapshot file can hold them: the JSON text `null`
decodes to a nil map, a `null` member to a nil `*Node`, a missing or `null`
`Addr` to a nil address. The definitions of this section follow the same
source functions on such tables; `none` as a result stands for a run-time
panic (a nil pointer dereference, or an assignment to an entry of a nil map).
-/

namespace Ptr

/-- The type `Node` with its pointer `Addr` nullable. -/
structure Node where
  Addr : Option NetAddress
  LastAttempt : Time
  LastSuccess : Time
  LastSeen : Time
  SubnetworkID : Option DomainSubnetworkID
deriving DecidableEq, Repr

/-- The type `Manager`: `nodes` is `none` for a nil map, and a value of the map
is `none` for a nil `*Node`. -/
structure Manager where
  nodes : Option (List (String × Option Node))
deriving DecidableEq, Repr

/-- The entries a `range` over the map visits: none for a nil map. -/
def Manager.entries (m : Manager) : List (String × Option Node) := m.nodes.getD []

/-- The map read `m.nodes[key]` with its presence flag: `none` when the key is
absent, `some none` when the pointer stored under it is nil. -/
def lookupEntry (key : String) : List (String × Option Node) → Option (Option Node)
  | [] => none
  | (k, n) :: rest => if k = key then some n else lookupEntry key rest

/-- An assignment through the non-nil pointer stored under `key`. -/
def updateEntry (key : String) (f : Node → Node) (entries : List (String × Option Node)) :
    List (String × Option Node) :=
  entries.map (fun kn => if kn.1 = key then (kn.1, kn.2.map f) else kn)

/-- The function `isNonDefaultPort`: `addr.Port` panics on a nil address. -/
def isNonDefaultPort (env : Env) (addr : Option NetAddress) : Option Bool :=
  addr.map (fun a => a.Port != uint16 env.peersDefaultPort)

/-- The function `isIPv4`: `addr.IP` panics on a nil address. -/
def isIPv4 (addr : Option NetAddress) : Option Bool :=
  addr.map (fun a => ipTo4NonNil a.IP)

/-- The function `isGood`: `node.Addr` panics on a nil node. -/
def isGood (env : Env) (node : Option Node) (now : Time) : Option Bool :=
  match node with
  | none => none
  | some n =>
    match isNonDefaultPort env n.Addr with
    | none => none
    | some nonDefault =>
      some (!nonDefault && decide (now.Sub n.LastSuccess < defaultStaleGoodTimeout))

/-- The function `isStale`: `node.LastSuccess` panics on a nil node. -/
def isStale (node : Option Node) (now : Time) : Option Bool :=
  node.map (fun n =>
    (!n.LastSuccess.IsZero && decide (now.Sub n.LastAttempt > defaultStaleGoodTimeout)) ||
      decide (now.Sub n.LastAttempt > defaultStaleBadTimeout))

/-- The function `isExpired`: `node.LastSeen` panics on a nil node. -/
def isExpired (node : Option Node) (now : Time) : Option Bool :=
  node.map (fun n =>
    decide (now.Sub n.LastSeen > pruneExpireTimeout) &&
      decide (now.Sub n.LastSuccess > pruneExpireTimeout))

/-- The loop of `AddAddresses`. `m.nodes[addrStr].LastSeen = ...` panics when the
pointer under the key is nil, and `m.nodes[addrStr] = &node` when the map is. -/
def addAddressesLoop (env : Env) (now : Time) :
    List NetAddress → Option (List (String × Option Node)) → Nat →
      Option (Option (List (String × Option Node)) × Nat)
  | [], nodes, count => some (nodes, count)
  | addr :: rest, nodes, count =>
    if !env.IsRoutable addr env.AcceptUnroutable then
      addAddressesLoop env now rest nodes count
    else
      let addrStr := addrKey env addr
      match lookupEntry addrStr (nodes.getD []) with
      | some (some _) =>
        addAddressesLoop env now rest
          (nodes.map (updateEntry addrStr (fun n => { n with LastSeen := now }))) count
      | some none => none
      | none =>
        match nodes with
        | none => none
        | some entries =>
          let node : Node :=
            { Addr := some addr, LastAttempt := 0, LastSuccess := 0, LastSeen := now,
              SubnetworkID := none }
          addAddressesLoop env now rest (some (entries ++ [(addrStr, some node)])) (count + 1)

/-- The method `Manager.AddAddresses`, on a slice of non-nil addresses. -/
def Manager.AddAddresses (env : Env) (m : Manager) (addrs : List NetAddress) (now : Time) :
    Option (Manager × Nat) :=
  (addAddressesLoop env now addrs m.nodes 0).map (fun r => (⟨r.1⟩, r.2))

/-- The loop of `Addresses`; the slice it builds holds the pointers `node.Addr`
as they are. -/
def addressesLoop (now : Time) :
    List (String × Option Node) → Int → List (Option NetAddress) →
      Option (List (Option NetAddress))
  | [], _, addrs => some addrs
  | (_, node) :: rest, i, addrs =>
    if i == 0 then some addrs
    else
      match node, isStale node now with
      | some n, some stale =>
        if !stale then addressesLoop now rest i addrs
        else addressesLoop now rest (i - 1) (addrs ++ [n.Addr])
      | _, _ => none

/-- The method `Manager.Addresses`. -/
def Manager.Addresses (env : Env) (m : Manager) (now : Time) :
    Option (List (Option NetAddress)) :=
  addressesLoop now m.entries (env.Threads * 3) []

/-- The method `Manager.AddressCount`; `len` of a nil map is 0. -/
def Manager.AddressCount (m : Manager) : Nat := m.entries.length

/-- The loop of `GoodAddresses`, entered with a query type A or AAAA. Each
iteration past the test of `i` reads `node.SubnetworkID` or, when all
subnetworks are included, goes on to `isIPv4(node.Addr)`, so it panics on a nil
node; `isIPv4` is evaluated for either query type and panics on a nil
address. -/
def goodAddressesLoop (env : Env) (now : Time) (qtype : Nat) (includeAllSubnetworks : Bool)
    (subnetworkID : Option DomainSubnetworkID) :
    List (String × Option Node) → Int → List NetAddress → Option (List NetAddress)
  | [], _, addrs => some addrs
  | (_, node) :: rest, i, addrs =>
    if i == 0 then some addrs
    else
      match node with
      | none => none
      | some n =>
        if !includeAllSubnetworks && !SubnetworkIDEqual n.SubnetworkID subnetworkID then
          goodAddressesLoop env now qtype includeAllSubnetworks subnetworkID rest i addrs
        else
          match n.Addr, isIPv4 n.Addr, isGood env node now with
          | some a, some v4, some good =>
            if (qtype == TypeA && !v4) || (qtype == TypeAAAA && v4) then
              goodAddressesLoop env now qtype includeAllSubnetworks subnetworkID rest i addrs
            else if !good then
              goodAddressesLoop env now qtype includeAllSubnetworks subnetworkID rest i addrs
            else
              goodAddressesLoop env now qtype includeAllSubnetworks subnetworkID rest (i - 1)
                (addrs ++ [a])
          | _, _, _ => none

/-- The method `Manager.GoodAddresses`. -/
def Manager.GoodAddresses (env : Env) (m : Manager) (now : Time) (qtype : Nat)
    (includeAllSubnetworks : Bool) (subnetworkID : Option DomainSubnetworkID) :
    Option (List NetAddress) :=
  if qtype != TypeA && qtype != TypeAAAA then some []
  else
    goodAddressesLoop env now qtype includeAllSubnetworks subnetworkID m.entries
      defaultMaxAddresses []

/-- The method `Manager.Attempt`; `addr.IP` panics on a nil address and
`node.LastAttempt = ...` on a nil node. -/
def Manager.Attempt (env : Env) (m : Manager) (addr : Option NetAddress) (now : Time) :
    Option Manager :=
  match addr with
  | none => none
  | some a =>
    match lookupEntry (addrKey env a) m.entries with
    | some (some _) =>
      some ⟨m.nodes.map (updateEntry (addrKey env a) (fun n => { n with LastAttempt := now }))⟩
    | some none => none
    | none => some m

/-- The method `Manager.Good`. -/
def Manager.Good (env : Env) (m : Manager) (addr : Option NetAddress)
    (subnetworkid : Option DomainSubnetworkID) (now : Time) : Option Manager :=
  match addr with
  | none => none
  | some a =>
    match lookupEntry (addrKey env a) m.entries with
    | some (some _) =>
      some ⟨m.nodes.map (updateEntry (addrKey env a)
        (fun n => { n with LastSuccess := now, SubnetworkID := subnetworkid }))⟩
    | some none => none
    | none => some m

/-- The loop of `prunePeers`: `isExpired(node)` is evaluated on every entry and
`isGood(node)` on every entry that is kept. -/
def prunePeersLoop (env : Env) (now : Time) :
    List (String × Option Node) → Option (List (String × Option Node))
  | [] => some []
  | (k, node) :: rest =>
    match isExpired node now with
    | none => none
    | some true => prunePeersLoop env now rest
    | some false =>
      match isGood env node now with
      | none => none
      | some _ => (prunePeersLoop env now rest).map (fun r => (k, node) :: r)

/-- The method `Manager.prunePeers`; a `range` over a nil map and `delete` on it
do nothing. -/
def Manager.prunePeers (env : Env) (m : Manager) (now : Time) : Option Manager :=
  match m.nodes with
  | none => some m
  | some entries => (prunePeersLoop env now entries).map (fun r => ⟨some r⟩)

/-- The state of the snapshot file `nodes.json` as `deserializePeers` meets it:
absent, present but not openable, present with a content `Decode` rejects, or
present with a content that decodes, without an error, to the given value of
type `map[string]*Node`. -/
inductive PeersFile where
  | absent
  | unreadable
  | undecodable
  | decoded (nodes : Option (List (String × Option Node)))
deriving DecidableEq, Repr

/-- The method `Manager.deserializePeers`: the manager after the call and
whether an error is returned. -/
def Manager.deserializePeers (m : Manager) (file : PeersFile) : Manager × Bool :=
  match file with
  | .absent => (m, false)
  | .unreadable => (m, true)
  | .undecodable => (m, true)
  | .decoded nodes => (⟨nodes⟩, false)

/-- The function `NewManager`: the manager it returns and the snapshot file it
leaves, which it removes when `deserializePeers` returns an error. -/
def NewManager (file : PeersFile) : Manager × PeersFile :=
  let amgr : Manager := ⟨some []⟩
  let r := amgr.deserializePeers file
  if r.2 then (r.1, .absent) else (r.1, file)

end Ptr

/-- A node whose address pointer is not nil, as a node with pointers. -/
def Node.toPtr (n : Node) : Ptr.Node :=
  { Addr := some n.Addr, LastAttempt := n.LastAttempt, LastSuccess := n.LastSuccess,
    LastSeen := n.LastSeen, SubnetworkID := n.SubnetworkID }

/-- The entries of a table without nil pointers, as entries with pointers. -/
def toPtrEntries (nodes : List (String × Node)) : List (String × Option Ptr.Node) :=
  nodes.map (fun kn => (kn.1, some kn.2.toPtr))

/-- A table without nil pointers, as a table of pointers. -/
def Manager.toPtr (m : Manager) : Ptr.Manager := ⟨some (toPtrEntries m.nodes)⟩

/-! ### The snapshot codec

`savePeers` writes `json.NewEncoder(w).Encode(&m.nodes)` and `deserializePeers`
reads it back with `Decode`. Package `encoding/json` and the text forms of
`time.Time` and `net.IP` are not part of the repository; a value is sent here to
the value its JSON text decodes to, or to `none` when `Encode` fails. A
`time.Time` is written in RFC 3339 with nanoseconds, which keeps the instant,
and is refused outside the years 0 to 9999. A `net.IP` is written as text when
it has 0, 4 or 16 bytes and refused otherwise, and the text of an IPv4 address
is read back in the 16-byte form. The `Timestamp` of an address is an
`mstime.Time`, which has no exported field: it is written as `{}` and read back
as the zero value. A nil pointer or map is written as `null` and read back as
nil. -/

namespace Ptr

/-- The instant at which the year 10000 begins. -/
def yearTenThousand : Time := 315537897600 * 1000000000

/-- A `time.Time` after `MarshalJSON` and `UnmarshalJSON`. -/
def jsonTime (t : Time) : Option Time := if t < yearTenThousand then some t else none

/-- The method `To16` of `net.IP` on a slice of 4 or 16 bytes. -/
def To16 (ip : List Nat) : List Nat :=
  if ip.length == 4 then [0, 0, 0, 0, 0, 0, 0, 0, 0, 0, 255, 255] ++ ip else ip

/-- A `net.IP` after `MarshalText` and `UnmarshalText`. -/
def jsonIP (ip : List Nat) : Option (List Nat) :=
  if ip.length == 0 then some []
  else if ip.length == 4 || ip.length == 16 then some (To16 ip)
  else none

/-- The method `Equal` of `net.IP`: an IPv4 address and its 16-byte form are
equal. -/
def ipEqual (ip x : List Nat) : Bool :=
  if ip.length == x.length then ip == x
  else if ip.length == 4 && x.length == 16 then
    x.take 12 == [0, 0, 0, 0, 0, 0, 0, 0, 0, 0, 255, 255] && ip == x.drop 12
  else if ip.length == 16 && x.length == 4 then
    ip.take 12 == [0, 0, 0, 0, 0, 0, 0, 0, 0, 0, 255, 255] && ip.drop 12 == x
  else false

/-- An `appmessage.NetAddress` after encoding and decoding. -/
def jsonAddr (a : NetAddress) : Option NetAddress :=
  (jsonIP a.IP).map (fun ip => { Timestamp := 0, IP := ip, Port := a.Port })

/-- A `Node` after encoding and decoding. -/
def jsonNode (n : Node) : Option Node :=
  match (match n.Addr with
      | none => some none
      | some a => (jsonAddr a).map some),
    jsonTime n.LastAttempt, jsonTime n.LastSuccess, jsonTime n.LastSeen with
  | some addr, some lastAttempt, some lastSuccess, some lastSeen =>
    some { Addr := addr, LastAttempt := lastAttempt, LastSuccess := lastSuccess,
           LastSeen := lastSeen, SubnetworkID := n.SubnetworkID }
  | _, _, _, _ => none

/-- The members of the map after encoding and decoding. -/
def jsonEntries : List (String × Option Node) → Option (List (String × Option Node))
  | [] => some []
  | (k, none) :: rest => (jsonEntries rest).map (fun r => (k, none) :: r)
  | (k, some n) :: rest =>
    match jsonNode n, jsonEntries rest with
    | some n', some r => some ((k, some n') :: r)
    | _, _ => none

/-- The value `Decode` yields on what `Encode(&m.nodes)` writes; `none` when
`Encode` returns an error. -/
def jsonNodes (nodes : Option (List (String × Option Node))) :
    Option (Option (List (String × Option Node))) :=
  match nodes with
  | none => some none
  | some entries => (jsonEntries entries).map some

/-- The method `Manager.savePeers`: the snapshot file after the call. The flags
say whether `os.Create`, `w.Close` and `os.Rename` succeed; when one of them or
`Encode` fails the call returns and the snapshot file is as it was. -/
def Manager.savePeers (m : Manager) (createOk closeOk renameOk : Bool) (file : PeersFile) :
    PeersFile :=
  if !createOk then file
  else
    match jsonNodes m.nodes with
    | none => file
    | some written =>
      if !closeOk then file
      else if !renameOk then file
      else .decoded written

/-- The address of a node before and after a reload: both nil, or the same IP
address and the same port. -/
def sameAddrAfterReload (a b : Option NetAddress) : Prop :=
  match a, b with
  | none, none => True
  | some x, some y => ipEqual x.IP y.IP = true ∧ y.Port = x.Port
  | _, _ => False

/-- A node before and after a reload: both nil, or the same address, the same
three instants and the same subnetwork id. -/
def sameNodeAfterReload (a b : Option Node) : Prop :=
  match a, b with
  | none, none => True
  | some x, some y =>
    sameAddrAfterReload x.Addr y.Addr ∧ y.LastAttempt = x.LastAttempt ∧
      y.LastSuccess = x.LastSuccess ∧ y.LastSeen = x.LastSeen ∧
      y.SubnetworkID = x.SubnetworkID
  | _, _ => False

end Ptr

/-- Whether `Encode` accepts a node whose address is not nil: its IP has 0, 4 or
16 bytes and its three instants are before the year 10000. -/
def snapshotEncodes (n : Node) : Bool :=
  (n.Addr.IP.length == 0 || n.Addr.IP.length == 4 || n.Addr.IP.length == 16) &&
    decide (n.LastAttempt < Ptr.yearTenThousand) &&
    decide (n.LastSuccess < Ptr.yearTenThousand) &&
    decide (n.LastSeen < Ptr.yearTenThousand)

/-- A node `x` of the saved table and the node `y` loaded under its key: the
same IP address (`net.IP.Equal`) and port, the same three instants and the same
subnetwork id. -/
def sameAfterReload (x y : Node) : Prop :=
  Ptr.ipEqual x.Addr.IP y.Addr.IP = true ∧ y.Addr.Port = x.Addr.Port ∧
    y.LastAttempt = x.LastAttempt ∧ y.LastSuccess = x.LastSuccess ∧
    y.LastSeen = x.LastSeen ∧ y.SubnetworkID = x.SubnetworkID

/-- A peer on the default port whose address is a slice of five bytes. -/
def peerFiveBytes : NetAddress := { Timestamp := 0, IP := [45, 33, 12, 5, 9], Port := 18111 }

/-! ## Properties -/

theorem sub_lt_iff (t u : Time) (c : Int) (h1 : -(2 : Int) ^ 63 < c) (h2 : c ≤ (2 : Int) ^ 63 - 1) :
    t.Sub u < c ↔ (t : Int) - (u : Int) < c := by
  simp only [Time.Sub, maxDuration, minDuration]
  split_ifs <;> omega

theorem sub_gt_iff (t u : Time) (c : Int) (h1 : -(2 : Int) ^ 63 ≤ c) (h2 : c < (2 : Int) ^ 63 - 1) :
    t.Sub u > c ↔ (t : Int) - (u : Int) > c := by
  simp only [Time.Sub, maxDuration, minDuration]
  split_ifs <;> omega

theorem isGood_iff (env : Env) (node : Node) (now : Time) :
    isGood env node now = true ↔
      node.Addr.Port = uint16 env.peersDefaultPort ∧
        (now : Int) - (node.LastSuccess : Int) < Hour := by
  have h := sub_lt_iff now node.LastSuccess Hour (by decide) (by decide)
  simp only [isGood, isNonDefaultPort, defaultStaleGoodTimeout, Bool.and_eq_true,
    Bool.not_eq_true', bne_eq_false_iff_eq, decide_eq_true_eq, h]

theorem isStale_iff (node : Node) (now : Time) :
    isStale node now = true ↔
      (node.LastSuccess ≠ 0 ∧ (now : Int) - (node.LastAttempt : Int) > Hour) ∨
        (now : Int) - (node.LastAttempt : Int) > 2 * Hour := by
  have h1 := sub_gt_iff now node.LastAttempt Hour (by decide) (by decide)
  have h2 := sub_gt_iff now node.LastAttempt (Hour * 2) (by decide) (by decide)
  simp only [isStale, defaultStaleGoodTimeout, defaultStaleBadTimeout, Time.IsZero,
    Bool.or_eq_true, Bool.and_eq_true, Bool.not_eq_true', beq_eq_false_iff_ne,
    decide_eq_true_eq, h1, h2, mul_comm 2 Hour]

theorem isExpired_iff (node : Node) (now : Time) :
    isExpired node now = true ↔
      (now : Int) - (node.LastSeen : Int) > 8 * Hour ∧
        (now : Int) - (node.LastSuccess : Int) > 8 * Hour := by
  have h1 := sub_gt_iff now node.LastSeen (Hour * 8) (by decide) (by decide)
  have h2 := sub_gt_iff now node.LastSuccess (Hour * 8) (by decide) (by decide)
  simp only [isExpired, pruneExpireTimeout, Bool.and_eq_true, decide_eq_true_eq, h1, h2,
    mul_comm 8 Hour]

theorem goodAddressesLoop_cons (env : Env) (now : Time) (qtype : Nat) (incl : Bool)
    (sid : Option DomainSubnetworkID) (kn : String × Node) (rest : List (String × Node))
    (i : Int) (hi : i ≠ 0) (addrs : List NetAddress) :
    goodAddressesLoop env now qtype incl sid (kn :: rest) i addrs =
      if goodAccepts env now qtype incl sid kn = true then
        goodAddressesLoop env now qtype incl sid rest (i - 1) (addrs ++ [kn.2.Addr])
      else goodAddressesLoop env now qtype incl sid rest i addrs := by
  obtain ⟨k, node⟩ := kn
  have hne : (i == 0) = false := by rw [beq_eq_false_iff_ne]; exact hi
  simp only [goodAddressesLoop, hne, goodAccepts]
  cases h1 : (!incl && !SubnetworkIDEqual node.SubnetworkID sid) <;>
    cases h2 : ((qtype == TypeA && !isIPv4 node.Addr) ||
      (qtype == TypeAAAA && isIPv4 node.Addr)) <;>
    cases h3 : (!isGood env node now) <;> simp

theorem goodAddressesLoop_eq (env : Env) (now : Time) (qtype : Nat) (incl : Bool)
    (sid : Option DomainSubnetworkID) (nodes : List (String × Node)) (i : Int) (hi : 0 ≤ i)
    (addrs : List NetAddress) :
    goodAddressesLoop env now qtype incl sid nodes i addrs =
      addrs ++ ((nodes.filter (goodAccepts env now qtype incl sid)).take i.toNat).map
        (fun kn => kn.2.Addr) := by
  induction nodes generalizing i addrs with
  | nil => simp [goodAddressesLoop]
  | cons kn rest ih =>
    by_cases h0 : i = 0
    · subst h0
      obtain ⟨k, node⟩ := kn
      simp [goodAddressesLoop]
    · rw [goodAddressesLoop_cons env now qtype incl sid kn rest i h0]
      by_cases hq : goodAccepts env now qtype incl sid kn = true
      · have hs : i.toNat = (i - 1).toNat + 1 := by omega
        rw [if_pos hq, ih (i - 1) (by omega), List.filter_cons_of_pos hq, hs,
          List.take_succ_cons, List.map_cons, List.append_assoc]
        rfl
      · rw [if_neg hq, ih i hi, List.filter_cons_of_neg hq]

theorem GoodAddresses_eq (env : Env) (m : Manager) (now : Time) (qtype : Nat) (incl : Bool)
    (sid : Option DomainSubnetworkID) :
    m.GoodAddresses env now qtype incl sid =
      if (qtype != TypeA && qtype != TypeAAAA) = true then []
      else ((m.nodes.filter (goodAccepts env now qtype incl sid)).take 16).map
        (fun kn => kn.2.Addr) := by
  unfold Manager.GoodAddresses
  split
  · rfl
  · rw [goodAddressesLoop_eq env now qtype incl sid m.nodes defaultMaxAddresses (by decide)]
    rfl

theorem goodAccepts_isGood (env : Env) (now : Time) (qtype : Nat) (incl : Bool)
    (sid : Option DomainSubnetworkID) (kn : String × Node)
    (h : goodAccepts env now qtype incl sid kn = true) : isGood env kn.2 now = true := by
  unfold goodAccepts at h
  cases hg : isGood env kn.2 now
  · simp [hg] at h
  · rfl

theorem mem_GoodAddresses (env : Env) (m : Manager) (now : Time) (qtype : Nat) (incl : Bool)
    (sid : Option DomainSubnetworkID) (a : NetAddress)
    (ha : a ∈ m.GoodAddresses env now qtype incl sid) :
    ∃ kn ∈ m.nodes, kn.2.Addr = a ∧ isGood env kn.2 now = true := by
  rw [GoodAddresses_eq] at ha
  split at ha
  · simp at ha
  · obtain ⟨kn, hkn, rfl⟩ := List.mem_map.1 ha
    have hf := List.mem_of_mem_take hkn
    rw [List.mem_filter] at hf
    exact ⟨kn, hf.1, rfl, goodAccepts_isGood env now qtype incl sid kn hf.2⟩

theorem SubnetworkIDEqual_eq_decide (a b : Option DomainSubnetworkID) :
    SubnetworkIDEqual a b = decide (a = b) := by
  cases a with
  | none => cases b <;> simp [SubnetworkIDEqual]
  | some x =>
    cases b with
    | none => simp [SubnetworkIDEqual]
    | some y =>
      simp only [SubnetworkIDEqual, Option.some.injEq]
      by_cases h : x = y
      · simp [h]
      · simp [h]

theorem lookupNode_eq_none_iff (key : String) (nodes : List (String × Node)) :
    lookupNode key nodes = none ↔ ∀ kn ∈ nodes, kn.1 ≠ key := by
  induction nodes with
  | nil => simp [lookupNode]
  | cons kn rest ih =>
    obtain ⟨k, n⟩ := kn
    by_cases hk : k = key
    · simp [lookupNode, hk]
    · simp [lookupNode, hk, ih]

theorem mem_Good_lastSuccess (env : Env) (m : Manager) (addr : NetAddress)
    (sid : Option DomainSubnetworkID) (now : Time) (kn : String × Node)
    (hkn : kn ∈ (m.Good env addr sid now).nodes) (hk : kn.1 = addrKey env addr) :
    kn.2.LastSuccess = now ∧ kn.2.SubnetworkID = sid := by
  unfold Manager.Good at hkn
  split at hkn
  · simp only [updateNode, List.mem_map] at hkn
    obtain ⟨kn0, _, rfl⟩ := hkn
    by_cases h0 : kn0.1 = addrKey env addr
    · simp [h0]
    · rw [if_neg h0] at hk
      exact absurd hk h0
  · rename_i hnone
    exact absurd hk ((lookupNode_eq_none_iff _ _).1 hnone kn hkn)

/-- C1: for every table, instant, query type and subnetwork argument,
`GoodAddresses` returns at most 16 addresses, and each returned address is the
`Addr` of a node of the table that satisfies `isGood` at that instant. -/
theorem GoodAddresses_at_most_16_all_good (env : Env) (m : Manager) (now : Time) (qtype : Nat)
    (includeAllSubnetworks : Bool) (subnetworkID : Option DomainSubnetworkID) :
    (m.GoodAddresses env now qtype includeAllSubnetworks subnetworkID).length ≤ 16 ∧
      ∀ a ∈ m.GoodAddresses env now qtype includeAllSubnetworks subnetworkID,
        ∃ kn ∈ m.nodes, kn.2.Addr = a ∧ isGood env kn.2 now = true := by
  refine ⟨?_, fun a ha => mem_GoodAddresses env m now qtype _ _ a ha⟩
  rw [GoodAddresses_eq]
  split
  · simp
  · rw [List.length_map, List.length_take]
    exact Nat.min_le_left _ _

/-- C2: `isGood` holds exactly when the port of the node is the default P2P port
(`uint16(peersDefaultPort)`) and `now - last_success` is below one hour. A node
on another port is never good, so after `Good` has set its `last_success` no
`GoodAddresses` call returns its address. On the default port a node with
`last_success = now - 59min` is good and one with `last_success = now - 61min`
is not. -/
theorem isGood_iff_default_port_and_recent (env : Env) :
    (∀ (node : Node) (now : Time),
      isGood env node now = true ↔
        node.Addr.Port = uint16 env.peersDefaultPort ∧
          (now : Int) - (node.LastSuccess : Int) < Hour) ∧
    (∀ (node : Node) (now : Time),
      node.Addr.Port ≠ uint16 env.peersDefaultPort → isGood env node now = false) ∧
    (∀ (m : Manager) (addr : NetAddress) (subnetworkid : Option DomainSubnetworkID) (t : Time),
      addr.Port ≠ uint16 env.peersDefaultPort →
        (∀ kn ∈ (m.Good env addr subnetworkid t).nodes,
          kn.1 = addrKey env addr → kn.2.LastSuccess = t) ∧
        ∀ (now : Time) (qtype : Nat) (incl : Bool) (sid : Option DomainSubnetworkID),
          addr ∉ (m.Good env addr subnetworkid t).GoodAddresses env now qtype incl sid) ∧
    (∀ (node : Node) (lastSuccess : Time),
      node.Addr.Port = uint16 env.peersDefaultPort →
        isGood env { node with LastSuccess := lastSuccess }
            (lastSuccess + 59 * 60 * 1000000000) = true ∧
          isGood env { node with LastSuccess := lastSuccess }
            (lastSuccess + 61 * 60 * 1000000000) = false) := by
  refine ⟨fun node now => isGood_iff env node now, ?_, ?_, ?_⟩
  · intro node now hp
    cases h : isGood env node now
    · rfl
    · exact absurd ((isGood_iff env node now).1 h).1 hp
  · intro m addr sid t hp
    refine ⟨fun kn hkn hk => (mem_Good_lastSuccess env m addr sid t kn hkn hk).1, ?_⟩
    intro now qtype incl sid2 hmem
    obtain ⟨kn, _, hka, hg⟩ := mem_GoodAddresses env _ now qtype incl sid2 addr hmem
    have := ((isGood_iff env kn.2 now).1 hg).1
    rw [hka] at this
    exact hp this
  · intro node ls hp
    constructor
    · rw [isGood_iff]
      refine ⟨hp, ?_⟩
      simp only [Hour, Minute]
      push_cast
      omega
    · cases h : isGood env { node with LastSuccess := ls } (ls + 61 * 60 * 1000000000)
      · rfl
      · have h2 := ((isGood_iff env _ _).1 h).2
        simp only [Hour, Minute] at h2
        push_cast at h2
        omega

theorem GoodAddresses_of_filter (env : Env) (m : Manager) (now : Time) (qtype : Nat)
    (incl : Bool) (sid : Option DomainSubnetworkID) (sel : String × Node → Bool)
    (hq : (qtype != TypeA && qtype != TypeAAAA) = false)
    (hsel : ∀ kn, goodAccepts env now qtype incl sid kn = sel kn)
    (hlen : (m.nodes.filter sel).length ≤ 16) :
    m.GoodAddresses env now qtype incl sid = (m.nodes.filter sel).map (fun kn => kn.2.Addr) := by
  have hf : goodAccepts env now qtype incl sid = sel := funext hsel
  rw [GoodAddresses_eq, hq, hf, List.take_of_length_le hlen]
  simp

/-- C9: when at most 16 nodes qualify, `GoodAddresses` with query type A (resp.
AAAA) and `include_all = false` returns exactly the addresses of the good IPv4
(resp. non-IPv4) nodes whose subnetwork id equals the requested one, one entry
per node; with `include_all = true` it returns the addresses of all good nodes
of the family, whatever the subnetwork argument; for a query type that is
neither A nor AAAA the result is empty. -/
theorem GoodAddresses_exact_when_at_most_16 (env : Env) (m : Manager) (now : Time) :
    (∀ S : Option DomainSubnetworkID,
      (m.nodes.filter (fun kn => isGood env kn.2 now && isIPv4 kn.2.Addr &&
          decide (kn.2.SubnetworkID = S))).length ≤ 16 →
        m.GoodAddresses env now TypeA false S =
          (m.nodes.filter (fun kn => isGood env kn.2 now && isIPv4 kn.2.Addr &&
            decide (kn.2.SubnetworkID = S))).map (fun kn => kn.2.Addr)) ∧
    (∀ S : Option DomainSubnetworkID,
      (m.nodes.filter (fun kn => isGood env kn.2 now && !isIPv4 kn.2.Addr &&
          decide (kn.2.SubnetworkID = S))).length ≤ 16 →
        m.GoodAddresses env now TypeAAAA false S =
          (m.nodes.filter (fun kn => isGood env kn.2 now && !isIPv4 kn.2.Addr &&
            decide (kn.2.SubnetworkID = S))).map (fun kn => kn.2.Addr)) ∧
    (∀ S : Option DomainSubnetworkID,
      (m.nodes.filter (fun kn => isGood env kn.2 now && isIPv4 kn.2.Addr)).length ≤ 16 →
        m.GoodAddresses env now TypeA true S =
          (m.nodes.filter (fun kn => isGood env kn.2 now && isIPv4 kn.2.Addr)).map
            (fun kn => kn.2.Addr)) ∧
    (∀ S : Option DomainSubnetworkID,
      (m.nodes.filter (fun kn => isGood env kn.2 now && !isIPv4 kn.2.Addr)).length ≤ 16 →
        m.GoodAddresses env now TypeAAAA true S =
          (m.nodes.filter (fun kn => isGood env kn.2 now && !isIPv4 kn.2.Addr)).map
            (fun kn => kn.2.Addr)) ∧
    (∀ (qtype : Nat) (incl : Bool) (S : Option DomainSubnetworkID),
      qtype ≠ TypeA → qtype ≠ TypeAAAA → m.GoodAddresses env now qtype incl S = []) := by
  refine ⟨?_, ?_, ?_, ?_, ?_⟩
  · intro S h
    refine GoodAddresses_of_filter env m now TypeA false S _ (by decide) ?_ h
    intro kn
    simp only [goodAccepts, SubnetworkIDEqual_eq_decide]
    cases isGood env kn.2 now <;> cases isIPv4 kn.2.Addr <;>
      cases decide (kn.2.SubnetworkID = S) <;> decide
  · intro S h
    refine GoodAddresses_of_filter env m now TypeAAAA false S _ (by decide) ?_ h
    intro kn
    simp only [goodAccepts, SubnetworkIDEqual_eq_decide]
    cases isGood env kn.2 now <;> cases isIPv4 kn.2.Addr <;>
      cases decide (kn.2.SubnetworkID = S) <;> decide
  · intro S h
    refine GoodAddresses_of_filter env m now TypeA true S _ (by decide) ?_ h
    intro kn
    simp only [goodAccepts, SubnetworkIDEqual_eq_decide]
    cases isGood env kn.2 now <;> cases isIPv4 kn.2.Addr <;>
      cases decide (kn.2.SubnetworkID = S) <;> decide
  · intro S h
    refine GoodAddresses_of_filter env m now TypeAAAA true S _ (by decide) ?_ h
    intro kn
    simp only [goodAccepts, SubnetworkIDEqual_eq_decide]
    cases isGood env kn.2 now <;> cases isIPv4 kn.2.Addr <;>
      cases decide (kn.2.SubnetworkID = S) <;> decide
  · intro qtype incl S h1 h2
    unfold Manager.GoodAddresses
    rw [if_pos]
    simp [h1, h2]

theorem addressesLoop_cons (now : Time) (kn : String × Node) (rest : List (String × Node))
    (i : Int) (hi : i ≠ 0) (addrs : List NetAddress) :
    addressesLoop now (kn :: rest) i addrs =
      if isStale kn.2 now = true then addressesLoop now rest (i - 1) (addrs ++ [kn.2.Addr])
      else addressesLoop now rest i addrs := by
  obtain ⟨k, node⟩ := kn
  have hne : (i == 0) = false := by rw [beq_eq_false_iff_ne]; exact hi
  simp only [addressesLoop, hne]
  cases h : isStale node now <;> simp

theorem addressesLoop_eq (now : Time) (nodes : List (String × Node)) (i : Int) (hi : 0 ≤ i)
    (addrs : List NetAddress) :
    addressesLoop now nodes i addrs =
      addrs ++ ((nodes.filter (fun kn => isStale kn.2 now)).take i.toNat).map
        (fun kn => kn.2.Addr) := by
  induction nodes generalizing i addrs with
  | nil => simp [addressesLoop]
  | cons kn rest ih =>
    by_cases h0 : i = 0
    · subst h0
      obtain ⟨k, node⟩ := kn
      simp [addressesLoop]
    · rw [addressesLoop_cons now kn rest i h0]
      by_cases hq : isStale kn.2 now = true
      · have hs : i.toNat = (i - 1).toNat + 1 := by omega
        rw [if_pos hq, ih (i - 1) (by omega), List.filter_cons_of_pos (by simpa using hq), hs,
          List.take_succ_cons, List.map_cons, List.append_assoc]
        rfl
      · rw [if_neg hq, ih i hi, List.filter_cons_of_neg (by simpa using hq)]

/-- C7: for a non-negative thread count, `Addresses` returns at most
`threads * 3` addresses, each the `Addr` of a node of the table that satisfies
`isStale` at the instant of the call; and when the table holds at most
`threads * 3` stale nodes it returns the address of every one of them, one entry
per node. -/
theorem Addresses_at_most_3_threads_all_stale (env : Env) (m : Manager) (now : Time)
    (hthreads : 0 ≤ env.Threads) :
    ((m.Addresses env now).length : Int) ≤ env.Threads * 3 ∧
      (∀ a ∈ m.Addresses env now, ∃ kn ∈ m.nodes, kn.2.Addr = a ∧ isStale kn.2 now = true) ∧
      (((m.nodes.filter (fun kn => isStale kn.2 now)).length : Int) ≤ env.Threads * 3 →
        m.Addresses env now =
          (m.nodes.filter (fun kn => isStale kn.2 now)).map (fun kn => kn.2.Addr)) := by
  have h3 : 0 ≤ env.Threads * 3 := by omega
  have heq := addressesLoop_eq now m.nodes (env.Threads * 3) h3 []
  unfold Manager.Addresses
  rw [heq, List.nil_append]
  refine ⟨?_, ?_, ?_⟩
  · rw [List.length_map, List.length_take]
    have := Nat.min_le_left (env.Threads * 3).toNat
      (m.nodes.filter (fun kn => isStale kn.2 now)).length
    omega
  · intro a ha
    obtain ⟨kn, hkn, rfl⟩ := List.mem_map.1 ha
    have hf := List.mem_of_mem_take hkn
    rw [List.mem_filter] at hf
    exact ⟨kn, hf.1, rfl, hf.2⟩
  · intro hlen
    rw [List.take_of_length_le (by omega)]

theorem keys_updateNode (key : String) (f : Node → Node) (nodes : List (String × Node)) :
    (updateNode key f nodes).map Prod.fst = nodes.map Prod.fst := by
  induction nodes with
  | nil => rfl
  | cons kn rest ih =>
    simp only [updateNode, List.map_cons] at ih ⊢
    rw [ih]
    by_cases h : kn.1 = key <;> simp [h]

theorem length_updateNode (key : String) (f : Node → Node) (nodes : List (String × Node)) :
    (updateNode key f nodes).length = nodes.length := by
  simp [updateNode]

theorem lookupNode_eq_none_iff_not_mem_keys (key : String) (nodes : List (String × Node)) :
    lookupNode key nodes = none ↔ key ∉ nodes.map Prod.fst := by
  rw [lookupNode_eq_none_iff]
  constructor
  · intro h hmem
    obtain ⟨kn, hkn, hk⟩ := List.mem_map.1 hmem
    exact h kn hkn hk
  · intro h kn hkn hk
    exact h (List.mem_map.2 ⟨kn, hkn, hk⟩)

theorem addAddressesLoop_cons (env : Env) (now : Time) (addr : NetAddress)
    (rest : List NetAddress) (nodes : List (String × Node)) (count : Nat) :
    addAddressesLoop env now (addr :: rest) nodes count =
      if env.IsRoutable addr env.AcceptUnroutable = true then
        if addrKey env addr ∈ nodes.map Prod.fst then
          addAddressesLoop env now rest
            (updateNode (addrKey env addr) (fun n => { n with LastSeen := now }) nodes) count
        else
          addAddressesLoop env now rest
            (nodes ++ [(addrKey env addr,
              { Addr := addr, LastAttempt := 0, LastSuccess := 0, LastSeen := now,
                SubnetworkID := none })]) (count + 1)
      else addAddressesLoop env now rest nodes count := by
  rw [addAddressesLoop]
  cases hr : env.IsRoutable addr env.AcceptUnroutable
  · simp
  · simp only [Bool.not_true, Bool.false_eq_true, if_false, if_true]
    cases hl : lookupNode (addrKey env addr) nodes with
    | none =>
      rw [if_neg ((lookupNode_eq_none_iff_not_mem_keys _ _).1 hl)]
    | some n =>
      have : addrKey env addr ∈ nodes.map Prod.fst := by
        by_contra hc
        rw [(lookupNode_eq_none_iff_not_mem_keys _ _).2 hc] at hl
        exact Option.noConfusion hl
      rw [if_pos this]

theorem addAddressesLoop_length (env : Env) (now : Time) (addrs : List NetAddress)
    (nodes : List (String × Node)) (count : Nat) :
    (addAddressesLoop env now addrs nodes count).1.length + count =
      nodes.length + (addAddressesLoop env now addrs nodes count).2 := by
  induction addrs generalizing nodes count with
  | nil => simp [addAddressesLoop]
  | cons addr rest ih =>
    rw [addAddressesLoop_cons]
    split
    · split
      · rw [ih, length_updateNode]
      · have := ih (nodes ++ [(addrKey env addr,
          { Addr := addr, LastAttempt := 0, LastSuccess := 0, LastSeen := now,
            SubnetworkID := none })]) (count + 1)
        rw [List.length_append, List.length_singleton] at this
        omega
    · exact ih nodes count

theorem addAddressesLoop_count (env : Env) (now : Time) (addrs : List NetAddress)
    (nodes : List (String × Node)) (count : Nat) :
    (addAddressesLoop env now addrs nodes count).2 =
      count + (((addrs.filter (fun a => env.IsRoutable a env.AcceptUnroutable)).map
        (addrKey env)).toFinset \ (nodes.map Prod.fst).toFinset).card := by
  induction addrs generalizing nodes count with
  | nil => simp [addAddressesLoop]
  | cons addr rest ih =>
    rw [addAddressesLoop_cons]
    by_cases hr : env.IsRoutable addr env.AcceptUnroutable = true
    · rw [if_pos hr, List.filter_cons_of_pos (by simpa using hr), List.map_cons,
        List.toFinset_cons]
      by_cases hk : addrKey env addr ∈ nodes.map Prod.fst
      · rw [if_pos hk, ih, keys_updateNode]
        congr 2
        ext x
        simp only [Finset.mem_sdiff, Finset.mem_insert, List.mem_toFinset]
        constructor
        · rintro ⟨h1, h2⟩
          exact ⟨Or.inr h1, h2⟩
        · rintro ⟨h1 | h1, h2⟩
          · exact absurd (h1 ▸ hk) h2
          · exact ⟨h1, h2⟩
      · rw [if_neg hk, ih, List.map_append, List.map_singleton, List.toFinset_append]
        have hset : insert (addrKey env addr)
              ((rest.filter (fun a => env.IsRoutable a env.AcceptUnroutable)).map
                (addrKey env)).toFinset \ (nodes.map Prod.fst).toFinset =
            insert (addrKey env addr)
              (((rest.filter (fun a => env.IsRoutable a env.AcceptUnroutable)).map
                (addrKey env)).toFinset \
                ((nodes.map Prod.fst).toFinset ∪ [addrKey env addr].toFinset)) := by
          ext x
          simp only [Finset.mem_sdiff, Finset.mem_insert, List.mem_toFinset, Finset.mem_union,
            List.mem_singleton]
          constructor
          · rintro ⟨h1 | h1, h2⟩
            · exact Or.inl h1
            · by_cases hx : x = addrKey env addr
              · exact Or.inl hx
              · exact Or.inr ⟨h1, fun h => h.elim h2 hx⟩
          · rintro (h1 | ⟨h1, h2⟩)
            · exact ⟨Or.inl h1, h1 ▸ hk⟩
            · exact ⟨Or.inr h1, fun h => h2 (Or.inl h)⟩
        rw [hset, Finset.card_insert_of_not_mem]
        · dsimp only
          omega
        · simp
    · rw [if_neg hr, List.filter_cons_of_neg (by simpa using hr)]
      exact ih nodes count

/-- C10: `AddAddresses` returns the number of nodes the call inserts: the size
of the table after the call is its size before plus the returned count, and the
count is the number of distinct keys `<ip>_<port>` of routable addresses of the
list that were absent from the table before the call. -/
theorem AddAddresses_returns_number_inserted (env : Env) (m : Manager)
    (addrs : List NetAddress) (now : Time) :
    (m.AddAddresses env addrs now).1.AddressCount =
        m.AddressCount + (m.AddAddresses env addrs now).2 ∧
      (m.AddAddresses env addrs now).2 =
        (((addrs.filter (fun a => env.IsRoutable a env.AcceptUnroutable)).map
          (addrKey env)).toFinset \ m.keys.toFinset).card := by
  constructor
  · have := addAddressesLoop_length env now addrs m.nodes 0
    simpa [Manager.AddAddresses, Manager.AddressCount] using this
  · have := addAddressesLoop_count env now addrs m.nodes 0
    simpa [Manager.AddAddresses, Manager.keys] using this

theorem prunePeersLoop_fst (now : Time) (nodes : List (String × Node)) :
    (prunePeersLoop now nodes).1 = nodes.filter (fun kn => !isExpired kn.2 now) := by
  induction nodes with
  | nil => rfl
  | cons kn rest ih =>
    obtain ⟨k, node⟩ := kn
    simp only [prunePeersLoop]
    cases h : isExpired node now
    · simp [h, ih]
    · simp [h, ih]

theorem prunePeers_nodes (m : Manager) (now : Time) :
    (m.prunePeers now).nodes = m.nodes.filter (fun kn => !isExpired kn.2 now) :=
  prunePeersLoop_fst now m.nodes

theorem node_eq_of_fields (a b : Node) (h1 : a.Addr = b.Addr)
    (h2 : a.LastAttempt = b.LastAttempt) (h3 : a.LastSuccess = b.LastSuccess)
    (h4 : a.LastSeen = b.LastSeen) (h5 : a.SubnetworkID = b.SubnetworkID) : a = b := by
  cases a
  cases b
  simp_all

theorem mem_updateNode (key : String) (f : Node → Node) (nodes : List (String × Node))
    (kn : String × Node) (h : kn ∈ updateNode key f nodes) :
    ∃ n, (kn.1, n) ∈ nodes ∧ (kn.2 = n ∨ (kn.1 = key ∧ kn.2 = f n)) := by
  simp only [updateNode, List.mem_map] at h
  obtain ⟨kn0, hmem, rfl⟩ := h
  by_cases hk : kn0.1 = key
  · rw [if_pos hk]
    exact ⟨kn0.2, hmem, Or.inr ⟨hk, rfl⟩⟩
  · rw [if_neg hk]
    exact ⟨kn0.2, hmem, Or.inl rfl⟩

/-- Every entry of the table after the loop of `AddAddresses` is either an entry
that was already there, unchanged but for `LastSeen`, which may have been set
to `now`, or a fresh node under a key that was absent, for a routable address
of the list. -/
theorem addAddressesLoop_mem (env : Env) (now : Time) (addrs : List NetAddress)
    (nodes : List (String × Node)) (count : Nat) (kn : String × Node)
    (h : kn ∈ (addAddressesLoop env now addrs nodes count).1) :
    (∃ n, (kn.1, n) ∈ nodes ∧ kn.2.Addr = n.Addr ∧ kn.2.LastAttempt = n.LastAttempt ∧
        kn.2.LastSuccess = n.LastSuccess ∧ kn.2.SubnetworkID = n.SubnetworkID ∧
        (kn.2.LastSeen = n.LastSeen ∨ kn.2.LastSeen = now)) ∨
      (kn.1 ∉ nodes.map Prod.fst ∧
        ∃ a ∈ addrs, env.IsRoutable a env.AcceptUnroutable = true ∧
          kn = (addrKey env a, freshNode a now)) := by
  induction addrs generalizing nodes count with
  | nil =>
    left
    exact ⟨kn.2, h, rfl, rfl, rfl, rfl, Or.inl rfl⟩
  | cons addr rest ih =>
    rw [addAddressesLoop_cons] at h
    by_cases hr : env.IsRoutable addr env.AcceptUnroutable = true
    · rw [if_pos hr] at h
      by_cases hk : addrKey env addr ∈ nodes.map Prod.fst
      · rw [if_pos hk] at h
        rcases ih _ _ h with ⟨n1, hn1, e1, e2, e3, e4, e5⟩ | ⟨hnot, a, ha, hra, hkn⟩
        · obtain ⟨n0, hn0, hcase⟩ := mem_updateNode _ _ _ _ hn1
          left
          refine ⟨n0, hn0, ?_⟩
          rcases hcase with h0 | ⟨_, h0⟩
          · have h0 : n1 = n0 := h0
            subst h0
            exact ⟨e1, e2, e3, e4, e5⟩
          · have h0 : n1 = { n0 with LastSeen := now } := h0
            subst h0
            refine ⟨e1, e2, e3, e4, ?_⟩
            rcases e5 with e5 | e5
            · exact Or.inr e5
            · exact Or.inr e5
        · right
          rw [keys_updateNode] at hnot
          exact ⟨hnot, a, List.mem_cons_of_mem _ ha, hra, hkn⟩
      · rw [if_neg hk] at h
        rcases ih _ _ h with ⟨n1, hn1, e1, e2, e3, e4, e5⟩ | ⟨hnot, a, ha, hra, hkn⟩
        · rw [List.mem_append, List.mem_singleton] at hn1
          rcases hn1 with hn1 | hn1
          · left
            exact ⟨n1, hn1, e1, e2, e3, e4, e5⟩
          · right
            have hk1 : kn.1 = addrKey env addr := congrArg Prod.fst hn1
            have hn : n1 = freshNode addr now := congrArg Prod.snd hn1
            subst hn
            refine ⟨hk1 ▸ hk, addr, List.mem_cons_self _ _, hr, ?_⟩
            have : kn.2 = freshNode addr now :=
              node_eq_of_fields _ _ e1 e2 e3 (by rcases e5 with e5 | e5 <;> simpa [freshNode] using e5)
                e4
            exact Prod.ext hk1 this
        · right
          rw [List.map_append, List.mem_append, not_or] at hnot
          exact ⟨hnot.1, a, List.mem_cons_of_mem _ ha, hra, hkn⟩
    · rw [if_neg hr] at h
      rcases ih _ _ h with hold | ⟨hnot, a, ha, hra, hkn⟩
      · exact Or.inl hold
      · exact Or.inr ⟨hnot, a, List.mem_cons_of_mem _ ha, hra, hkn⟩

theorem AddAddresses_nodes_mem (env : Env) (m : Manager) (addrs : List NetAddress) (now : Time)
    (kn : String × Node) (h : kn ∈ (m.AddAddresses env addrs now).1.nodes) :
    (∃ n, (kn.1, n) ∈ m.nodes ∧ kn.2.Addr = n.Addr ∧ kn.2.LastAttempt = n.LastAttempt ∧
        kn.2.LastSuccess = n.LastSuccess ∧ kn.2.SubnetworkID = n.SubnetworkID ∧
        (kn.2.LastSeen = n.LastSeen ∨ kn.2.LastSeen = now)) ∨
      (kn.1 ∉ m.keys ∧
        ∃ a ∈ addrs, env.IsRoutable a env.AcceptUnroutable = true ∧
          kn = (addrKey env a, freshNode a now)) :=
  addAddressesLoop_mem env now addrs m.nodes 0 kn h

theorem AddAddresses_single_new (env : Env) (m : Manager) (addr : NetAddress) (now : Time)
    (hr : env.IsRoutable addr env.AcceptUnroutable = true) (hk : addrKey env addr ∉ m.keys) :
    (m.AddAddresses env [addr] now).1.nodes = m.nodes ++ [(addrKey env addr, freshNode addr now)] := by
  have hk2 : addrKey env addr ∉ m.nodes.map Prod.fst := hk
  simp only [Manager.AddAddresses, addAddressesLoop_cons, if_pos hr, if_neg hk2]
  rfl

theorem mem_prunePeers_iff (m : Manager) (now : Time) (kn : String × Node) :
    kn ∈ (m.prunePeers now).nodes ↔ kn ∈ m.nodes ∧ isExpired kn.2 now = false := by
  rw [prunePeers_nodes, List.mem_filter]
  simp

theorem freshNode_isExpired_iff (addr : NetAddress) (t now : Time) :
    isExpired (freshNode addr t) now = true ↔ (now : Int) > (t : Int) + 8 * Hour := by
  rw [isExpired_iff]
  simp only [freshNode, Hour, Minute]
  push_cast
  omega

theorem mem_foldl_prunePeers (nows : List Time) (m : Manager) (kn : String × Node)
    (hmem : kn ∈ m.nodes) (h : ∀ n ∈ nows, isExpired kn.2 n = false) :
    kn ∈ (nows.foldl Manager.prunePeers m).nodes := by
  induction nows generalizing m with
  | nil => exact hmem
  | cons n rest ih =>
    rw [List.foldl_cons]
    refine ih _ ?_ (fun x hx => h x (List.mem_cons_of_mem _ hx))
    exact (mem_prunePeers_iff m n kn).2 ⟨hmem, h n (List.mem_cons_self _ _)⟩

/-- C8: one prune cycle removes exactly the nodes that are expired, those with
`now - last_seen > 8h` and `now - last_success > 8h`, and leaves every other
entry as it is. A peer inserted at `t` and never probed survives every prune
run at `now ≤ t + 8h` and is removed by a prune run at `now > t + 8h`; when no
other node is expired then, `AddressCount` is one lower after the run. A node
one of whose two timestamps is not older than 8h is not removed, and a run
lowers `AddressCount` by the number of expired nodes. -/
theorem prunePeers_removes_exactly_expired (env : Env) :
    (∀ (m : Manager) (now : Time),
      (m.prunePeers now).nodes = m.nodes.filter (fun kn => !isExpired kn.2 now)) ∧
    (∀ (node : Node) (now : Time),
      isExpired node now = true ↔
        (now : Int) - (node.LastSeen : Int) > 8 * Hour ∧
          (now : Int) - (node.LastSuccess : Int) > 8 * Hour) ∧
    (∀ (m : Manager) (addr : NetAddress) (t : Time),
      env.IsRoutable addr env.AcceptUnroutable = true → addrKey env addr ∉ m.keys →
        (∀ nows : List Time, (∀ n ∈ nows, (n : Int) ≤ (t : Int) + 8 * Hour) →
          (addrKey env addr, freshNode addr t) ∈
            (nows.foldl Manager.prunePeers (m.AddAddresses env [addr] t).1).nodes) ∧
        (∀ now : Time, (now : Int) > (t : Int) + 8 * Hour →
          (∀ kn ∈ ((m.AddAddresses env [addr] t).1.prunePeers now).nodes,
            kn.1 ≠ addrKey env addr) ∧
          ((∀ kn ∈ m.nodes, isExpired kn.2 now = false) →
            ((m.AddAddresses env [addr] t).1.prunePeers now).AddressCount + 1 =
              (m.AddAddresses env [addr] t).1.AddressCount))) ∧
    (∀ (m : Manager) (now : Time) (kn : String × Node), kn ∈ m.nodes →
      ((now : Int) - (kn.2.LastSeen : Int) ≤ 8 * Hour ∨
        (now : Int) - (kn.2.LastSuccess : Int) ≤ 8 * Hour) →
      kn ∈ (m.prunePeers now).nodes) ∧
    (∀ (m : Manager) (now : Time),
      (m.prunePeers now).AddressCount +
          (m.nodes.filter (fun kn => isExpired kn.2 now)).length = m.AddressCount) := by
  refine ⟨prunePeers_nodes, isExpired_iff, ?_, ?_, ?_⟩
  · intro m addr t hr hk
    have hnodes := AddAddresses_single_new env m addr t hr hk
    refine ⟨?_, ?_⟩
    · intro nows hn
      refine mem_foldl_prunePeers nows _ _ (by rw [hnodes]; simp) ?_
      intro n hmem
      cases he : isExpired (freshNode addr t) n
      · rfl
      · have := (freshNode_isExpired_iff addr t n).1 he
        have := hn n hmem
        omega
    · intro now hnow
      have hexp : isExpired (freshNode addr t) now = true :=
        (freshNode_isExpired_iff addr t now).2 hnow
      refine ⟨?_, ?_⟩
      · intro kn hkn hkey
        rw [mem_prunePeers_iff, hnodes, List.mem_append, List.mem_singleton] at hkn
        rcases hkn with ⟨hmem | hmem, hne⟩
        · exact hk (List.mem_map.2 ⟨kn, hmem, hkey⟩)
        · rw [hmem] at hne
          rw [hexp] at hne
          exact Bool.noConfusion hne
      · intro hall
        have hfilter : m.nodes.filter (fun kn => !isExpired kn.2 now) = m.nodes := by
          rw [List.filter_eq_self]
          intro kn hkn
          simp [hall kn hkn]
        simp only [Manager.AddressCount, prunePeers_nodes, hnodes, List.filter_append, hfilter,
          List.length_append]
        simp [hexp]
  · intro m now kn hmem hy
    rw [mem_prunePeers_iff]
    refine ⟨hmem, ?_⟩
    cases he : isExpired kn.2 now
    · rfl
    · have := (isExpired_iff kn.2 now).1 he
      omega
  · intro m now
    simp only [Manager.AddressCount, prunePeers_nodes]
    have h := @List.length_eq_length_filter_add _ m.nodes
      (fun kn : String × Node => isExpired kn.2 now)
    simp only at h
    omega

/-- C6: `isStale` holds exactly when (`last_success ≠ 0` and
`now - last_attempt > 1h`) or `now - last_attempt > 2h`, for every node and
every `now`. A never-probed node (`last_attempt = 0`) is stale at every reading
`now` of the clock, so a node that `AddAddresses` has just inserted is stale at
once and at every later reading. With `last_success = 0`,
`last_attempt = now - 121min` is stale and `last_attempt = now - 59min` is
not. -/
theorem isStale_iff_and_never_probed_is_stale (env : Env) :
    (∀ (node : Node) (now : Time),
      isStale node now = true ↔
        (node.LastSuccess ≠ 0 ∧ (now : Int) - (node.LastAttempt : Int) > Hour) ∨
          (now : Int) - (node.LastAttempt : Int) > 2 * Hour) ∧
    (∀ (node : Node) (now : Time),
      unixEpoch ≤ now → node.LastAttempt = 0 → isStale node now = true) ∧
    (∀ (m : Manager) (addrs : List NetAddress) (t now : Time), unixEpoch ≤ now →
      ∀ kn ∈ (m.AddAddresses env addrs t).1.nodes, kn.1 ∉ m.keys → isStale kn.2 now = true) ∧
    (∀ (node : Node) (lastAttempt : Time),
      isStale { node with LastSuccess := 0, LastAttempt := lastAttempt }
          (lastAttempt + 121 * 60 * 1000000000) = true ∧
        isStale { node with LastSuccess := 0, LastAttempt := lastAttempt }
          (lastAttempt + 59 * 60 * 1000000000) = false) := by
  have hnever : ∀ (node : Node) (now : Time),
      unixEpoch ≤ now → node.LastAttempt = 0 → isStale node now = true := by
    intro node now hnow h0
    rw [isStale_iff, h0]
    right
    have h : (unixEpoch : Int) ≤ (now : Int) := by exact_mod_cast hnow
    simp only [unixEpoch, Hour, Minute] at h ⊢
    push_cast at h ⊢
    omega
  refine ⟨isStale_iff, hnever, ?_, ?_⟩
  · intro m addrs t now hnow kn hkn hnew
    rcases AddAddresses_nodes_mem env m addrs t kn hkn with ⟨n, hn, _⟩ | ⟨_, a, _, _, hfresh⟩
    · exact absurd (List.mem_map.2 ⟨(kn.1, n), hn, rfl⟩) hnew
    · refine hnever kn.2 now hnow ?_
      rw [hfresh]
      rfl
  · intro node la
    constructor
    · rw [isStale_iff]
      right
      simp only [Hour, Minute]
      push_cast
      omega
    · cases h : isStale { node with LastSuccess := 0, LastAttempt := la }
          (la + 59 * 60 * 1000000000)
      · rfl
      · rw [isStale_iff] at h
        simp only [Hour, Minute] at h
        push_cast at h
        rcases h with ⟨h1, _⟩ | h
        · exact absurd rfl h1
        · omega

/-- C3, as stated, fails: a node is inserted at instant 1, `Attempt` runs on it
at instant 2 and `Good` at instant 3, the order in which a worker issues them;
afterwards `last_attempt = 2` and `last_success = 3` are both non-zero and
`last_attempt < last_success`. -/
theorem attempt_then_good_breaks_stated_order :
    (runOps testEnv Manager.empty
        [(1, .addAddresses [peerA]), (2, .attempt peerA), (3, .good peerA none)]).nodes =
      [("203.0.113.5_18111",
        { Addr := peerA, LastAttempt := 2, LastSuccess := 3, LastSeen := 1,
          SubnetworkID := none })] ∧
    attemptNotBeforeSuccess (runOps testEnv Manager.empty
        [(1, .addAddresses [peerA]), (2, .attempt peerA), (3, .good peerA none)]) = false := by
  decide

theorem attemptNotBeforeSuccess_iff (m : Manager) :
    attemptNotBeforeSuccess m = true ↔
      ∀ kn ∈ m.nodes, kn.2.LastAttempt = 0 ∨ kn.2.LastSuccess = 0 ∨
        kn.2.LastSuccess ≤ kn.2.LastAttempt := by
  simp [attemptNotBeforeSuccess, List.all_eq_true, or_assoc]

theorem mem_Attempt (env : Env) (m : Manager) (addr : NetAddress) (now : Time)
    (kn : String × Node) (h : kn ∈ (m.Attempt env addr now).nodes) :
    ∃ n, (kn.1, n) ∈ m.nodes ∧
      (kn.2 = n ∨ (kn.1 = addrKey env addr ∧ kn.2 = { n with LastAttempt := now })) := by
  unfold Manager.Attempt at h
  split at h
  · exact mem_updateNode _ _ _ _ h
  · exact ⟨kn.2, h, Or.inl rfl⟩

theorem mem_Attempt_key (env : Env) (m : Manager) (addr : NetAddress) (now : Time)
    (kn : String × Node) (h : kn ∈ (m.Attempt env addr now).nodes)
    (hk : kn.1 = addrKey env addr) :
    ∃ n, (kn.1, n) ∈ m.nodes ∧ kn.2 = { n with LastAttempt := now } := by
  unfold Manager.Attempt at h
  split at h
  · simp only [updateNode, List.mem_map] at h
    obtain ⟨kn0, hmem, rfl⟩ := h
    by_cases h0 : kn0.1 = addrKey env addr
    · rw [if_pos h0]
      exact ⟨kn0.2, hmem, rfl⟩
    · rw [if_neg h0] at hk
      exact absurd hk h0
  · rename_i hnone
    exact absurd hk ((lookupNode_eq_none_iff _ _).1 hnone kn h)

theorem mem_Good (env : Env) (m : Manager) (addr : NetAddress)
    (sid : Option DomainSubnetworkID) (now : Time)
    (kn : String × Node) (h : kn ∈ (m.Good env addr sid now).nodes) :
    ∃ n, (kn.1, n) ∈ m.nodes ∧
      (kn.2 = n ∨ (kn.1 = addrKey env addr ∧
        kn.2 = { n with LastSuccess := now, SubnetworkID := sid })) := by
  unfold Manager.Good at h
  split at h
  · exact mem_updateNode _ _ _ _ h
  · exact ⟨kn.2, h, Or.inl rfl⟩

theorem mem_Good_key (env : Env) (m : Manager) (addr : NetAddress)
    (sid : Option DomainSubnetworkID) (now : Time)
    (kn : String × Node) (h : kn ∈ (m.Good env addr sid now).nodes)
    (hk : kn.1 = addrKey env addr) :
    ∃ n, (kn.1, n) ∈ m.nodes ∧ kn.2 = { n with LastSuccess := now, SubnetworkID := sid } := by
  unfold Manager.Good at h
  split at h
  · simp only [updateNode, List.mem_map] at h
    obtain ⟨kn0, hmem, rfl⟩ := h
    by_cases h0 : kn0.1 = addrKey env addr
    · rw [if_pos h0]
      exact ⟨kn0.2, hmem, rfl⟩
    · rw [if_neg h0] at hk
      exact absurd hk h0
  · rename_i hnone
    exact absurd hk ((lookupNode_eq_none_iff _ _).1 hnone kn h)

theorem timestampsAtMost_runOps (env : Env) (ops : List (Time × Op)) (m : Manager) (now : Time)
    (hm : timestampsAtMost now m) (hops : ∀ p ∈ ops, p.1 ≤ now) :
    timestampsAtMost now (runOps env m ops) := by
  induction ops generalizing m with
  | nil => exact hm
  | cons p rest ih =>
    obtain ⟨t, op⟩ := p
    have ht : t ≤ now := hops (t, op) (List.mem_cons_self _ _)
    refine ih _ ?_ (fun q hq => hops q (List.mem_cons_of_mem _ hq))
    intro kn hkn
    cases op with
    | addAddresses addrs =>
      rcases AddAddresses_nodes_mem env m addrs t kn hkn with
        ⟨n, hn, _, e2, e3, _, e5⟩ | ⟨_, a, _, _, hfresh⟩
      · obtain ⟨h1, h2, h3⟩ := hm _ hn
        refine ⟨e2 ▸ h1, e3 ▸ h2, ?_⟩
        rcases e5 with e5 | e5
        · exact e5 ▸ h3
        · exact e5 ▸ ht
      · rw [hfresh]
        exact ⟨Nat.zero_le _, Nat.zero_le _, ht⟩
    | attempt addr =>
      obtain ⟨n, hn, hcase⟩ := mem_Attempt env m addr t kn hkn
      obtain ⟨h1, h2, h3⟩ := hm _ hn
      rcases hcase with h0 | ⟨_, h0⟩
      · rw [h0]
        exact ⟨h1, h2, h3⟩
      · rw [h0]
        exact ⟨ht, h2, h3⟩
    | good addr sid =>
      obtain ⟨n, hn, hcase⟩ := mem_Good env m addr sid t kn hkn
      obtain ⟨h1, h2, h3⟩ := hm _ hn
      rcases hcase with h0 | ⟨_, h0⟩
      · rw [h0]
        exact ⟨h1, h2, h3⟩
      · rw [h0]
        exact ⟨h1, ht, h3⟩
    | prune =>
      exact hm kn ((mem_prunePeers_iff m t kn).1 hkn).1

theorem nonDecreasing_append_singleton (ts : List Time) (now : Time)
    (h : nonDecreasing (ts ++ [now])) : ∀ t ∈ ts, t ≤ now := by
  unfold nonDecreasing at h
  rw [List.chain'_iff_pairwise, List.pairwise_append] at h
  intro t ht
  exact h.2.2 t ht now (List.mem_singleton_self _)

theorem runOps_append (env : Env) (ops : List (Time × Op)) (m : Manager) (now : Time)
    (op : Op) :
    runOps env m (ops ++ [(now, op)]) = (runOps env m ops).applyOp env now op := by
  induction ops generalizing m with
  | nil => rfl
  | cons p rest ih =>
    obtain ⟨t, o⟩ := p
    simp only [List.cons_append, runOps]
    exact ih _

/-- C3, amended: for every sequence of table operations applied from the empty
table under a non-decreasing clock, after every operation no timestamp of a
node is later than the clock. `AddAddresses`, `Attempt` and `prune` keep
`last_attempt ≥ last_success` on every node where both are non-zero, and
`Attempt` establishes it on the node it touches. `Good` sets `last_success` of
the node it touches to the clock, so that after it the order on that node is
the opposite one, `last_success ≥ last_attempt`. -/
theorem timestamps_follow_clock_and_probe_order (env : Env) (ops : List (Time × Op))
    (now : Time) (hclock : nonDecreasing (ops.map Prod.fst ++ [now])) :
    timestampsAtMost now (runOps env Manager.empty ops) ∧
    (∀ op : Op, (∀ addr subnetworkid, op ≠ .good addr subnetworkid) →
      attemptNotBeforeSuccess (runOps env Manager.empty ops) = true →
        attemptNotBeforeSuccess (runOps env Manager.empty (ops ++ [(now, op)])) = true) ∧
    (∀ (addr : NetAddress),
      ∀ kn ∈ (runOps env Manager.empty (ops ++ [(now, .attempt addr)])).nodes,
        kn.1 = addrKey env addr →
          kn.2.LastAttempt = now ∧ kn.2.LastSuccess ≤ kn.2.LastAttempt) ∧
    (∀ (addr : NetAddress) (subnetworkid : Option DomainSubnetworkID),
      ∀ kn ∈ (runOps env Manager.empty (ops ++ [(now, .good addr subnetworkid)])).nodes,
        kn.1 = addrKey env addr →
          kn.2.LastSuccess = now ∧ kn.2.LastAttempt ≤ kn.2.LastSuccess) := by
  have hle : ∀ p ∈ ops, p.1 ≤ now := by
    intro p hp
    exact nonDecreasing_append_singleton _ now hclock p.1 (List.mem_map.2 ⟨p, hp, rfl⟩)
  have hb : timestampsAtMost now (runOps env Manager.empty ops) :=
    timestampsAtMost_runOps env ops Manager.empty now (by intro kn hkn; cases hkn) hle
  have hrun : ∀ op, runOps env Manager.empty (ops ++ [(now, op)]) =
      (runOps env Manager.empty ops).applyOp env now op :=
    fun op => runOps_append env ops Manager.empty now op
  refine ⟨hb, ?_, ?_, ?_⟩
  · intro op hop hinv
    rw [hrun, attemptNotBeforeSuccess_iff]
    rw [attemptNotBeforeSuccess_iff] at hinv
    intro kn hkn
    cases op with
    | addAddresses addrs =>
      rcases AddAddresses_nodes_mem env _ addrs now kn hkn with
        ⟨n, hn, _, e2, e3, _, _⟩ | ⟨_, a, _, _, hfresh⟩
      · rw [e2, e3]
        exact hinv _ hn
      · left
        rw [hfresh]
        rfl
    | attempt addr =>
      obtain ⟨n, hn, hcase⟩ := mem_Attempt env _ addr now kn hkn
      rcases hcase with h0 | ⟨_, h0⟩
      · rw [h0]
        exact hinv _ hn
      · right
        right
        rw [h0]
        exact (hb _ hn).2.1
    | good addr sid => exact absurd rfl (hop addr sid)
    | prune => exact hinv kn ((mem_prunePeers_iff _ now kn).1 hkn).1
  · intro addr kn hkn hk
    rw [hrun] at hkn
    obtain ⟨n, hn, h0⟩ := mem_Attempt_key env _ addr now kn hkn hk
    rw [h0]
    exact ⟨rfl, (hb _ hn).2.1⟩
  · intro addr sid kn hkn hk
    rw [hrun] at hkn
    obtain ⟨n, hn, h0⟩ := mem_Good_key env _ addr sid now kn hkn hk
    rw [h0]
    exact ⟨rfl, (hb _ hn).1⟩

/-! ### The user-agent gate -/

theorem digitChar_isDigit (d : Nat) (h : d < 10) :
    (Nat.digitChar d).isDigit = true ∧ (Nat.digitChar d).toNat - 48 = d := by
  interval_cases d <;> decide

theorem toDigitsCore_value (fuel n : Nat) (ds : List Char) (h : n < fuel) :
    digitsValue (Nat.toDigitsCore 10 fuel n ds) =
      ds.foldl (fun acc c => 10 * acc + (c.toNat - 48)) n := by
  induction fuel generalizing n ds with
  | zero => omega
  | succ f ih =>
    unfold Nat.toDigitsCore
    have hd := (digitChar_isDigit (n % 10) (Nat.mod_lt _ (by decide))).2
    by_cases h0 : n / 10 = 0
    · simp only [h0, if_true, digitsValue, List.foldl_cons, hd]
      congr 1
      omega
    · simp only [h0, if_false]
      rw [ih (n / 10) _ (by omega), List.foldl_cons, hd]
      congr 1
      omega

theorem digitsValue_formatInt (n : Nat) : digitsValue (formatInt n) = n := by
  unfold formatInt Nat.toDigits
  rw [toDigitsCore_value _ _ _ (Nat.lt_succ_self n)]
  rfl

theorem toDigitsCore_isDigit (fuel n : Nat) (ds : List Char)
    (hds : ∀ c ∈ ds, c.isDigit = true) :
    ∀ c ∈ Nat.toDigitsCore 10 fuel n ds, c.isDigit = true := by
  induction fuel generalizing n ds with
  | zero => simpa [Nat.toDigitsCore] using hds
  | succ f ih =>
    unfold Nat.toDigitsCore
    have hd := (digitChar_isDigit (n % 10) (Nat.mod_lt _ (by decide))).1
    have hcons : ∀ c ∈ Nat.digitChar (n % 10) :: ds, c.isDigit = true := by
      intro c hc
      rcases List.mem_cons.1 hc with rfl | hc
      · exact hd
      · exact hds c hc
    by_cases h0 : n / 10 = 0
    · simp only [h0, if_true]
      exact hcons
    · simp only [h0, if_false]
      exact ih _ _ hcons

theorem formatInt_isDigit (n : Nat) : ∀ c ∈ formatInt n, c.isDigit = true :=
  toDigitsCore_isDigit _ _ _ (by simp)

theorem formatInt_injective (a b : Nat) (h : formatInt a = formatInt b) : a = b := by
  rw [← digitsValue_formatInt a, ← digitsValue_formatInt b, h]

theorem formatInt_ne_nil (n : Nat) : formatInt n ≠ [] := by
  unfold formatInt Nat.toDigits Nat.toDigitsCore
  by_cases h0 : n / 10 = 0
  · simp [h0]
  · simp only [h0, if_false]
    intro h
    have : ∀ (fuel m : Nat) (ds : List Char), ds ≠ [] → Nat.toDigitsCore 10 fuel m ds ≠ [] := by
      intro fuel
      induction fuel with
      | zero => intro m ds hds; simpa [Nat.toDigitsCore] using hds
      | succ f ih =>
        intro m ds hds
        unfold Nat.toDigitsCore
        by_cases h1 : m / 10 = 0
        · simp [h1]
        · simp only [h1, if_false]
          exact ih _ _ (by simp)
    exact this _ _ _ (by simp) h

theorem splitOnDot_ne_nil (s : List Char) : splitOnDot s ≠ [] := by
  cases s with
  | nil => simp [splitOnDot]
  | cons c rest =>
    unfold splitOnDot
    by_cases h : c = '.'
    · simp [h]
    · simp only [h, if_false]
      cases splitOnDot rest <;> simp

theorem splitOnDot_of_no_dot (s : List Char) (h : ∀ c ∈ s, c ≠ '.') : splitOnDot s = [s] := by
  induction s with
  | nil => rfl
  | cons c rest ih =>
    unfold splitOnDot
    rw [if_neg (h c (List.mem_cons_self _ _)), ih (fun x hx => h x (List.mem_cons_of_mem _ hx))]

theorem splitOnDot_append_dot (s t : List Char) (h : ∀ c ∈ s, c ≠ '.') :
    splitOnDot (s ++ '.' :: t) = s :: splitOnDot t := by
  induction s with
  | nil => simp [splitOnDot]
  | cons c rest ih =>
    rw [List.cons_append, splitOnDot, if_neg (h c (List.mem_cons_self _ _)),
      ih (fun x hx => h x (List.mem_cons_of_mem _ hx))]

theorem splitOnDot_intercalate (chunks : List (List Char)) (hne : chunks ≠ [])
    (h : ∀ chunk ∈ chunks, ∀ c ∈ chunk, c ≠ '.') :
    splitOnDot (List.intercalate ['.'] chunks) = chunks := by
  induction chunks with
  | nil => exact absurd rfl hne
  | cons x rest ih =>
    cases rest with
    | nil =>
      have : List.intercalate ['.'] [x] = x := by
        simp [List.intercalate, List.intersperse]
      rw [this]
      exact splitOnDot_of_no_dot x (h x (List.mem_cons_self _ _))
    | cons y rest2 =>
      have hx := h x (List.mem_cons_self _ _)
      have ih2 := ih (by simp) (fun ch hch => h ch (List.mem_cons_of_mem _ hch))
      have : List.intercalate ['.'] (x :: y :: rest2) =
          x ++ '.' :: List.intercalate ['.'] (y :: rest2) := by
        simp [List.intercalate, List.intersperse]
      rw [this, splitOnDot_append_dot x _ hx, ih2]

theorem mem_intercalate_dot (chunks : List (List Char)) (c : Char)
    (h : c ∈ List.intercalate ['.'] chunks) : c = '.' ∨ ∃ chunk ∈ chunks, c ∈ chunk := by
  induction chunks with
  | nil => simp [List.intercalate, List.intersperse] at h
  | cons x rest ih =>
    cases rest with
    | nil =>
      have : List.intercalate ['.'] [x] = x := by simp [List.intercalate, List.intersperse]
      rw [this] at h
      exact Or.inr ⟨x, List.mem_cons_self _ _, h⟩
    | cons y rest2 =>
      have : List.intercalate ['.'] (x :: y :: rest2) =
          x ++ '.' :: List.intercalate ['.'] (y :: rest2) := by
        simp [List.intercalate, List.intersperse]
      rw [this, List.mem_append, List.mem_cons] at h
      rcases h with h | h | h
      · exact Or.inr ⟨x, List.mem_cons_self _ _, h⟩
      · exact Or.inl h
      · rcases ih h with h | ⟨chunk, hc, hmem⟩
        · exact Or.inl h
        · exact Or.inr ⟨chunk, List.mem_cons_of_mem _ hc, hmem⟩

theorem mem_rendered_segments (segs : List Nat) (c : Char)
    (h : c ∈ List.intercalate ['.'] (segs.map formatInt)) : c = '.' ∨ c.isDigit = true := by
  rcases mem_intercalate_dot _ c h with h | ⟨chunk, hc, hmem⟩
  · exact Or.inl h
  · obtain ⟨n, _, rfl⟩ := List.mem_map.1 hc
    exact Or.inr (formatInt_isDigit n c hmem)

theorem rendered_segments_injective (a b : List Nat) (ha : a ≠ []) (hb : b ≠ [])
    (h : List.intercalate ['.'] (a.map formatInt) = List.intercalate ['.'] (b.map formatInt)) :
    a = b := by
  have hdot : ∀ (l : List Nat), ∀ chunk ∈ l.map formatInt, ∀ c ∈ chunk, c ≠ '.' := by
    intro l chunk hc c hmem
    obtain ⟨n, _, rfl⟩ := List.mem_map.1 hc
    have := formatInt_isDigit n c hmem
    intro hcd
    rw [hcd] at this
    exact absurd this (by decide)
  have h1 := splitOnDot_intercalate (a.map formatInt) (by simpa using ha) (hdot a)
  have h2 := splitOnDot_intercalate (b.map formatInt) (by simpa using hb) (hdot b)
  rw [h, h2] at h1
  have hinj : Function.Injective formatInt := fun x y hxy => formatInt_injective x y hxy
  exact (List.map_injective_iff.2 hinj h1).symm

theorem segments_eq_of_String_eq (v o : Version) (hpre : v.pre = []) (hmeta : v.metadata = [])
    (hv : v.segments ≠ []) (ho : o.segments ≠ []) (h : v.String = o.String) :
    v.segments = o.segments := by
  unfold Version.String at h
  rw [hpre, hmeta] at h
  simp only [if_true, List.append_nil] at h
  have hchars : ∀ c ∈ List.intercalate ['.'] (v.segments.map formatInt),
      c ≠ '-' ∧ c ≠ '+' := by
    intro c hc
    rcases mem_rendered_segments _ c hc with rfl | hd
    · exact ⟨by decide, by decide⟩
    · constructor
      · intro hcd
        rw [hcd] at hd
        exact absurd hd (by decide)
      · intro hcd
        rw [hcd] at hd
        exact absurd hd (by decide)
  have hopre : o.pre = [] := by
    by_contra hne
    have : '-' ∈ List.intercalate ['.'] (v.segments.map formatInt) := by
      rw [h, if_neg hne]
      simp
    exact (hchars _ this).1 rfl
  have hometa : o.metadata = [] := by
    by_contra hne
    have : '+' ∈ List.intercalate ['.'] (v.segments.map formatInt) := by
      rw [h, if_neg hne]
      simp
    exact (hchars _ this).2 rfl
  rw [hopre, hometa] at h
  simp only [if_true, List.append_nil] at h
  exact rendered_segments_injective _ _ hv ho h

theorem compareSegments_self (s : List Nat) : compareSegments s s = 0 := by
  induction s with
  | nil => rfl
  | cons a rest ih => simp [compareSegments, ih]

theorem LessThan_iff_compareSegments (cmp : List Char → List Char → Int) (v o : Version)
    (hpre : v.pre = []) (hmeta : v.metadata = []) (hv : v.segments ≠ [])
    (ho : o.segments ≠ []) :
    v.LessThan cmp o = true ↔ compareSegments v.segments o.segments < 0 := by
  unfold Version.LessThan Version.Compare
  rw [decide_eq_true_iff]
  by_cases hs : v.String = o.String
  · rw [if_pos hs, segments_eq_of_String_eq v o hpre hmeta hv ho hs, compareSegments_self]
  · rw [if_neg hs]
    by_cases hseg : v.segments = o.segments
    · rw [if_pos hseg, hseg, compareSegments_self]
      by_cases hop : o.pre = []
      · simp [hpre, hop]
      · simp [hpre, hop]
    · rw [if_neg hseg]

theorem getD_nil_zero (i : Nat) : ([] : List Nat).getD i 0 = 0 := by simp

theorem versionLess_cons_cons (a b : Nat) (s o : List Nat) :
    versionLess (a :: s) (b :: o) ↔ a < b ∨ (a = b ∧ versionLess s o) := by
  constructor
  · rintro ⟨i, hi, hj⟩
    cases i with
    | zero => exact Or.inl (by simpa using hi)
    | succ k =>
      right
      refine ⟨by simpa using hj 0 (Nat.succ_pos _), k, by simpa using hi, ?_⟩
      intro j hjk
      simpa using hj (j + 1) (by omega)
  · rintro (h | ⟨rfl, i, hi, hj⟩)
    · exact ⟨0, by simpa using h, fun j hj => absurd hj (Nat.not_lt_zero _)⟩
    · refine ⟨i + 1, by simpa using hi, ?_⟩
      intro j hjk
      cases j with
      | zero => simp
      | succ k => simpa using hj k (by omega)

theorem versionLess_nil_left (b : List Nat) : versionLess [] b ↔ allZero b = false := by
  induction b with
  | nil =>
    simp only [allZero, List.all_nil]
    constructor
    · rintro ⟨i, hi, _⟩
      simp at hi
    · intro h
      exact Bool.noConfusion h
  | cons x rest ih =>
    constructor
    · rintro ⟨i, hi, hj⟩
      cases i with
      | zero =>
        have : 0 < x := by simpa using hi
        simp [allZero]
        intro hx
        omega
      | succ k =>
        have hx : x = 0 := by
          have := hj 0 (Nat.succ_pos _)
          simpa using this.symm
        have hrest : versionLess [] rest := by
          refine ⟨k, by simpa using hi, ?_⟩
          intro j hjk
          have := hj (j + 1) (by omega)
          simpa using this
        have := ih.1 hrest
        simp only [allZero, List.all_cons] at this ⊢
        simp [hx, this]
    · intro h
      by_cases hx : x = 0
      · have hrest : allZero rest = false := by
          simp only [allZero, List.all_cons] at h ⊢
          simpa [hx] using h
        obtain ⟨i, hi, hj⟩ := ih.2 hrest
        refine ⟨i + 1, by simpa using hi, ?_⟩
        intro j hjk
        cases j with
        | zero => simp [hx]
        | succ k => simpa using hj k (by omega)
      · exact ⟨0, by simpa using Nat.pos_of_ne_zero hx, fun j hj => absurd hj (Nat.not_lt_zero _)⟩

theorem versionLess_nil_right (a : List Nat) : ¬ versionLess a [] := by
  rintro ⟨i, hi, _⟩
  simp at hi

theorem compareSegments_neg_iff (a b : List Nat) :
    compareSegments a b < 0 ↔ versionLess a b := by
  induction a generalizing b with
  | nil =>
    cases b with
    | nil =>
      simp only [compareSegments, lt_self_iff_false, false_iff]
      exact versionLess_nil_right []
    | cons y rest =>
      rw [versionLess_nil_left]
      simp only [compareSegments]
      cases h : allZero (y :: rest) <;> simp
  | cons x s ih =>
    cases b with
    | nil =>
      simp only [compareSegments]
      have := versionLess_nil_right (x :: s)
      cases h : allZero (x :: s) <;> simp [this]
    | cons y rest =>
      rw [versionLess_cons_cons]
      simp only [compareSegments]
      by_cases hxy : x = y
      · rw [if_pos hxy, ih rest]
        simp [hxy]
      · rw [if_neg hxy]
        by_cases hlt : x < y
        · simp [hlt]
        · simp [hlt, hxy]

theorem IndexSlash_eq_none_iff (s : List Char) : IndexSlash s = none ↔ '/' ∉ s := by
  induction s with
  | nil => simp [IndexSlash]
  | cons c rest ih =>
    unfold IndexSlash
    by_cases h : c = '/'
    · simp [h]
    · rw [if_neg h, Option.map_eq_none', ih, List.mem_cons, not_or]
      exact ⟨fun hr => ⟨fun hc => h hc.symm, hr⟩, fun hr => hr.2⟩

theorem take_of_IndexSlash (s : List Char) (e : Nat) (h : IndexSlash s = some e) :
    s.take e = s.takeWhile (fun c => c != '/') := by
  induction s generalizing e with
  | nil => simp [IndexSlash] at h
  | cons c rest ih =>
    unfold IndexSlash at h
    by_cases hc : c = '/'
    · rw [if_pos hc] at h
      cases h
      simp [hc]
    · rw [if_neg hc] at h
      cases hr : IndexSlash rest with
      | none => rw [hr] at h; simp at h
      | some k =>
        rw [hr] at h
        simp only [Option.map_some', Option.some.injEq] at h
        subst h
        rw [List.take_succ_cons, ih k hr, List.takeWhile_cons_of_pos (by simpa using hc)]

theorem CheckVersion_of_first_segment (cmp : List Char → List Char → Int)
    (minUaVer userAgent : String) (minVer : Version) (hmin : minUaVer ≠ "")
    (hparse : NewVersion minUaVer.data = some minVer)
    (hslash : '/' ∈ TrimPrefixSlash userAgent.data) :
    CheckVersion cmp minUaVer userAgent =
      match FindStringSubmatch (firstSegment userAgent) with
      | none => some .noVersion
      | some m1 =>
        match NewVersion m1 with
        | none => some .badClientVersion
        | some clientVer =>
          if clientVer.LessThan cmp minVer = true then some .belowMinimum else none := by
  unfold CheckVersion
  rw [if_neg hmin, hparse]
  cases hi : IndexSlash (TrimPrefixSlash userAgent.data) with
  | none => exact absurd hslash ((IndexSlash_eq_none_iff _).1 hi)
  | some e =>
    simp only [hi, ← take_of_IndexSlash _ e hi, firstSegment]

theorem matchVersionHere_shape (s v : List Char) (h : matchVersionHere s = some v) :
    ∃ d1 d2 d3 back : List Char,
      d1 ≠ [] ∧ d2 ≠ [] ∧ d3 ≠ [] ∧
        (∀ c ∈ d1, c.isDigit = true) ∧ (∀ c ∈ d2, c.isDigit = true) ∧
        (∀ c ∈ d3, c.isDigit = true) ∧
        v = d1 ++ '.' :: d2 ++ '.' :: d3 ∧ s = v ++ back := by
  unfold matchVersionHere at h
  simp only at h
  split at h
  · rename_i x1 x2 a1 t1 c1 r1 hd1 hr1
    split at h
    · rename_i hc1
      split at h
      · rename_i y1 y2 a2 t2 c2 r2 hd2 hr2
        split at h
        · rename_i hc2
          split at h
          · exact Option.noConfusion h
          · rename_i a3 t3 hd3
            split at h
            · have hv : v = List.takeWhile Char.isDigit s ++
                  '.' :: List.takeWhile Char.isDigit r1 ++
                  '.' :: List.takeWhile Char.isDigit r2 := by
                simpa using h.symm
              have e1 := List.takeWhile_append_dropWhile Char.isDigit s
              have e2 := List.takeWhile_append_dropWhile Char.isDigit r1
              have e3 := List.takeWhile_append_dropWhile Char.isDigit r2
              refine ⟨s.takeWhile Char.isDigit, r1.takeWhile Char.isDigit,
                r2.takeWhile Char.isDigit, r2.dropWhile Char.isDigit, ?_, ?_, ?_,
                fun c hc => List.mem_takeWhile_imp hc, fun c hc => List.mem_takeWhile_imp hc,
                fun c hc => List.mem_takeWhile_imp hc, hv, ?_⟩
              · rw [hd1]; simp
              · rw [hd2]; simp
              · rw [hd3]; simp
              · rw [hv]
                rw [hr1, hc1] at e1
                rw [hr2, hc2] at e2
                conv_lhs => rw [← e1, ← e2, ← e3]
                simp
            · exact Option.noConfusion h
        · exact Option.noConfusion h
      · exact Option.noConfusion h
    · exact Option.noConfusion h
  · exact Option.noConfusion h

theorem findVersionFrom_shape (before : Option Char) (s v : List Char)
    (h : findVersionFrom before s = some v) :
    ∃ front d1 d2 d3 back : List Char,
      d1 ≠ [] ∧ d2 ≠ [] ∧ d3 ≠ [] ∧
        (∀ c ∈ d1, c.isDigit = true) ∧ (∀ c ∈ d2, c.isDigit = true) ∧
        (∀ c ∈ d3, c.isDigit = true) ∧
        v = d1 ++ '.' :: d2 ++ '.' :: d3 ∧ s = front ++ v ++ back := by
  induction s generalizing before with
  | nil => simp [findVersionFrom] at h
  | cons c rest ih =>
    unfold findVersionFrom at h
    split at h
    · rename_i w hw
      cases h
      split at hw
      · obtain ⟨d1, d2, d3, back, h1, h2, h3, h4, h5, h6, hv, hs⟩ :=
          matchVersionHere_shape _ _ hw
        exact ⟨[], d1, d2, d3, back, h1, h2, h3, h4, h5, h6, hv, by simpa using hs⟩
      · exact Option.noConfusion hw
    · obtain ⟨front, d1, d2, d3, back, h1, h2, h3, h4, h5, h6, hv, hs⟩ := ih _ h
      exact ⟨c :: front, d1, d2, d3, back, h1, h2, h3, h4, h5, h6, hv, by simp [hs]⟩

theorem isDigit_ne_dot (d : List Char) (h : ∀ c ∈ d, c.isDigit = true) : ∀ c ∈ d, c ≠ '.' := by
  intro c hc hcd
  have := h c hc
  rw [hcd] at this
  exact absurd this (by decide)

theorem parseInt64_digits (d : List Char) (hne : d ≠ []) (h : ∀ c ∈ d, c.isDigit = true) :
    parseInt64 d = if digitsValue d ≤ 2 ^ 63 - 1 then some (digitsValue d) else none := by
  unfold parseInt64
  have h1 : d.isEmpty = false := by
    cases d with
    | nil => exact absurd rfl hne
    | cons _ _ => rfl
  have h2 : d.all Char.isDigit = true := List.all_eq_true.2 h
  simp [h1, h2]

theorem NewVersion_three_groups (d1 d2 d3 : List Char)
    (h1 : d1 ≠ []) (h2 : d2 ≠ []) (h3 : d3 ≠ [])
    (g1 : ∀ c ∈ d1, c.isDigit = true) (g2 : ∀ c ∈ d2, c.isDigit = true)
    (g3 : ∀ c ∈ d3, c.isDigit = true) :
    NewVersion (d1 ++ '.' :: d2 ++ '.' :: d3) =
      if digitsValue d1 ≤ 2 ^ 63 - 1 ∧ digitsValue d2 ≤ 2 ^ 63 - 1 ∧
          digitsValue d3 ≤ 2 ^ 63 - 1 then
        some { metadata := [], pre := [],
               segments := [digitsValue d1, digitsValue d2, digitsValue d3], si := 3,
               original := d1 ++ '.' :: d2 ++ '.' :: d3 }
      else none := by
  obtain ⟨c, t, rfl⟩ := List.exists_cons_of_ne_nil h1
  have hc : c.isDigit = true := g1 c (List.mem_cons_self _ _)
  have hcv : c ≠ 'v' := by
    intro hcd
    rw [hcd] at hc
    exact absurd hc (by decide)
  have hall : ∀ x ∈ (c :: t) ++ '.' :: d2 ++ '.' :: d3, (x.isDigit || x == '.') = true := by
    intro x hx
    simp only [List.mem_append, List.mem_cons] at hx
    rcases hx with ((hx | hx) | hx | hx) | hx | hx
    · simp [hx, hc]
    · simp [g1 x (List.mem_cons_of_mem _ hx)]
    · simp [hx]
    · simp [g2 x hx]
    · simp [hx]
    · simp [g3 x hx]
  have htake : List.takeWhile (fun c => c.isDigit || c == '.')
      ((c :: t) ++ '.' :: d2 ++ '.' :: d3) = (c :: t) ++ '.' :: d2 ++ '.' :: d3 :=
    List.takeWhile_eq_self_iff.2 hall
  have hdrop : List.dropWhile (fun c => c.isDigit || c == '.')
      ((c :: t) ++ '.' :: d2 ++ '.' :: d3) = [] :=
    List.dropWhile_eq_nil_iff.2 hall
  have hsplit : splitOnDot ((c :: t) ++ '.' :: d2 ++ '.' :: d3) = [c :: t, d2, d3] := by
    have hform : (c :: t) ++ '.' :: d2 ++ '.' :: d3 = (c :: t) ++ '.' :: (d2 ++ '.' :: d3) := by
      simp
    rw [hform, splitOnDot_append_dot _ _ (isDigit_ne_dot _ g1),
      splitOnDot_append_dot _ _ (isDigit_ne_dot _ g2),
      splitOnDot_of_no_dot _ (isDigit_ne_dot _ g3)]
  have hd2 : d2.isEmpty = false := by
    cases d2 with
    | nil => exact absurd rfl h2
    | cons _ _ => rfl
  have hd3 : d3.isEmpty = false := by
    cases d3 with
    | nil => exact absurd rfl h3
    | cons _ _ => rfl
  unfold NewVersion
  have hs : (match (c :: t) ++ '.' :: d2 ++ '.' :: d3 with
      | [] => []
      | c :: r => if c = 'v' then r else c :: r) = (c :: t) ++ '.' :: d2 ++ '.' :: d3 := by
    simp [hcv]
  simp only [hs, htake, hdrop, hsplit]
  simp only [List.all_cons, List.all_nil, List.isEmpty_cons, hd2, hd3, Bool.not_false,
    Bool.and_self, if_true, List.takeWhile_nil, List.dropWhile_nil, parsePrerelease,
    parseMetadata, parseSegments, parseInt64_digits _ h1 g1, parseInt64_digits _ h2 g2,
    parseInt64_digits _ h3 g3, List.length_cons, List.length_nil]
  have e : (2 : Nat) ^ 63 - 1 = 9223372036854775807 := by norm_num
  simp only [e]
  by_cases e1 : digitsValue (c :: t) ≤ 9223372036854775807
  · by_cases e2 : digitsValue d2 ≤ 9223372036854775807
    · by_cases e3 : digitsValue d3 ≤ 9223372036854775807
      · simp [e1, e2, e3, padSegments]
      · simp [e1, e2, e3]
    · simp [e1, e2]
  · simp [e1]

theorem NewVersion_segments_ne_nil (s : List Char) (v : Version) (h : NewVersion s = some v) :
    v.segments ≠ [] := by
  unfold NewVersion at h
  simp only at h
  split at h
  · split at h
    · rename_i pre metadata segments _ _ _
      cases h
      intro hnil
      have hlen := congrArg List.length hnil
      simp only [padSegments, List.length_append, List.length_replicate, List.length_nil] at hlen
      omega
    · exact Option.noConfusion h
  · exact Option.noConfusion h

theorem CheckVersion_eq_of_firstSegment_eq (cmp : List Char → List Char → Int)
    (minUaVer ua1 ua2 : String) (h1 : '/' ∈ TrimPrefixSlash ua1.data)
    (h2 : '/' ∈ TrimPrefixSlash ua2.data) (hseg : firstSegment ua1 = firstSegment ua2) :
    CheckVersion cmp minUaVer ua1 = CheckVersion cmp minUaVer ua2 := by
  by_cases hmin : minUaVer = ""
  · simp [CheckVersion, hmin]
  · cases hp : NewVersion minUaVer.data with
    | none => simp [CheckVersion, hmin, hp]
    | some minVer =>
      rw [CheckVersion_of_first_segment cmp minUaVer ua1 minVer hmin hp h1,
        CheckVersion_of_first_segment cmp minUaVer ua2 minVer hmin hp h2, hseg]

/-- C4, as stated, fails: with minimum `0.3.14` the user agent
`/spectred:9223372036854775808.0.0/`, whose first segment holds the match
`9223372036854775808.0.0`, is rejected although that version is not below the
minimum: its first component does not fit an `int64`, so the extracted version
does not parse. -/
theorem CheckVersion_rejects_version_beyond_int64 :
    (NewVersion "0.3.14".data).map (fun v => v.segments) = some [0, 3, 14] ∧
      FindStringSubmatch (firstSegment "/spectred:9223372036854775808.0.0/") =
        some "9223372036854775808.0.0".data ∧
      CheckVersion (fun _ _ => 0) "0.3.14" "/spectred:9223372036854775808.0.0/" =
        some .badClientVersion ∧
      ¬ versionLess [9223372036854775808, 0, 0] [0, 3, 14] := by
  refine ⟨by decide, by decide, by decide, ?_⟩
  rw [← compareSegments_neg_iff]
  decide

/-- C4, amended: for a non-empty minimum that parses as a version and a user
agent whose first `/`-delimited segment (after one leading `/` is stripped)
contains a match of `\b\d+\.\d+\.\d+\b`, the first match is three runs of
digits `d1.d2.d3`, and `CheckVersion` returns an error exactly when a component
of the match exceeds `1<<63 - 1` (the match then does not parse as a version) or
the match is below the minimum in the component-wise numeric order; a match
whose components fit and that is equal to or above the minimum is accepted. The
text after the first segment does not affect the result: minimum `0.3.14`
accepts `/spectred:0.3.14/spectred:0.0.0/` and minimum `0.3.57` rejects it. -/
theorem CheckVersion_error_iff_below_minimum_or_beyond_int64
    (comparePrereleases : List Char → List Char → Int) :
    (∀ (minUaVer userAgent : String) (minVer : Version) (v : List Char),
      minUaVer ≠ "" → NewVersion minUaVer.data = some minVer →
      '/' ∈ TrimPrefixSlash userAgent.data →
      FindStringSubmatch (firstSegment userAgent) = some v →
      ∃ d1 d2 d3 : List Char,
        v = d1 ++ '.' :: d2 ++ '.' :: d3 ∧ d1 ≠ [] ∧ d2 ≠ [] ∧ d3 ≠ [] ∧
        (∀ c ∈ d1, c.isDigit = true) ∧ (∀ c ∈ d2, c.isDigit = true) ∧
        (∀ c ∈ d3, c.isDigit = true) ∧
        (CheckVersion comparePrereleases minUaVer userAgent ≠ none ↔
          (2 ^ 63 ≤ digitsValue d1 ∨ 2 ^ 63 ≤ digitsValue d2 ∨ 2 ^ 63 ≤ digitsValue d3) ∨
            versionLess [digitsValue d1, digitsValue d2, digitsValue d3] minVer.segments)) ∧
    (∀ (minUaVer ua1 ua2 : String),
      '/' ∈ TrimPrefixSlash ua1.data → '/' ∈ TrimPrefixSlash ua2.data →
      firstSegment ua1 = firstSegment ua2 →
        CheckVersion comparePrereleases minUaVer ua1 =
          CheckVersion comparePrereleases minUaVer ua2) ∧
    CheckVersion comparePrereleases "0.3.14" "/spectred:0.3.14/spectred:0.0.0/" = none ∧
    CheckVersion comparePrereleases "0.3.57" "/spectred:0.3.14/spectred:0.0.0/" =
      some .belowMinimum ∧
    versionLess [0, 3, 14] [0, 3, 57] ∧ versionLess [0, 18, 9] [1, 0, 0] := by
  refine ⟨?_, CheckVersion_eq_of_firstSegment_eq comparePrereleases, ?_, ?_, ?_, ?_⟩
  · intro minUaVer userAgent minVer v hmin hparse hslash hmatch
    obtain ⟨front, d1, d2, d3, back, h1, h2, h3, g1, g2, g3, hv, _⟩ :=
      findVersionFrom_shape none _ v hmatch
    refine ⟨d1, d2, d3, hv, h1, h2, h3, g1, g2, g3, ?_⟩
    rw [CheckVersion_of_first_segment comparePrereleases minUaVer userAgent minVer hmin hparse
      hslash, hmatch]
    simp only
    rw [hv, NewVersion_three_groups d1 d2 d3 h1 h2 h3 g1 g2 g3]
    by_cases hfit : digitsValue d1 ≤ 2 ^ 63 - 1 ∧ digitsValue d2 ≤ 2 ^ 63 - 1 ∧
        digitsValue d3 ≤ 2 ^ 63 - 1
    · rw [if_pos hfit]
      simp only
      have hiff := LessThan_iff_compareSegments comparePrereleases
        { metadata := [], pre := [],
          segments := [digitsValue d1, digitsValue d2, digitsValue d3], si := 3,
          original := d1 ++ '.' :: d2 ++ '.' :: d3 } minVer rfl rfl (by simp)
        (NewVersion_segments_ne_nil _ _ hparse)
      rw [compareSegments_neg_iff] at hiff
      have hno : ¬ (2 ^ 63 ≤ digitsValue d1 ∨ 2 ^ 63 ≤ digitsValue d2 ∨
          2 ^ 63 ≤ digitsValue d3) := by omega
      constructor
      · intro hne
        right
        by_contra hnl
        rw [← hiff] at hnl
        rw [if_neg hnl] at hne
        exact hne rfl
      · rintro (hov | hl)
        · exact absurd hov hno
        · rw [if_pos (hiff.2 hl)]
          exact fun h => Option.noConfusion h
    · rw [if_neg hfit]
      simp only
      constructor
      · intro _
        left
        omega
      · intro _ h
        exact Option.noConfusion h
  · rfl
  · rfl
  · rw [← compareSegments_neg_iff]
    decide
  · rw [← compareSegments_neg_iff]
    decide

/-- C5: for a non-empty minimum that parses as a version, `CheckVersion` rejects
every user agent from which no version can be extracted. When the user agent,
after one leading `/` is stripped, contains no further `/`, the error is the
malformed-format one; when it does but the pattern has no match in its first
segment, as is the case when the segment contains no three dot-separated
integer groups, the error is the no-version one. Minimum `1.0.0`
rejects `no-slashes` and `/no-version-here/` in these two ways. -/
theorem CheckVersion_rejects_user_agent_without_version
    (comparePrereleases : List Char → List Char → Int) :
    (∀ (minUaVer userAgent : String) (minVer : Version),
      minUaVer ≠ "" → NewVersion minUaVer.data = some minVer →
      '/' ∉ TrimPrefixSlash userAgent.data →
        CheckVersion comparePrereleases minUaVer userAgent = some .invalidFormat) ∧
    (∀ (minUaVer userAgent : String) (minVer : Version),
      minUaVer ≠ "" → NewVersion minUaVer.data = some minVer →
      '/' ∈ TrimPrefixSlash userAgent.data →
      FindStringSubmatch (firstSegment userAgent) = none →
        CheckVersion comparePrereleases minUaVer userAgent = some .noVersion) ∧
    (∀ (minUaVer userAgent : String) (minVer : Version),
      minUaVer ≠ "" → NewVersion minUaVer.data = some minVer →
      '/' ∈ TrimPrefixSlash userAgent.data →
      ¬ hasThreeIntegerGroups (firstSegment userAgent) →
        CheckVersion comparePrereleases minUaVer userAgent = some .noVersion) ∧
    CheckVersion comparePrereleases "1.0.0" "no-slashes" = some .invalidFormat ∧
    CheckVersion comparePrereleases "1.0.0" "/no-version-here/" = some .noVersion := by
  refine ⟨?_, ?_, ?_, rfl, rfl⟩
  · intro minUaVer userAgent minVer hmin hparse hslash
    unfold CheckVersion
    rw [if_neg hmin, hparse]
    simp only [(IndexSlash_eq_none_iff _).2 hslash]
  · intro minUaVer userAgent minVer hmin hparse hslash hnone
    rw [CheckVersion_of_first_segment comparePrereleases minUaVer userAgent minVer hmin hparse
      hslash, hnone]
  · intro minUaVer userAgent minVer hmin hparse hslash hno
    rw [CheckVersion_of_first_segment comparePrereleases minUaVer userAgent minVer hmin hparse
      hslash]
    cases hm : FindStringSubmatch (firstSegment userAgent) with
    | none => rfl
    | some v =>
      exfalso
      obtain ⟨front, d1, d2, d3, back, h1, h2, h3, g1, g2, g3, hv, hs⟩ :=
        findVersionFrom_shape none _ v hm
      exact hno ⟨front, d1, d2, d3, back, h1, h2, h3, g1, g2, g3, by rw [hs, hv]⟩

/-! ### Concrete instances -/

/-- An instance of C1 on the sample table: the A query with all subnetworks
returns the two good IPv4 peers on the default port. -/
theorem GoodAddresses_at_most_16_all_good_witness :
    sampleTable.GoodAddresses testEnv tenHours TypeA true none = [peerA, peerB] ∧
      (sampleTable.GoodAddresses testEnv tenHours TypeA true none).length ≤ 16 ∧
      ∀ a ∈ sampleTable.GoodAddresses testEnv tenHours TypeA true none,
        ∃ kn ∈ sampleTable.nodes, kn.2.Addr = a ∧ isGood testEnv kn.2 tenHours = true :=
  ⟨by decide, GoodAddresses_at_most_16_all_good testEnv sampleTable tenHours TypeA true none⟩

/-- An instance of C2: the peer on port 18112 is not good and is not returned
after `Good`, and a default-port node probed 59 minutes ago is good. -/
theorem isGood_iff_default_port_and_recent_witness :
    peerOddPort.Port ≠ uint16 testEnv.peersDefaultPort ∧
      isGood testEnv (freshNode peerOddPort 0) tenHours = false ∧
      (∀ kn ∈ (sampleTable.Good testEnv peerOddPort none tenHours).nodes,
        kn.1 = addrKey testEnv peerOddPort → kn.2.LastSuccess = tenHours) ∧
      peerOddPort ∉ (sampleTable.Good testEnv peerOddPort none tenHours).GoodAddresses testEnv
        tenHours TypeA true none ∧
      peerA.Port = uint16 testEnv.peersDefaultPort ∧
      isGood testEnv { freshNode peerA 0 with LastSuccess := 5 } (5 + 59 * 60 * 1000000000) =
        true :=
  ⟨by decide,
    (isGood_iff_default_port_and_recent testEnv).2.1 (freshNode peerOddPort 0) tenHours
      (by decide),
    ((isGood_iff_default_port_and_recent testEnv).2.2.1 sampleTable peerOddPort none tenHours
      (by decide)).1,
    ((isGood_iff_default_port_and_recent testEnv).2.2.1 sampleTable peerOddPort none tenHours
      (by decide)).2 tenHours TypeA true none,
    by decide,
    ((isGood_iff_default_port_and_recent testEnv).2.2.2 (freshNode peerA 0) 5 (by decide)).1⟩

/-- An instance of the amended C3 on the run insert at 1, `Attempt` at 2, `Good`
at 3. -/
theorem timestamps_follow_clock_and_probe_order_witness :
    nonDecreasing (([(1, Op.addAddresses [peerA]), (2, Op.attempt peerA)] :
        List (Time × Op)).map Prod.fst ++ [3]) ∧
      timestampsAtMost 3
        (runOps testEnv Manager.empty [(1, .addAddresses [peerA]), (2, .attempt peerA)]) ∧
      ∀ kn ∈ (runOps testEnv Manager.empty
          ([(1, .addAddresses [peerA]), (2, .attempt peerA)] ++
            [(3, .good peerA none)])).nodes,
        kn.1 = addrKey testEnv peerA →
          kn.2.LastSuccess = 3 ∧ kn.2.LastAttempt ≤ kn.2.LastSuccess :=
  ⟨by simp [nonDecreasing],
    (timestamps_follow_clock_and_probe_order testEnv
      [(1, .addAddresses [peerA]), (2, .attempt peerA)] 3 (by simp [nonDecreasing])).1,
    (timestamps_follow_clock_and_probe_order testEnv
      [(1, .addAddresses [peerA]), (2, .attempt peerA)] 3
      (by simp [nonDecreasing])).2.2.2 peerA none⟩

/-- An instance of C6 at a reading of the clock: a never-probed node is stale,
and so is the node `AddAddresses` inserts at that reading. -/
theorem isStale_iff_and_never_probed_is_stale_witness :
    unixEpoch ≤ newYear2024 ∧ (freshNode peerA newYear2024).LastAttempt = 0 ∧
      isStale (freshNode peerA newYear2024) newYear2024 = true ∧
      ∀ kn ∈ (Manager.empty.AddAddresses testEnv [peerA] newYear2024).1.nodes,
        kn.1 ∉ Manager.empty.keys → isStale kn.2 newYear2024 = true :=
  ⟨by decide, rfl,
    (isStale_iff_and_never_probed_is_stale testEnv).2.1
      (freshNode peerA newYear2024) newYear2024 (by decide) rfl,
    (isStale_iff_and_never_probed_is_stale testEnv).2.2.1 Manager.empty [peerA]
      newYear2024 newYear2024 (by decide)⟩

/-- An instance of C7 on the sample table with two threads: the one stale node
is returned. -/
theorem Addresses_at_most_3_threads_all_stale_witness :
    (0 : Int) ≤ testEnv.Threads ∧
      sampleTable.Addresses testEnv tenHours =
        [{ Timestamp := 0, IP := [203, 0, 113, 77], Port := 18111 }] ∧
      ((sampleTable.Addresses testEnv tenHours).length : Int) ≤ testEnv.Threads * 3 ∧
      ∀ a ∈ sampleTable.Addresses testEnv tenHours,
        ∃ kn ∈ sampleTable.nodes, kn.2.Addr = a ∧ isStale kn.2 tenHours = true :=
  ⟨by decide, by decide,
    (Addresses_at_most_3_threads_all_stale testEnv sampleTable tenHours (by decide)).1,
    (Addresses_at_most_3_threads_all_stale testEnv sampleTable tenHours (by decide)).2.1⟩

/-- An instance of C8: a peer inserted after one hour survives the prune runs
after two and after nine hours and is gone one nanosecond later. -/
theorem prunePeers_removes_exactly_expired_witness :
    testEnv.IsRoutable peerA testEnv.AcceptUnroutable = true ∧
      addrKey testEnv peerA ∉ Manager.empty.keys ∧
      (addrKey testEnv peerA, freshNode peerA 3600000000000) ∈
        ([7200000000000, 32400000000000].foldl Manager.prunePeers
          (Manager.empty.AddAddresses testEnv [peerA] 3600000000000).1).nodes ∧
      ((Manager.empty.AddAddresses testEnv [peerA] 3600000000000).1.prunePeers
          32400000000001).AddressCount + 1 =
        (Manager.empty.AddAddresses testEnv [peerA] 3600000000000).1.AddressCount :=
  ⟨by decide, by decide,
    ((prunePeers_removes_exactly_expired testEnv).2.2.1 Manager.empty peerA 3600000000000
      (by decide) (by decide)).1 [7200000000000, 32400000000000] (by decide),
    (((prunePeers_removes_exactly_expired testEnv).2.2.1 Manager.empty peerA 3600000000000
      (by decide) (by decide)).2 32400000000001 (by decide)).2 (by decide)⟩

/-- An instance of C9 on the sample table. -/
theorem GoodAddresses_exact_when_at_most_16_witness :
    (sampleTable.nodes.filter (fun kn => isGood testEnv kn.2 tenHours && isIPv4 kn.2.Addr &&
        decide (kn.2.SubnetworkID = some [1]))).length ≤ 16 ∧
      sampleTable.GoodAddresses testEnv tenHours TypeA false (some [1]) = [peerA] ∧
      sampleTable.GoodAddresses testEnv tenHours TypeA false (some [1]) =
        (sampleTable.nodes.filter (fun kn => isGood testEnv kn.2 tenHours &&
          isIPv4 kn.2.Addr && decide (kn.2.SubnetworkID = some [1]))).map
            (fun kn => kn.2.Addr) ∧
      sampleTable.GoodAddresses testEnv tenHours TypeAAAA true none =
        (sampleTable.nodes.filter (fun kn => isGood testEnv kn.2 tenHours &&
          !isIPv4 kn.2.Addr)).map (fun kn => kn.2.Addr) ∧
      sampleTable.GoodAddresses testEnv tenHours TypeAAAA true none = [peerV6] :=
  ⟨by decide, by decide,
    (GoodAddresses_exact_when_at_most_16 testEnv sampleTable tenHours).1 (some [1]) (by decide),
    (GoodAddresses_exact_when_at_most_16 testEnv sampleTable tenHours).2.2.2.1 none
      (by decide),
    by decide⟩

/-- An instance of the amended C4: minimum `0.3.57` and a user agent whose first
segment holds `0.3.14`. -/
theorem CheckVersion_error_iff_below_minimum_or_beyond_int64_witness :
    ("0.3.57" : String) ≠ "" ∧
      (NewVersion "0.3.57".data).map (fun v => v.segments) = some [0, 3, 57] ∧
      '/' ∈ TrimPrefixSlash "/spectred:0.3.14/spectred:0.0.0/".data ∧
      FindStringSubmatch (firstSegment "/spectred:0.3.14/spectred:0.0.0/") =
        some "0.3.14".data ∧
      ∃ d1 d2 d3 : List Char,
        "0.3.14".data = d1 ++ '.' :: d2 ++ '.' :: d3 ∧ d1 ≠ [] ∧ d2 ≠ [] ∧ d3 ≠ [] ∧
        (∀ c ∈ d1, c.isDigit = true) ∧ (∀ c ∈ d2, c.isDigit = true) ∧
        (∀ c ∈ d3, c.isDigit = true) ∧
        (CheckVersion (fun _ _ => 0) "0.3.57" "/spectred:0.3.14/spectred:0.0.0/" ≠ none ↔
          (2 ^ 63 ≤ digitsValue d1 ∨ 2 ^ 63 ≤ digitsValue d2 ∨ 2 ^ 63 ≤ digitsValue d3) ∨
            versionLess [digitsValue d1, digitsValue d2, digitsValue d3] [0, 3, 57]) :=
  ⟨by decide, by decide, by decide, by decide,
    (CheckVersion_error_iff_below_minimum_or_beyond_int64 (fun _ _ => 0)).1 "0.3.57"
      "/spectred:0.3.14/spectred:0.0.0/"
      { metadata := [], pre := [], segments := [0, 3, 57], si := 3,
        original := "0.3.57".data }
      "0.3.14".data (by decide) (by decide) (by decide) (by decide)⟩

/-- An instance of C5: the user agent `/spectred` has no `/` after the leading
one. -/
theorem CheckVersion_rejects_user_agent_without_version_witness :
    ("1.0.0" : String) ≠ "" ∧
      (NewVersion "1.0.0".data).map (fun v => v.segments) = some [1, 0, 0] ∧
      '/' ∉ TrimPrefixSlash "/spectred".data ∧
      CheckVersion (fun _ _ => 0) "1.0.0" "/spectred" = some .invalidFormat :=
  ⟨by decide, by decide, by decide,
    (CheckVersion_rejects_user_agent_without_version (fun _ _ => 0)).1 "1.0.0" "/spectred"
      { metadata := [], pre := [], segments := [1, 0, 0], si := 3,
        original := "1.0.0".data } (by decide) (by decide) (by decide)⟩

/-! ### Frame conditions of the table operations -/

theorem addAddressesLoop_keys_subset (env : Env) (now : Time) (addrs : List NetAddress)
    (nodes : List (String × Node)) (count : Nat) (k : String)
    (hk : k ∈ nodes.map Prod.fst) :
    k ∈ (addAddressesLoop env now addrs nodes count).1.map Prod.fst := by
  induction addrs generalizing nodes count with
  | nil => exact hk
  | cons addr rest ih =>
    rw [addAddressesLoop_cons]
    split
    · split
      · exact ih _ _ (by rw [keys_updateNode]; exact hk)
      · exact ih _ _ (by rw [List.map_append, List.mem_append]; exact Or.inl hk)
    · exact ih _ _ hk

theorem addAddressesLoop_keys_of_routable (env : Env) (now : Time) (addrs : List NetAddress)
    (nodes : List (String × Node)) (count : Nat) (a : NetAddress) (ha : a ∈ addrs)
    (hr : env.IsRoutable a env.AcceptUnroutable = true) :
    addrKey env a ∈ (addAddressesLoop env now addrs nodes count).1.map Prod.fst := by
  induction addrs generalizing nodes count with
  | nil => cases ha
  | cons addr rest ih =>
    rw [addAddressesLoop_cons]
    rcases List.mem_cons.1 ha with rfl | ha
    · rw [if_pos hr]
      split
      · rename_i hmem
        exact addAddressesLoop_keys_subset env now rest _ _ _ (by rw [keys_updateNode]; exact hmem)
      · exact addAddressesLoop_keys_subset env now rest _ _ _ (by simp)
    · split
      · split
        · exact ih _ _ ha
        · exact ih _ _ ha
      · exact ih _ _ ha

/-- When the key of every routable address of the list is in the table already,
the loop of `AddAddresses` inserts nothing: it sets `LastSeen` of the nodes
under these keys to `now` and leaves the counter as it is. -/
theorem addAddressesLoop_of_known (env : Env) (now : Time) (addrs : List NetAddress)
    (nodes : List (String × Node)) (count : Nat)
    (h : ∀ a ∈ addrs, env.IsRoutable a env.AcceptUnroutable = true →
      addrKey env a ∈ nodes.map Prod.fst) :
    addAddressesLoop env now addrs nodes count =
      (nodes.map (fun kn =>
        if kn.1 ∈ (addrs.filter (fun a => env.IsRoutable a env.AcceptUnroutable)).map
            (addrKey env) then
          (kn.1, { kn.2 with LastSeen := now })
        else kn), count) := by
  induction addrs generalizing nodes with
  | nil => simp [addAddressesLoop]
  | cons addr rest ih =>
    rw [addAddressesLoop_cons]
    by_cases hr : env.IsRoutable addr env.AcceptUnroutable = true
    · have hk := h addr (List.mem_cons_self _ _) hr
      rw [if_pos hr, if_pos hk, ih]
      · rw [List.filter_cons_of_pos (by simpa using hr), List.map_cons]
        congr 1
        simp only [updateNode, List.map_map]
        apply List.map_congr_left
        intro kn _
        simp only [Function.comp]
        by_cases hkn : kn.1 = addrKey env addr
        · simp [hkn]
        · rw [if_neg hkn]
          simp only [List.mem_cons, hkn, false_or]
      · intro a ha hra
        rw [keys_updateNode]
        exact h a (List.mem_cons_of_mem _ ha) hra
    · rw [if_neg hr, ih, List.filter_cons_of_neg (by simpa using hr)]
      intro a ha hra
      exact h a (List.mem_cons_of_mem _ ha) hra

/-- C11: calling `AddAddresses` a second time with the same list returns 0 and
leaves the keys of the table as they are. The table after the second call is
the table after the first one in which `LastSeen` of the nodes under the keys
of the routable addresses of the list is the instant of the second call:
`Addr`, `LastAttempt`, `LastSuccess` and `SubnetworkID` of every node are as
they were after the first call. -/
theorem AddAddresses_twice_changes_only_LastSeen (env : Env) (m : Manager)
    (addrs : List NetAddress) (t1 t2 : Time) :
    ((m.AddAddresses env addrs t1).1.AddAddresses env addrs t2).2 = 0 ∧
      ((m.AddAddresses env addrs t1).1.AddAddresses env addrs t2).1.keys =
        (m.AddAddresses env addrs t1).1.keys ∧
      ((m.AddAddresses env addrs t1).1.AddAddresses env addrs t2).1.nodes =
        (m.AddAddresses env addrs t1).1.nodes.map (fun kn =>
          if kn.1 ∈ (addrs.filter (fun a => env.IsRoutable a env.AcceptUnroutable)).map
              (addrKey env) then
            (kn.1, { kn.2 with LastSeen := t2 })
          else kn) := by
  have hknown : ∀ a ∈ addrs, env.IsRoutable a env.AcceptUnroutable = true →
      addrKey env a ∈ (m.AddAddresses env addrs t1).1.nodes.map Prod.fst := by
    intro a ha hr
    exact addAddressesLoop_keys_of_routable env t1 addrs m.nodes 0 a ha hr
  have heq := addAddressesLoop_of_known env t2 addrs (m.AddAddresses env addrs t1).1.nodes 0
    hknown
  refine ⟨?_, ?_, ?_⟩
  · show (addAddressesLoop env t2 addrs (m.AddAddresses env addrs t1).1.nodes 0).2 = 0
    rw [heq]
  · show (addAddressesLoop env t2 addrs (m.AddAddresses env addrs t1).1.nodes 0).1.map Prod.fst =
      (m.AddAddresses env addrs t1).1.nodes.map Prod.fst
    rw [heq]
    simp only [List.map_map]
    apply List.map_congr_left
    intro kn _
    simp only [Function.comp]
    split <;> rfl
  · show (addAddressesLoop env t2 addrs (m.AddAddresses env addrs t1).1.nodes 0).1 = _
    rw [heq]

theorem lookupNode_isSome_of_mem_keys (key : String) (nodes : List (String × Node))
    (h : key ∈ nodes.map Prod.fst) : ∃ n, lookupNode key nodes = some n := by
  cases hl : lookupNode key nodes with
  | none => exact absurd h ((lookupNode_eq_none_iff_not_mem_keys key nodes).1 hl)
  | some n => exact ⟨n, rfl⟩

/-- C12: when the key of the address is in the table, `Attempt` changes
`LastAttempt` of the node under that key to `now` and nothing else, and `Good`
changes `LastSuccess` to `now` and `SubnetworkID` to the passed id and nothing
else; every other entry is as it was. When the key is absent both leave the
table as it is. In every case the keys of the table are unchanged, in the same
order: neither operation inserts or deletes a node. -/
theorem Attempt_and_Good_change_one_node_only (env : Env) (m : Manager) (addr : NetAddress)
    (subnetworkid : Option DomainSubnetworkID) (now : Time) :
    (addrKey env addr ∈ m.keys →
      (m.Attempt env addr now).nodes =
          m.nodes.map (fun kn =>
            if kn.1 = addrKey env addr then (kn.1, { kn.2 with LastAttempt := now }) else kn) ∧
        (m.Good env addr subnetworkid now).nodes =
          m.nodes.map (fun kn =>
            if kn.1 = addrKey env addr then
              (kn.1, { kn.2 with LastSuccess := now, SubnetworkID := subnetworkid })
            else kn)) ∧
    (addrKey env addr ∉ m.keys →
      m.Attempt env addr now = m ∧ m.Good env addr subnetworkid now = m) ∧
    (m.Attempt env addr now).keys = m.keys ∧
    (m.Good env addr subnetworkid now).keys = m.keys := by
  refine ⟨?_, ?_, ?_, ?_⟩
  · intro hk
    obtain ⟨n, hn⟩ := lookupNode_isSome_of_mem_keys _ _ hk
    simp only [Manager.Attempt, Manager.Good, hn, updateNode, and_self]
  · intro hk
    have hn := (lookupNode_eq_none_iff_not_mem_keys _ _).2 hk
    simp only [Manager.Attempt, Manager.Good, hn, and_self]
  · unfold Manager.Attempt Manager.keys
    split
    · simp only [keys_updateNode]
    · rfl
  · unfold Manager.Good Manager.keys
    split
    · simp only [keys_updateNode]
    · rfl

/-- C13, as stated, fails: `Good` stores the id it is passed, and a peer that
advertises no subnetwork passes a null one. After `Good` with the id `[1]` the
node has that id; after a second `Good` with a null id it is null again. -/
theorem Good_with_null_id_resets_SubnetworkID :
    (runOps testEnv Manager.empty
        [(1, .addAddresses [peerA]), (2, .attempt peerA), (3, .good peerA (some [1]))]).nodes =
      [("203.0.113.5_18111",
        { Addr := peerA, LastAttempt := 2, LastSuccess := 3, LastSeen := 1,
          SubnetworkID := some [1] })] ∧
    (runOps testEnv Manager.empty
        [(1, .addAddresses [peerA]), (2, .attempt peerA), (3, .good peerA (some [1])),
          (4, .attempt peerA), (5, .good peerA none)]).nodes =
      [("203.0.113.5_18111",
        { Addr := peerA, LastAttempt := 4, LastSuccess := 5, LastSeen := 1,
          SubnetworkID := none })] := by
  decide

/-- C13, amended: the subnetwork id of a node changes only in `Good`, which
sets it to the id it is passed, a null id included. After `AddAddresses`,
`Attempt` or `prune` every node either was in the table under the same key with
the same subnetwork id, or is a new node under a key that was absent, with a
null id. After `Good` the nodes under the key of the address have the passed id
and every other entry is as it was; so an id that is not null stays not null as
long as no `Good` passes a null id for that key. -/
theorem SubnetworkID_changes_only_in_Good (env : Env) (m : Manager) (now : Time) :
    (∀ op : Op, (∀ addr subnetworkid, op ≠ .good addr subnetworkid) →
      ∀ kn ∈ (m.applyOp env now op).nodes,
        (∃ n, (kn.1, n) ∈ m.nodes ∧ kn.2.SubnetworkID = n.SubnetworkID) ∨
          (kn.1 ∉ m.keys ∧ kn.2.SubnetworkID = none)) ∧
    (∀ (addr : NetAddress) (subnetworkid : Option DomainSubnetworkID),
      ∀ kn ∈ (m.applyOp env now (.good addr subnetworkid)).nodes,
        (kn.1 = addrKey env addr → kn.2.SubnetworkID = subnetworkid) ∧
          (kn.1 ≠ addrKey env addr → kn ∈ m.nodes)) ∧
    (∀ (addr : NetAddress) (subnetworkid : Option DomainSubnetworkID), subnetworkid ≠ none →
      ∀ kn ∈ (m.applyOp env now (.good addr subnetworkid)).nodes,
        ∃ n, (kn.1, n) ∈ m.nodes ∧ (n.SubnetworkID ≠ none → kn.2.SubnetworkID ≠ none)) := by
  refine ⟨?_, ?_, ?_⟩
  · intro op hop kn hkn
    cases op with
    | addAddresses addrs =>
      rcases AddAddresses_nodes_mem env m addrs now kn hkn with
        ⟨n, hn, _, _, _, e4, _⟩ | ⟨hnew, a, _, _, hfresh⟩
      · exact Or.inl ⟨n, hn, e4⟩
      · exact Or.inr ⟨hnew, by rw [hfresh]; rfl⟩
    | attempt addr =>
      obtain ⟨n, hn, hcase⟩ := mem_Attempt env m addr now kn hkn
      left
      refine ⟨n, hn, ?_⟩
      rcases hcase with h0 | ⟨_, h0⟩ <;> rw [h0]
    | good addr sid => exact absurd rfl (hop addr sid)
    | prune =>
      exact Or.inl ⟨kn.2, ((mem_prunePeers_iff m now kn).1 hkn).1, rfl⟩
  · intro addr sid kn hkn
    constructor
    · intro hk
      exact (mem_Good_lastSuccess env m addr sid now kn hkn hk).2
    · intro hk
      obtain ⟨n, hn, hcase⟩ := mem_Good env m addr sid now kn hkn
      rcases hcase with h0 | ⟨h1, _⟩
      · have : kn = (kn.1, n) := Prod.ext rfl h0
        rw [this]
        exact hn
      · exact absurd h1 hk
  · intro addr sid hsid kn hkn
    obtain ⟨n, hn, hcase⟩ := mem_Good env m addr sid now kn hkn
    refine ⟨n, hn, ?_⟩
    intro hne
    rcases hcase with h0 | ⟨_, h0⟩
    · rw [h0]
      exact hne
    · rw [h0]
      exact hsid

theorem addAddressesLoop_filter (env : Env) (now : Time) (addrs : List NetAddress)
    (nodes : List (String × Node)) (count : Nat) :
    addAddressesLoop env now addrs nodes count =
      addAddressesLoop env now
        (addrs.filter (fun a => env.IsRoutable a env.AcceptUnroutable)) nodes count := by
  induction addrs generalizing nodes count with
  | nil => rfl
  | cons addr rest ih =>
    by_cases hr : env.IsRoutable addr env.AcceptUnroutable = true
    · rw [List.filter_cons_of_pos (by simpa using hr), addAddressesLoop_cons,
        addAddressesLoop_cons, if_pos hr]
      split
      · exact ih _ _
      · exact ih _ _
    · rw [List.filter_cons_of_neg (by simpa using hr), addAddressesLoop_cons, if_neg hr]
      exact ih _ _

theorem runOps_Addr_routable (env : Env) (ops : List (Time × Op)) (m : Manager)
    (hm : ∀ kn ∈ m.nodes, env.IsRoutable kn.2.Addr env.AcceptUnroutable = true) :
    ∀ kn ∈ (runOps env m ops).nodes, env.IsRoutable kn.2.Addr env.AcceptUnroutable = true := by
  induction ops generalizing m with
  | nil => exact hm
  | cons p rest ih =>
    obtain ⟨t, op⟩ := p
    refine ih _ ?_
    intro kn hkn
    cases op with
    | addAddresses addrs =>
      rcases AddAddresses_nodes_mem env m addrs t kn hkn with
        ⟨n, hn, e1, _⟩ | ⟨_, a, _, hra, hfresh⟩
      · rw [e1]
        exact hm _ hn
      · rw [hfresh]
        exact hra
    | attempt addr =>
      obtain ⟨n, hn, hcase⟩ := mem_Attempt env m addr t kn hkn
      rcases hcase with h0 | ⟨_, h0⟩
      · rw [h0]
        exact hm _ hn
      · rw [h0]
        exact hm _ hn
    | good addr sid =>
      obtain ⟨n, hn, hcase⟩ := mem_Good env m addr sid t kn hkn
      rcases hcase with h0 | ⟨_, h0⟩
      · rw [h0]
        exact hm _ hn
      · rw [h0]
        exact hm _ hn
    | prune =>
      exact hm kn ((mem_prunePeers_iff m t kn).1 hkn).1

/-- C14: `AddAddresses` inserts a node only for an address the routability
predicate, `IsRoutable` under the configured `AcceptUnroutable`, accepts. The
addresses it rejects have no effect at all: the call does what it does on the
list without them, so they are neither inserted, nor counted, nor used to
refresh `LastSeen`, and a list of rejected addresses leaves the table as it is
and returns 0. Hence in every table reached from the empty table by table
operations the address of every node is routable. -/
theorem AddAddresses_ignores_non_routable (env : Env) :
    (∀ (m : Manager) (addrs : List NetAddress) (now : Time),
      m.AddAddresses env addrs now =
        m.AddAddresses env (addrs.filter (fun a => env.IsRoutable a env.AcceptUnroutable))
          now) ∧
    (∀ (m : Manager) (addrs : List NetAddress) (now : Time),
      (∀ a ∈ addrs, env.IsRoutable a env.AcceptUnroutable = false) →
        m.AddAddresses env addrs now = (m, 0)) ∧
    (∀ (m : Manager) (addrs : List NetAddress) (now : Time),
      ∀ kn ∈ (m.AddAddresses env addrs now).1.nodes, kn.1 ∉ m.keys →
        env.IsRoutable kn.2.Addr env.AcceptUnroutable = true ∧ kn.2.Addr ∈ addrs) ∧
    (∀ ops : List (Time × Op), ∀ kn ∈ (runOps env Manager.empty ops).nodes,
      env.IsRoutable kn.2.Addr env.AcceptUnroutable = true) := by
  have hfilter : ∀ (m : Manager) (addrs : List NetAddress) (now : Time),
      m.AddAddresses env addrs now =
        m.AddAddresses env (addrs.filter (fun a => env.IsRoutable a env.AcceptUnroutable))
          now := by
    intro m addrs now
    simp only [Manager.AddAddresses]
    rw [addAddressesLoop_filter]
  refine ⟨hfilter, ?_, ?_, ?_⟩
  · intro m addrs now hall
    rw [hfilter]
    have : addrs.filter (fun a => env.IsRoutable a env.AcceptUnroutable) = [] := by
      rw [List.filter_eq_nil_iff]
      intro a ha
      simp [hall a ha]
    rw [this]
    rfl
  · intro m addrs now kn hkn hnew
    rcases AddAddresses_nodes_mem env m addrs now kn hkn with
      ⟨n, hn, _⟩ | ⟨_, a, ha, hra, hfresh⟩
    · exact absurd (List.mem_map.2 ⟨(kn.1, n), hn, rfl⟩) hnew
    · rw [hfresh]
      exact ⟨hra, ha⟩
  · intro ops
    exact runOps_Addr_routable env ops Manager.empty (by intro kn hkn; cases hkn)

/-- C18: with an empty minimum `CheckVersion` accepts every user agent, the
empty one and those without a `/` or without a version included. -/
theorem CheckVersion_empty_minimum_accepts
    (comparePrereleases : List Char → List Char → Int) (userAgent : String) :
    CheckVersion comparePrereleases "" userAgent = none := by
  unfold CheckVersion
  rw [if_pos rfl]

/-- C19: the value `AddAddresses` returns is not the number of addresses held.
With `peerA` in the table, adding `peerB` returns 1 while the table holds 2
nodes, and adding `peerA` again returns 0 while the table holds 1. -/
theorem AddAddresses_result_is_not_the_table_size :
    ((Manager.empty.AddAddresses testEnv [peerA] 1).1.AddAddresses testEnv [peerB] 2).2 = 1 ∧
      ((Manager.empty.AddAddresses testEnv [peerA] 1).1.AddAddresses testEnv
        [peerB] 2).1.AddressCount = 2 ∧
      ((Manager.empty.AddAddresses testEnv [peerA] 1).1.AddAddresses testEnv [peerA] 2).2 = 0 ∧
      ((Manager.empty.AddAddresses testEnv [peerA] 1).1.AddAddresses testEnv
        [peerA] 2).1.AddressCount = 1 := by
  decide

/-- C20: a non-empty minimum that does not parse as a version makes
`CheckVersion` return the parse error for every user agent: the minimum is
parsed before the user agent is looked at. -/
theorem CheckVersion_rejects_all_when_minimum_unparsable
    (comparePrereleases : List Char → List Char → Int) (minUaVer userAgent : String)
    (hmin : minUaVer ≠ "") (hparse : NewVersion minUaVer.data = none) :
    CheckVersion comparePrereleases minUaVer userAgent = some .badMinimum := by
  unfold CheckVersion
  rw [if_neg hmin, hparse]

/-- An instance of C20: the minimum `latest` rejects a user agent that
advertises version `999.0.0`. -/
theorem CheckVersion_rejects_all_when_minimum_unparsable_witness :
    ("latest" : String) ≠ "" ∧ NewVersion "latest".data = none ∧
      CheckVersion (fun _ _ => 0) "latest" "/spectred:999.0.0/" = some .badMinimum :=
  ⟨by decide, by decide,
    CheckVersion_rejects_all_when_minimum_unparsable (fun _ _ => 0) "latest"
      "/spectred:999.0.0/" (by decide) (by decide)⟩

/-! ### The handshake -/

theorem forall_lt_four (f : Nat → Option RouteError) :
    (∀ i, i < 4 → f i = none) ↔ f 0 = none ∧ f 1 = none ∧ f 2 = none ∧ f 3 = none := by
  constructor
  · intro h
    exact ⟨h 0 (by decide), h 1 (by decide), h 2 (by decide), h 3 (by decide)⟩
  · rintro ⟨h0, h1, h2, h3⟩ i hi
    interval_cases i <;> assumption

/-- C17: `handleHandshake` returns without error exactly when the handshake
route delivers a `Version` and then a `VerAck`, the addresses route delivers a
`RequestAddresses` and then an `Addresses`, none of the four reads failing or
timing out, and each of the four `Enqueue` calls succeeds. It then returns the
version of the peer and has sent, in this order and nothing else, our version
with the fixed user agent, a `VerAck`, an `Addresses` with an empty list and a
`RequestAddresses` with `IncludeAllSubnetworks = true`. In every case what it
has sent is an initial segment of these four messages, and when the first
message is not a `Version`, nothing is sent and no version is returned. The
last part gives the whole result at the first step that fails, step by step
in the order of the code: a read that fails, times out or delivers a message
of another type returns the error of the route or the unexpected message, a
send that fails returns its error, and in either case the messages sent are
exactly the replies of the steps before it, none of a later step. -/
theorem handleHandshake_succeeds_iff_peer_follows_protocol (network : String)
    (ourID : Option (List Nat)) (now : Int) (routes : Routes) :
    ((handleHandshake network ourID now routes).err = none ↔
      ∃ v incl sid al hrest arest,
        routes.handshakeRoute = .ok (.MsgVersion v) :: .ok .MsgVerAck :: hrest ∧
        routes.addressesRoute =
          .ok (.MsgRequestAddresses incl sid) :: .ok (.MsgAddresses al) :: arest ∧
        ∀ i, i < 4 → routes.OutgoingRoute i = none) ∧
    (∀ v hrest, routes.handshakeRoute = .ok (.MsgVersion v) :: hrest →
      (handleHandshake network ourID now routes).sent <+:
          handshakeReplies network ourID now v ∧
        ((handleHandshake network ourID now routes).err = none →
          (handleHandshake network ourID now routes).msgVersion = some v ∧
            (handleHandshake network ourID now routes).sent =
              handshakeReplies network ourID now v)) ∧
    ((∀ v hrest, routes.handshakeRoute ≠ .ok (.MsgVersion v) :: hrest) →
      (handleHandshake network ourID now routes).sent = [] ∧
        (handleHandshake network ourID now routes).msgVersion = none ∧
        (handleHandshake network ourID now routes).err ≠ none) ∧
    ((∀ v, delivered routes.handshakeRoute 0 ≠ .ok (.MsgVersion v)) →
      handleHandshake network ourID now routes =
        ⟨none, some (readError 1 (delivered routes.handshakeRoute 0)), []⟩) ∧
    (∀ v, delivered routes.handshakeRoute 0 = .ok (.MsgVersion v) →
      (∀ e, routes.OutgoingRoute 0 = some e →
        handleHandshake network ourID now routes = ⟨some v, some (.route e), []⟩) ∧
      (routes.OutgoingRoute 0 = none →
        (delivered routes.handshakeRoute 1 ≠ .ok .MsgVerAck →
          handleHandshake network ourID now routes =
            ⟨some v, some (readError 2 (delivered routes.handshakeRoute 1)),
              [ourVersion network ourID now v]⟩) ∧
        (delivered routes.handshakeRoute 1 = .ok .MsgVerAck →
          (∀ e, routes.OutgoingRoute 1 = some e →
            handleHandshake network ourID now routes =
              ⟨some v, some (.route e), [ourVersion network ourID now v]⟩) ∧
          (routes.OutgoingRoute 1 = none →
            ((∀ incl sid,
                delivered routes.addressesRoute 0 ≠ .ok (.MsgRequestAddresses incl sid)) →
              handleHandshake network ourID now routes =
                ⟨some v, some (readError 3 (delivered routes.addressesRoute 0)),
                  [ourVersion network ourID now v, .MsgVerAck]⟩) ∧
            (∀ incl sid,
              delivered routes.addressesRoute 0 = .ok (.MsgRequestAddresses incl sid) →
              (∀ e, routes.OutgoingRoute 2 = some e →
                handleHandshake network ourID now routes =
                  ⟨some v, some (.route e), [ourVersion network ourID now v, .MsgVerAck]⟩) ∧
              (routes.OutgoingRoute 2 = none →
                (∀ e, routes.OutgoingRoute 3 = some e →
                  handleHandshake network ourID now routes =
                    ⟨some v, some (.route e),
                      [ourVersion network ourID now v, .MsgVerAck, .MsgAddresses []]⟩) ∧
                (routes.OutgoingRoute 3 = none →
                  ((∀ al, delivered routes.addressesRoute 1 ≠ .ok (.MsgAddresses al)) →
                    handleHandshake network ourID now routes =
                      ⟨some v, some (readError 4 (delivered routes.addressesRoute 1)),
                        handshakeReplies network ourID now v⟩) ∧
                  (∀ al, delivered routes.addressesRoute 1 = .ok (.MsgAddresses al) →
                    handleHandshake network ourID now routes =
                      ⟨some v, none, handshakeReplies network ourID now v⟩)))))))) := by
  obtain ⟨h, a, o⟩ := routes
  simp only [forall_lt_four]
  rcases h with _ | ⟨x, h1⟩
  · simp [handleHandshake, DequeueWithTimeout, delivered, readError]
  rcases x with e | msg
  · simp [handleHandshake, DequeueWithTimeout, delivered, readError]
  cases msg
  case MsgVersion v =>
    cases ho0 : o 0 with
    | some e0 =>
      simp [handleHandshake, DequeueWithTimeout, ho0, handshakeReplies, delivered, readError]
    | none =>
      rcases h1 with _ | ⟨x2, h2⟩
      · simp [handleHandshake, DequeueWithTimeout, ho0, handshakeReplies, delivered, readError]
      rcases x2 with e | msg2
      · simp [handleHandshake, DequeueWithTimeout, ho0, handshakeReplies, delivered, readError]
      cases msg2
      case MsgVerAck =>
        cases ho1 : o 1 with
        | some e1 =>
          simp [handleHandshake, DequeueWithTimeout, ho0, ho1, handshakeReplies, delivered,
            readError]
        | none =>
          rcases a with _ | ⟨y, a1⟩
          · simp [handleHandshake, DequeueWithTimeout, ho0, ho1, handshakeReplies, delivered,
              readError]
          rcases y with e | msg3
          · simp [handleHandshake, DequeueWithTimeout, ho0, ho1, handshakeReplies, delivered,
              readError]
          cases msg3
          case MsgRequestAddresses incl sid =>
            cases ho2 : o 2 with
            | some e2 =>
              simp [handleHandshake, DequeueWithTimeout, ho0, ho1, ho2, handshakeReplies,
                delivered, readError]
            | none =>
              cases ho3 : o 3 with
              | some e3 =>
                simp [handleHandshake, DequeueWithTimeout, ho0, ho1, ho2, ho3, handshakeReplies,
                  delivered, readError]
              | none =>
                rcases a1 with _ | ⟨y2, a2⟩
                · simp [handleHandshake, DequeueWithTimeout, ho0, ho1, ho2, ho3,
                    handshakeReplies, delivered, readError]
                rcases y2 with e | msg4
                · simp [handleHandshake, DequeueWithTimeout, ho0, ho1, ho2, ho3,
                    handshakeReplies, delivered, readError]
                cases msg4 <;>
                  simp [handleHandshake, DequeueWithTimeout, ho0, ho1, ho2, ho3,
                    handshakeReplies, delivered, readError]
          all_goals
            simp [handleHandshake, DequeueWithTimeout, ho0, ho1, handshakeReplies, delivered,
              readError]
      all_goals
        simp [handleHandshake, DequeueWithTimeout, ho0, handshakeReplies, delivered, readError]
  all_goals simp [handleHandshake, DequeueWithTimeout, delivered, readError]

/-- An instance of C17: the sample peer completes the handshake and the four
replies are sent; a peer that delivers its version and then nothing gets our
version, the second read times out and no further reply is sent, although the
addresses route holds a request. -/
theorem handleHandshake_succeeds_iff_peer_follows_protocol_witness :
    (handleHandshake "spectre-mainnet" none 7 sampleRoutes).err = none ∧
      (handleHandshake "spectre-mainnet" none 7 sampleRoutes).sent.length = 4 ∧
      ((handleHandshake "spectre-mainnet" none 7 sampleRoutes).err = none ↔
        ∃ v incl sid al hrest arest,
          sampleRoutes.handshakeRoute = .ok (.MsgVersion v) :: .ok .MsgVerAck :: hrest ∧
          sampleRoutes.addressesRoute =
            .ok (.MsgRequestAddresses incl sid) :: .ok (.MsgAddresses al) :: arest ∧
          ∀ i, i < 4 → sampleRoutes.OutgoingRoute i = none) ∧
      delivered silentRoutes.handshakeRoute 1 = .error .ErrTimeout ∧
      handleHandshake "spectre-mainnet" none 7 silentRoutes =
        ⟨some { ProtocolVersion := 5, Network := "spectre-mainnet", Services := 1,
                Timestamp := 0, Address := none, ID := some [7],
                UserAgent := "/spectred:0.3.17/", DisableRelayTx := false,
                SubnetworkID := none },
          some (.route .ErrTimeout),
          [.MsgVersion
            { ProtocolVersion := 5, Network := "spectre-mainnet", Services := 1,
              Timestamp := 7, Address := none, ID := none,
              UserAgent := "/net-adapter-mock/", DisableRelayTx := true,
              SubnetworkID := none }]⟩ :=
  ⟨by decide, by decide,
    (handleHandshake_succeeds_iff_peer_follows_protocol "spectre-mainnet" none 7
      sampleRoutes).1,
    rfl,
    ((((handleHandshake_succeeds_iff_peer_follows_protocol "spectre-mainnet" none 7
      silentRoutes).2.2.2.2 _ rfl).2 rfl).1 (by simp [delivered, silentRoutes]))⟩

/-! ### Tables without nil pointers -/

theorem lookupEntry_toPtrEntries (key : String) (nodes : List (String × Node)) :
    Ptr.lookupEntry key (toPtrEntries nodes) =
      (lookupNode key nodes).map (fun n => some n.toPtr) := by
  induction nodes with
  | nil => rfl
  | cons kn rest ih =>
    obtain ⟨k, n⟩ := kn
    simp only [toPtrEntries, List.map_cons, Ptr.lookupEntry, lookupNode] at ih ⊢
    by_cases hk : k = key
    · simp [hk]
    · simp [hk, ih]

theorem updateEntry_toPtrEntries (key : String) (f : Node → Node) (g : Ptr.Node → Ptr.Node)
    (hfg : ∀ n : Node, g n.toPtr = (f n).toPtr) (nodes : List (String × Node)) :
    Ptr.updateEntry key g (toPtrEntries nodes) = toPtrEntries (updateNode key f nodes) := by
  simp only [Ptr.updateEntry, toPtrEntries, updateNode, List.map_map]
  apply List.map_congr_left
  intro kn _
  simp only [Function.comp]
  by_cases hk : kn.1 = key
  · simp [hk, hfg]
  · simp [hk]

theorem toPtrEntries_append (a b : List (String × Node)) :
    toPtrEntries (a ++ b) = toPtrEntries a ++ toPtrEntries b := by
  simp [toPtrEntries]

theorem Ptr_addAddressesLoop_toPtr (env : Env) (now : Time) (addrs : List NetAddress)
    (nodes : List (String × Node)) (count : Nat) :
    Ptr.addAddressesLoop env now addrs (some (toPtrEntries nodes)) count =
      some (some (toPtrEntries (addAddressesLoop env now addrs nodes count).1),
        (addAddressesLoop env now addrs nodes count).2) := by
  induction addrs generalizing nodes count with
  | nil => rfl
  | cons addr rest ih =>
    rw [Ptr.addAddressesLoop, addAddressesLoop]
    cases hr : env.IsRoutable addr env.AcceptUnroutable
    · simp only [Bool.not_false, if_true]
      exact ih nodes count
    · simp only [Bool.not_true, Bool.false_eq_true, if_false, Option.getD_some,
        lookupEntry_toPtrEntries]
      cases hl : lookupNode (addrKey env addr) nodes with
      | none =>
        simp only [Option.map_none']
        have := ih (nodes ++ [(addrKey env addr,
          { Addr := addr, LastAttempt := 0, LastSuccess := 0, LastSeen := now,
            SubnetworkID := none })]) (count + 1)
        rw [toPtrEntries_append] at this
        exact this
      | some n =>
        simp only [Option.map_some']
        rw [updateEntry_toPtrEntries (addrKey env addr) (fun n => { n with LastSeen := now })
          _ (fun _ => rfl)]
        exact ih _ count

theorem Ptr_isStale_toPtr (n : Node) (now : Time) :
    Ptr.isStale (some n.toPtr) now = some (isStale n now) := rfl

theorem Ptr_isExpired_toPtr (n : Node) (now : Time) :
    Ptr.isExpired (some n.toPtr) now = some (isExpired n now) := rfl

theorem Ptr_isGood_toPtr (env : Env) (n : Node) (now : Time) :
    Ptr.isGood env (some n.toPtr) now = some (isGood env n now) := rfl

theorem Ptr_addressesLoop_toPtr (now : Time) (nodes : List (String × Node)) (i : Int)
    (addrs : List NetAddress) :
    Ptr.addressesLoop now (toPtrEntries nodes) i (addrs.map some) =
      some ((addressesLoop now nodes i addrs).map some) := by
  induction nodes generalizing i addrs with
  | nil => rfl
  | cons kn rest ih =>
    obtain ⟨k, n⟩ := kn
    simp only [toPtrEntries, List.map_cons, Ptr.addressesLoop, addressesLoop,
      Ptr_isStale_toPtr]
    by_cases h0 : (i == 0) = true
    · simp [h0]
    · simp only [h0, if_false]
      cases hs : isStale n now
      · simp only [Bool.not_false, if_true]
        exact ih i addrs
      · simp only [Bool.not_true, Bool.false_eq_true, if_false]
        have := ih (i - 1) (addrs ++ [n.Addr])
        simpa [Node.toPtr] using this

theorem Ptr_goodAddressesLoop_toPtr (env : Env) (now : Time) (qtype : Nat) (incl : Bool)
    (sid : Option DomainSubnetworkID) (nodes : List (String × Node)) (i : Int)
    (addrs : List NetAddress) :
    Ptr.goodAddressesLoop env now qtype incl sid (toPtrEntries nodes) i addrs =
      some (goodAddressesLoop env now qtype incl sid nodes i addrs) := by
  induction nodes generalizing i addrs with
  | nil => rfl
  | cons kn rest ih =>
    obtain ⟨k, n⟩ := kn
    simp only [toPtrEntries, List.map_cons, Ptr.goodAddressesLoop, goodAddressesLoop]
    by_cases h0 : (i == 0) = true
    · simp [h0]
    · simp only [h0, if_false]
      have hsid : n.toPtr.SubnetworkID = n.SubnetworkID := rfl
      have haddr : n.toPtr.Addr = some n.Addr := rfl
      rw [hsid]
      by_cases h1 : (!incl && !SubnetworkIDEqual n.SubnetworkID sid) = true
      · simp only [h1, if_true]
        exact ih i addrs
      · simp only [h1, if_false, haddr, Ptr.isIPv4, Option.map_some', Ptr_isGood_toPtr]
        have hv4 : ipTo4NonNil n.Addr.IP = isIPv4 n.Addr := rfl
        rw [hv4]
        by_cases h2 : ((qtype == TypeA && !isIPv4 n.Addr) ||
            (qtype == TypeAAAA && isIPv4 n.Addr)) = true
        · simp only [h2, if_true]
          exact ih i addrs
        · simp only [h2, if_false]
          by_cases h3 : (!isGood env n now) = true
          · simp only [h3, if_true]
            exact ih i addrs
          · simp only [h3, if_false]
            exact ih (i - 1) (addrs ++ [n.Addr])

theorem Ptr_prunePeersLoop_toPtr (env : Env) (now : Time) (nodes : List (String × Node)) :
    Ptr.prunePeersLoop env now (toPtrEntries nodes) =
      some (toPtrEntries (prunePeersLoop now nodes).1) := by
  induction nodes with
  | nil => rfl
  | cons kn rest ih =>
    obtain ⟨k, n⟩ := kn
    simp only [toPtrEntries, List.map_cons, Ptr.prunePeersLoop, prunePeersLoop,
      Ptr_isExpired_toPtr, Ptr_isGood_toPtr] at ih ⊢
    cases he : isExpired n now
    · simp only [ih, Option.map_some', Bool.false_eq_true, if_false, List.map_cons]
    · simp only [ih, if_true]

/-- On a table without nil pointers, and so on every table the operations build
up from the empty map, each operation of the table completes without a panic
and does what the embedding of such tables says. -/
theorem Ptr_operations_complete_without_nil (env : Env) (m : Manager) (now : Time) :
    (∀ addrs : List NetAddress,
      m.toPtr.AddAddresses env addrs now =
        some ((m.AddAddresses env addrs now).1.toPtr, (m.AddAddresses env addrs now).2)) ∧
    m.toPtr.Addresses env now = some ((m.Addresses env now).map some) ∧
    (∀ (qtype : Nat) (incl : Bool) (sid : Option DomainSubnetworkID),
      m.toPtr.GoodAddresses env now qtype incl sid =
        some (m.GoodAddresses env now qtype incl sid)) ∧
    (∀ addr : NetAddress, m.toPtr.Attempt env (some addr) now =
      some (m.Attempt env addr now).toPtr) ∧
    (∀ (addr : NetAddress) (sid : Option DomainSubnetworkID),
      m.toPtr.Good env (some addr) sid now = some (m.Good env addr sid now).toPtr) ∧
    m.toPtr.AddressCount = m.AddressCount ∧
    m.toPtr.prunePeers env now = some (m.prunePeers now).toPtr := by
  refine ⟨?_, ?_, ?_, ?_, ?_, ?_, ?_⟩
  · intro addrs
    simp only [Ptr.Manager.AddAddresses, Manager.toPtr, Ptr_addAddressesLoop_toPtr,
      Option.map_some', Manager.AddAddresses]
  · simp only [Ptr.Manager.Addresses, Manager.toPtr, Ptr.Manager.entries, Option.getD_some,
      Manager.Addresses]
    exact Ptr_addressesLoop_toPtr now m.nodes (env.Threads * 3) []
  · intro qtype incl sid
    simp only [Ptr.Manager.GoodAddresses, Manager.GoodAddresses, Manager.toPtr,
      Ptr.Manager.entries, Option.getD_some]
    split
    · rfl
    · exact Ptr_goodAddressesLoop_toPtr env now qtype incl sid m.nodes _ []
  · intro addr
    simp only [Ptr.Manager.Attempt, Manager.Attempt, Manager.toPtr, Ptr.Manager.entries,
      Option.getD_some, lookupEntry_toPtrEntries]
    cases hl : lookupNode (addrKey env addr) m.nodes with
    | none => rfl
    | some n =>
      simp only [Option.map_some']
      rw [updateEntry_toPtrEntries (addrKey env addr) (fun n => { n with LastAttempt := now })
        _ (fun _ => rfl)]
  · intro addr sid
    simp only [Ptr.Manager.Good, Manager.Good, Manager.toPtr, Ptr.Manager.entries,
      Option.getD_some, lookupEntry_toPtrEntries]
    cases hl : lookupNode (addrKey env addr) m.nodes with
    | none => rfl
    | some n =>
      simp only [Option.map_some']
      rw [updateEntry_toPtrEntries (addrKey env addr)
        (fun n => { n with LastSuccess := now, SubnetworkID := sid }) _ (fun _ => rfl)]
  · simp [Ptr.Manager.AddressCount, Manager.AddressCount, Manager.toPtr, Ptr.Manager.entries,
      toPtrEntries]
  · simp only [Ptr.Manager.prunePeers, Manager.toPtr, Ptr_prunePeersLoop_toPtr,
      Option.map_some', Manager.prunePeers]

/-! ### The snapshot -/

theorem ipEqual_jsonIP (ip ip' : List Nat) (h : Ptr.jsonIP ip = some ip') :
    Ptr.ipEqual ip ip' = true := by
  unfold Ptr.jsonIP at h
  by_cases h0 : (ip.length == 0) = true
  · rw [if_pos h0] at h
    cases h
    have : ip = [] := List.length_eq_zero.1 (by simpa using h0)
    subst this
    rfl
  · rw [if_neg h0] at h
    by_cases h1 : (ip.length == 4 || ip.length == 16) = true
    · rw [if_pos h1] at h
      cases h
      by_cases h4 : ip.length = 4
      · simp [Ptr.ipEqual, Ptr.To16, h4]
      · have h16 : ip.length = 16 := by
          simp only [Bool.or_eq_true, beq_iff_eq] at h1
          tauto
        simp [Ptr.ipEqual, Ptr.To16, h16]
    · rw [if_neg h1] at h
      exact Option.noConfusion h

theorem jsonTime_eq (t t' : Time) (h : Ptr.jsonTime t = some t') : t' = t := by
  unfold Ptr.jsonTime at h
  split at h
  · cases h
    rfl
  · exact Option.noConfusion h

theorem sameNodeAfterReload_jsonNode (n n' : Ptr.Node) (h : Ptr.jsonNode n = some n') :
    Ptr.sameNodeAfterReload (some n) (some n') := by
  unfold Ptr.jsonNode at h
  split at h
  · rename_i addr la ls lsn haddr hla hls hlsn
    cases h
    refine ⟨?_, jsonTime_eq _ _ hla, jsonTime_eq _ _ hls, jsonTime_eq _ _ hlsn, rfl⟩
    simp only
    cases hA : n.Addr with
    | none =>
      rw [hA] at haddr
      cases haddr
      trivial
    | some a =>
      rw [hA] at haddr
      simp only [Ptr.jsonAddr, Option.map_map] at haddr
      cases hip : Ptr.jsonIP a.IP with
      | none => rw [hip] at haddr; exact Option.noConfusion haddr
      | some ip' =>
        rw [hip] at haddr
        cases haddr
        exact ⟨ipEqual_jsonIP _ _ hip, rfl⟩
  · exact Option.noConfusion h

theorem jsonEntries_same (entries written : List (String × Option Ptr.Node))
    (h : Ptr.jsonEntries entries = some written) :
    written.map Prod.fst = entries.map Prod.fst ∧
      List.Forall₂ (fun x y => y.1 = x.1 ∧ Ptr.sameNodeAfterReload x.2 y.2) entries written := by
  induction entries generalizing written with
  | nil =>
    cases h
    exact ⟨rfl, List.Forall₂.nil⟩
  | cons kn rest ih =>
    obtain ⟨k, node⟩ := kn
    cases node with
    | none =>
      simp only [Ptr.jsonEntries] at h
      cases hr : Ptr.jsonEntries rest with
      | none => rw [hr] at h; exact Option.noConfusion h
      | some r =>
        rw [hr] at h
        cases h
        obtain ⟨hk, hf⟩ := ih r hr
        exact ⟨by simp [hk], List.Forall₂.cons ⟨rfl, trivial⟩ hf⟩
    | some n =>
      simp only [Ptr.jsonEntries] at h
      cases hn : Ptr.jsonNode n with
      | none => rw [hn] at h; exact Option.noConfusion h
      | some n' =>
        cases hr : Ptr.jsonEntries rest with
        | none => rw [hn, hr] at h; exact Option.noConfusion h
        | some r =>
          rw [hn, hr] at h
          cases h
          obtain ⟨hk, hf⟩ := ih r hr
          exact ⟨by simp [hk],
            List.Forall₂.cons ⟨rfl, sameNodeAfterReload_jsonNode n n' hn⟩ hf⟩

/-- C15: the operations of the table do not all complete on a table loaded from
a snapshot that decodes without an error. The content `null` decodes to a nil
map, which `deserializePeers` stores in place of the empty map without an
error, and the next `AddAddresses` of a new routable address panics on the
assignment to an entry of the nil map. The content
`{"203.0.113.5_18111": null}` decodes to a map with a nil node, on which
`Addresses`, `GoodAddresses`, `Attempt`, `Good` and `prunePeers` panic, and a
node without `Addr` makes `GoodAddresses` and `prunePeers` panic. -/
theorem operations_panic_after_snapshot_with_null :
    Ptr.NewManager (.decoded none) = (⟨none⟩, .decoded none) ∧
      (Ptr.NewManager (.decoded none)).1.AddAddresses testEnv [peerA] tenHours = none ∧
      (Ptr.NewManager (.decoded (some [("203.0.113.5_18111", none)]))).1.Addresses testEnv
        tenHours = none ∧
      (Ptr.NewManager (.decoded (some [("203.0.113.5_18111", none)]))).1.GoodAddresses testEnv
        tenHours TypeA true none = none ∧
      (Ptr.NewManager (.decoded (some [("203.0.113.5_18111", none)]))).1.Attempt testEnv
        (some peerA) tenHours = none ∧
      (Ptr.NewManager (.decoded (some [("203.0.113.5_18111", none)]))).1.Good testEnv
        (some peerA) none tenHours = none ∧
      (Ptr.NewManager (.decoded (some [("203.0.113.5_18111", none)]))).1.prunePeers testEnv
        tenHours = none ∧
      (Ptr.NewManager (.decoded (some [("203.0.113.5_18111",
        some { Addr := none, LastAttempt := 0, LastSuccess := 0, LastSeen := tenHours,
               SubnetworkID := none })]))).1.GoodAddresses testEnv tenHours TypeA true none =
        none ∧
      (Ptr.NewManager (.decoded (some [("203.0.113.5_18111",
        some { Addr := none, LastAttempt := 0, LastSuccess := 0, LastSeen := tenHours,
               SubnetworkID := none })]))).1.prunePeers testEnv tenHours = none ∧
      (Ptr.NewManager .absent).1.AddAddresses testEnv [peerA] tenHours =
        some ((Manager.empty.AddAddresses testEnv [peerA] tenHours).1.toPtr, 1) := by
  decide

theorem jsonNode_toPtr_of_encodes (n : Node) (h : snapshotEncodes n = true) :
    ∃ n' : Node, Ptr.jsonNode n.toPtr = some n'.toPtr ∧ sameAfterReload n n' := by
  simp only [snapshotEncodes, Bool.and_eq_true, Bool.or_eq_true, beq_iff_eq,
    decide_eq_true_eq] at h
  obtain ⟨⟨⟨hip, h1⟩, h2⟩, h3⟩ := h
  have hjip : ∃ ip', Ptr.jsonIP n.Addr.IP = some ip' := by
    unfold Ptr.jsonIP
    rcases hip with (h0 | h4) | h16
    · exact ⟨[], by simp [h0]⟩
    · exact ⟨Ptr.To16 n.Addr.IP, by simp [h4]⟩
    · exact ⟨Ptr.To16 n.Addr.IP, by simp [h16]⟩
  obtain ⟨ip', hip'⟩ := hjip
  refine ⟨{ Addr := { Timestamp := 0, IP := ip', Port := n.Addr.Port },
            LastAttempt := n.LastAttempt, LastSuccess := n.LastSuccess,
            LastSeen := n.LastSeen, SubnetworkID := n.SubnetworkID }, ?_, ?_⟩
  · simp only [Ptr.jsonNode, Node.toPtr, Ptr.jsonAddr, hip', Ptr.jsonTime, h1, h2, h3,
      if_true, Option.map_some']
  · exact ⟨ipEqual_jsonIP _ _ hip', rfl, rfl, rfl, rfl, rfl⟩

theorem jsonNode_toPtr_of_not_encodes (n : Node) (h : snapshotEncodes n = false) :
    Ptr.jsonNode n.toPtr = none := by
  cases hj : Ptr.jsonNode n.toPtr with
  | none => rfl
  | some n' =>
    exfalso
    have hne : snapshotEncodes n = true := by
      unfold Ptr.jsonNode at hj
      split at hj
      · rename_i addr la ls lsn haddr hla hls hlsn
        simp only [Node.toPtr, Ptr.jsonAddr] at haddr hla hls hlsn
        have hip : n.Addr.IP.length = 0 ∨ n.Addr.IP.length = 4 ∨ n.Addr.IP.length = 16 := by
          cases hjip : Ptr.jsonIP n.Addr.IP with
          | none => rw [hjip] at haddr; simp at haddr
          | some ip' =>
            unfold Ptr.jsonIP at hjip
            by_cases h0 : n.Addr.IP.length = 0
            · exact Or.inl h0
            · by_cases h4 : n.Addr.IP.length = 4
              · exact Or.inr (Or.inl h4)
              · by_cases h16 : n.Addr.IP.length = 16
                · exact Or.inr (Or.inr h16)
                · simp [h0, h4, h16] at hjip
        have ht : ∀ t t' : Time, Ptr.jsonTime t = some t' → t < Ptr.yearTenThousand := by
          intro t t' htt
          unfold Ptr.jsonTime at htt
          by_cases hlt : t < Ptr.yearTenThousand
          · exact hlt
          · rw [if_neg hlt] at htt
            exact Option.noConfusion htt
        simp only [snapshotEncodes, Bool.and_eq_true, Bool.or_eq_true, beq_iff_eq,
          decide_eq_true_eq]
        exact ⟨⟨⟨by tauto, ht _ _ hla⟩, ht _ _ hls⟩, ht _ _ hlsn⟩
      · exact Option.noConfusion hj
    rw [h] at hne
    exact Bool.noConfusion hne

theorem jsonEntries_toPtr_of_encodes (nodes : List (String × Node))
    (h : ∀ kn ∈ nodes, snapshotEncodes kn.2 = true) :
    ∃ loaded : List (String × Node),
      Ptr.jsonEntries (toPtrEntries nodes) = some (toPtrEntries loaded) ∧
        loaded.map Prod.fst = nodes.map Prod.fst ∧
        List.Forall₂ (fun x y => y.1 = x.1 ∧ sameAfterReload x.2 y.2) nodes loaded := by
  induction nodes with
  | nil => exact ⟨[], rfl, rfl, List.Forall₂.nil⟩
  | cons kn rest ih =>
    obtain ⟨k, n⟩ := kn
    obtain ⟨r, hr, hk, hf⟩ := ih (fun x hx => h x (List.mem_cons_of_mem _ hx))
    obtain ⟨n', hn', hsame⟩ := jsonNode_toPtr_of_encodes n (h (k, n) (List.mem_cons_self _ _))
    refine ⟨(k, n') :: r, ?_, by simp [hk], List.Forall₂.cons ⟨rfl, hsame⟩ hf⟩
    simp only [toPtrEntries, List.map_cons, Ptr.jsonEntries] at hr ⊢
    rw [hn', hr]

theorem jsonEntries_toPtr_of_not_encodes (nodes : List (String × Node))
    (h : ¬ ∀ kn ∈ nodes, snapshotEncodes kn.2 = true) :
    Ptr.jsonEntries (toPtrEntries nodes) = none := by
  induction nodes with
  | nil => exact absurd (fun _ hx => absurd hx (List.not_mem_nil _)) h
  | cons kn rest ih =>
    obtain ⟨k, n⟩ := kn
    simp only [toPtrEntries, List.map_cons, Ptr.jsonEntries]
    cases hn : snapshotEncodes n with
    | false => rw [jsonNode_toPtr_of_not_encodes n hn]
    | true =>
      have hrest : ¬ ∀ kn ∈ rest, snapshotEncodes kn.2 = true := by
        intro hall
        apply h
        intro x hx
        rcases List.mem_cons.1 hx with rfl | hx
        · exact hn
        · exact hall x hx
      have := ih hrest
      simp only [toPtrEntries] at this
      rw [this]
      cases Ptr.jsonNode n.toPtr <;> rfl

/-- C16, as stated, fails: `AddAddresses` stores a peer whose address is a slice
of five bytes under the key `?2d210c0509_18111`; `Encode` refuses that address,
so `Save`, with every file operation succeeding, leaves the snapshot file
absent, and `Load` into a fresh manager yields the empty table, whose key set
is not the one of the saved table. -/
theorem savePeers_writes_nothing_for_five_byte_address :
    (Manager.empty.AddAddresses testEnv [peerFiveBytes] newYear2024).1.keys =
        ["?2d210c0509_18111"] ∧
      (Manager.empty.AddAddresses testEnv [peerFiveBytes] newYear2024).1.toPtr.savePeers
        true true true .absent = .absent ∧
      (Ptr.NewManager
        ((Manager.empty.AddAddresses testEnv [peerFiveBytes] newYear2024).1.toPtr.savePeers
          true true true .absent)).1 = ⟨some []⟩ ∧
      (Ptr.NewManager
        ((Manager.empty.AddAddresses testEnv [peerFiveBytes] newYear2024).1.toPtr.savePeers
          true true true .absent)).1.entries.map Prod.fst ≠
        (Manager.empty.AddAddresses testEnv [peerFiveBytes] newYear2024).1.toPtr.entries.map
          Prod.fst := by
  decide

/-- C16, amended: on every table in which each node has an IP of 0, 4 or 16
bytes and its three instants before the year 10000, `Save` with its file
operations succeeding writes the snapshot, and `Load` into a fresh manager
yields a table without nil pointers that has the same keys and, entry by entry
under the same key, a node with the same IP address and port, the same
`LastAttempt`, `LastSuccess` and `LastSeen`, zero ones included, and the same
subnetwork id. On every other table, and whenever a file operation fails,
`Save` leaves the snapshot file as it was. The last part is the same round trip
for a table with nil pointers, whenever `Encode` accepts it: a nil map is
loaded as a nil map and a nil node as a nil node. -/
theorem savePeers_then_load_keeps_keys_and_nodes :
    (∀ (m : Manager) (file : Ptr.PeersFile),
      (∀ kn ∈ m.nodes, snapshotEncodes kn.2 = true) →
      ∃ loaded : Manager,
        m.toPtr.savePeers true true true file = .decoded loaded.toPtr.nodes ∧
        (Ptr.NewManager (m.toPtr.savePeers true true true file)).1 = loaded.toPtr ∧
        loaded.keys = m.keys ∧
        List.Forall₂ (fun x y => y.1 = x.1 ∧ sameAfterReload x.2 y.2) m.nodes loaded.nodes) ∧
    (∀ (m : Manager) (file : Ptr.PeersFile) (createOk closeOk renameOk : Bool),
      (¬ ∀ kn ∈ m.nodes, snapshotEncodes kn.2 = true) →
        m.toPtr.savePeers createOk closeOk renameOk file = file) ∧
    (∀ (m : Ptr.Manager) (file : Ptr.PeersFile) (createOk closeOk renameOk : Bool),
      (createOk && closeOk && renameOk) = false →
        m.savePeers createOk closeOk renameOk file = file) ∧
    (∀ (m : Ptr.Manager) (file : Ptr.PeersFile)
        (written : Option (List (String × Option Ptr.Node))),
      Ptr.jsonNodes m.nodes = some written →
        m.savePeers true true true file = .decoded written ∧
        (Ptr.NewManager (m.savePeers true true true file)).1 = ⟨written⟩ ∧
        (written = none ↔ m.nodes = none) ∧
        (Ptr.Manager.mk written).entries.map Prod.fst = m.entries.map Prod.fst ∧
        List.Forall₂ (fun x y => y.1 = x.1 ∧ Ptr.sameNodeAfterReload x.2 y.2) m.entries
          (Ptr.Manager.mk written).entries) := by
  refine ⟨?_, ?_, ?_, ?_⟩
  · intro m file h
    obtain ⟨loaded, hl, hk, hf⟩ := jsonEntries_toPtr_of_encodes m.nodes h
    have hsave : m.toPtr.savePeers true true true file =
        .decoded (Manager.toPtr ⟨loaded⟩).nodes := by
      simp [Ptr.Manager.savePeers, Manager.toPtr, Ptr.jsonNodes, hl]
    refine ⟨⟨loaded⟩, hsave, ?_, hk, hf⟩
    rw [hsave]
    rfl
  · intro m file createOk closeOk renameOk h
    have hn := jsonEntries_toPtr_of_not_encodes m.nodes h
    cases createOk <;> simp [Ptr.Manager.savePeers, Manager.toPtr, Ptr.jsonNodes, hn]
  · intro m file createOk closeOk renameOk h
    cases createOk <;> cases closeOk <;> cases renameOk <;>
      first
        | exact Bool.noConfusion h
        | (simp only [Ptr.Manager.savePeers]; cases Ptr.jsonNodes m.nodes <;> rfl)
  · intro m file written hw
    have hsave : m.savePeers true true true file = .decoded written := by
      simp [Ptr.Manager.savePeers, hw]
    refine ⟨hsave, by rw [hsave]; rfl, ?_⟩
    obtain ⟨nodes⟩ := m
    cases nodes with
    | none =>
      simp only [Ptr.jsonNodes] at hw
      cases hw
      exact ⟨Iff.rfl, rfl, List.Forall₂.nil⟩
    | some entries =>
      simp only [Ptr.jsonNodes] at hw
      cases he : Ptr.jsonEntries entries with
      | none => rw [he] at hw; exact Option.noConfusion hw
      | some w =>
        rw [he] at hw
        cases hw
        obtain ⟨hk, hf⟩ := jsonEntries_same entries w he
        refine ⟨?_, hk, hf⟩
        constructor <;> intro h <;> exact Option.noConfusion h

/-- An instance of the amended C16: the sample table is saved over an absent
snapshot and loaded into a fresh manager. -/
theorem savePeers_then_load_keeps_keys_and_nodes_witness :
    (∀ kn ∈ sampleTable.nodes, snapshotEncodes kn.2 = true) ∧
      ∃ loaded : Manager,
        sampleTable.toPtr.savePeers true true true .absent = .decoded loaded.toPtr.nodes ∧
        (Ptr.NewManager (sampleTable.toPtr.savePeers true true true .absent)).1 =
          loaded.toPtr ∧
        loaded.keys = sampleTable.keys ∧
        List.Forall₂ (fun x y => y.1 = x.1 ∧ sameAfterReload x.2 y.2) sampleTable.nodes
          loaded.nodes :=
  ⟨by decide,
    savePeers_then_load_keeps_keys_and_nodes.1 sampleTable .absent (by decide)⟩

/-- An instance of C12 on the sample table, whose keys include the one of
`peerA`. -/
theorem Attempt_and_Good_change_one_node_only_witness :
    addrKey testEnv peerA ∈ sampleTable.keys ∧
      (sampleTable.Attempt testEnv peerA tenHours).nodes =
        sampleTable.nodes.map (fun kn =>
          if kn.1 = addrKey testEnv peerA then (kn.1, { kn.2 with LastAttempt := tenHours })
          else kn) ∧
      (sampleTable.Attempt testEnv peerA tenHours).keys = sampleTable.keys :=
  ⟨by decide,
    ((Attempt_and_Good_change_one_node_only testEnv sampleTable peerA none tenHours).1
      (by decide)).1,
    (Attempt_and_Good_change_one_node_only testEnv sampleTable peerA none tenHours).2.2.1⟩

/-- An instance of the amended C13: a `Good` with the id `[9]` on the sample
table makes no subnetwork id null. -/
theorem SubnetworkID_changes_only_in_Good_witness :
    (some [9] : Option DomainSubnetworkID) ≠ none ∧
      ∀ kn ∈ (sampleTable.applyOp testEnv tenHours (.good peerA (some [9]))).nodes,
        ∃ n, (kn.1, n) ∈ sampleTable.nodes ∧
          (n.SubnetworkID ≠ none → kn.2.SubnetworkID ≠ none) :=
  ⟨by decide,
    (SubnetworkID_changes_only_in_Good testEnv sampleTable tenHours).2.2 peerA (some [9])
      (by decide)⟩

/-- An instance of C14: the loopback address is rejected by the routability
predicate of `testEnv`, and adding it changes nothing. -/
theorem AddAddresses_ignores_non_routable_witness :
    (∀ a ∈ [peerLoopback], testEnv.IsRoutable a testEnv.AcceptUnroutable = false) ∧
      sampleTable.AddAddresses testEnv [peerLoopback] tenHours = (sampleTable, 0) :=
  ⟨by decide,
    (AddAddresses_ignores_non_routable testEnv).2.1 sampleTable [peerLoopback] tenHours
      (by decide)⟩

end Dnsseeder
